import Mathlib

/-!
A shallow embedding of the core of the `litter` pretty-printer
(files `dump.go` and `mapper.go` of sanity-io/litter), together with
machine-checked statements about its specification.

Modelling conventions:
* Go `reflect.Value` graphs are modelled by the inductive type `Val` plus a
  `Heap` mapping pointer identities (Go: `uintptr` addresses) to their targets.
  A reference identity is a positive `Nat`; the zero address never appears
  (nil pointers and nil maps have their own constructors, matching the fact
  that the Go code treats a zero `Pointer()` as identity-less).
* Type names are carried verbatim in the nodes.  The regular-expression based
  package-name stripping and compacting of type names is out of scope (the
  spec explicitly treats the type-name simplification as an external
  collaborator), so `dumpType` writes the stored name unchanged and the
  corresponding `Options` fields are not modelled.
* The custom-dumper hooks (`DumpFunc`, `LitterDump`) and `time.Time`
  formatting are not modelled: no modelled value implements them, matching
  runs of the source on the modelled value domain.
* Output is accumulated in a `String`; the Go `io.Writer` never fails in the
  model (write errors panic in the source and are out of the claims' scope).
* Recursive functions are defined with an explicit fuel parameter (first
  argument, structural recursion); `none` means the fuel ran out (or the heap
  was ill-formed at a pointer lookup).  Termination for sufficient fuel is
  proved, not assumed.
* In addition to the text, the renderer records a ghost `log` of gate events
  (full-body render, bare-label emission, annotation flush, struct-field
  emission).  The log is write-only instrumentation used by the
  specification theorems; it never influences the produced text.
-/

set_option maxHeartbeats 1000000

namespace Litter

/-- A Go value as seen through `reflect`, restricted to the kinds the claims
exercise: bools, ints, strings, nil interfaces, pointers (nil and non-nil),
structs, arrays, slices, maps (nil and non-nil).  Reference-kinded nodes
(`vptr`, `vslice`, `vmap`) carry their identity (`v.Pointer()` in Go); a
pointer also carries the textual name of its element type, a struct field
carries `(Name, PkgPath, value)` where a nonempty `PkgPath` marks an
unexported field. -/
inductive Val : Type where
  | vbool (b : Bool)
  | vint (n : Int)
  | vstr (s : String)
  | vnil
  | vnilptr
  | vptr (elemType : String) (id : Nat)
  | vstruct (typeName : String) (fields : List (String × String × Val))
  | varray (typeName : String) (elems : List Val)
  | vslice (typeName : String) (id : Nat) (elems : List Val)
  | vmap (typeName : String) (id : Nat) (entries : List (Val × Val))
  | vnilmap (typeName : String)

/-- The store backing non-nil pointers: identity ↦ pointed-to value. -/
def Heap : Type := List (Nat × Val)

/-- Modelled from the spec (§4.1 Identity Resolver; the helper
`isPointerValue`/`v.Pointer()` lives in a file missing from the corpus):
the identity of a reference-kinded value, `none` for value kinds and for
references whose target address is zero (nil pointer, nil map). -/
def identityOf : Val → Option Nat
  | .vptr _ id => some id
  | .vslice _ id _ => some id
  | .vmap _ id _ => some id
  | _ => none

/-- State of the reachability scanner (`pointerVisitor` in mapper.go):
identities seen at least once, and identities seen at least twice. -/
structure ScanState where
  pointers : List Nat
  reused : List Nat

def ScanState.empty : ScanState := ⟨[], []⟩

/-- `addPointerReturnTrueIfWasReused` from mapper.go: record one encounter of
`ptr`, and report whether it had been seen before. -/
def addPointerReturnTrueIfWasReused (st : ScanState) (ptr : Nat) :
    Bool × ScanState :=
  if st.reused.contains ptr then
    (true, st)
  else if st.pointers.contains ptr then
    (true, { st with reused := ptr :: st.reused })
  else
    (false, { st with pointers := ptr :: st.pointers })

/-- Requests processed by the scanner: a single value, a list of child
values, or map entries (whose values alone are visited, as in mapper.go). -/
inductive SReq : Type where
  | one (v : Val)
  | many (vs : List Val)
  | entries (es : List (Val × Val))

/-- `pointerVisitor.consider` from mapper.go, fuelled.  A value with a
non-zero identity is recorded; if it had been seen before the scanner stops
descending.  Otherwise children are visited: slice/array elements in order,
a pointer's target (via the heap), each map entry's value (the source sorts
the keys first, which only permutes the visit order and cannot change the
computed sets), every struct field including unexported ones.  `none` means
out of fuel or a dangling pointer. -/
def scanF : Nat → Heap → ScanState → SReq → Option ScanState
  | 0, _, _, _ => none
  | Nat.succ n, h, st, .one v =>
    let step : Bool × ScanState :=
      match identityOf v with
      | some id => addPointerReturnTrueIfWasReused st id
      | none => (false, st)
    if step.1 then
      some step.2
    else
      match v with
      | .vslice _ _ es => scanF n h step.2 (.many es)
      | .varray _ es => scanF n h step.2 (.many es)
      | .vptr _ id =>
        match h.lookup id with
        | some t => scanF n h step.2 (.one t)
        | none => none
      | .vmap _ _ es => scanF n h step.2 (.entries es)
      | .vstruct _ fs => scanF n h step.2 (.many (fs.map (fun f => f.2.2)))
      | _ => some step.2
  | Nat.succ _, _, st, .many [] => some st
  | Nat.succ n, h, st, .many (v :: vs) => do
    let st2 ← scanF n h st (.one v)
    scanF n h st2 (.many vs)
  | Nat.succ _, _, st, .entries [] => some st
  | Nat.succ n, h, st, .entries (e :: es) => do
    let st2 ← scanF n h st (.one e.2)
    scanF n h st2 (.entries es)

/-- `MapReusedPointers`/`mapReusedPointers`: scan one root value and return
the identities referenced at least twice. -/
def mapReusedPointers (n : Nat) (h : Heap) (v : Val) : Option (List Nat) :=
  (scanF n h ScanState.empty (.one v)).map ScanState.reused

/-- The configuration options threaded through the renderer (`Options` in
dump.go).  `FieldExclusions` (a regexp in Go) is modelled as a predicate on
field names, `FieldFilter` receives the field's name, package path and
value.  `StripPackageNames`, `HomePackage`, `DumpFunc` and `FormatTime`
are not modelled (type-name rewriting and custom formatting hooks are out
of the modelled core). -/
structure Options where
  compact : Bool := false
  hidePrivateFields : Bool := false
  hideZeroValues : Bool := false
  fieldExclusions : Option (String → Bool) := none
  fieldFilter : Option (String → String → Val → Bool) := none
  separator : String := ""
  strictGo : Bool := false
  disablePointerReplacement : Bool := false

/-- The default `Config` of dump.go: hide private fields, exclude the
protoc-generated `XXX_` fields, separate arguments with one space. -/
def Config : Options :=
  { hidePrivateFields := true
    fieldExclusions := some (fun name => name.startsWith "XXX_")
    separator := " " }

/-- Requests for the zero-value test. -/
inductive ZReq : Type where
  | one (v : Val)
  | many (vs : List Val)
  | fields (fs : List (String × String × Val))

/-- Modelled from the spec (`isZeroValue` lives in a file missing from the
corpus; spec §4.4: a field is skippable when "the field's value is the
type's zero value"): nil references and structurally-zero values are zero.
Fuelled like every recursive definition here. -/
def isZeroRun : Nat → ZReq → Option Bool
  | 0, _ => none
  | Nat.succ n, .one v =>
    match v with
    | .vbool b => some (!b)
    | .vint k => some (k == 0)
    | .vstr s => some (s == "")
    | .vnil => some true
    | .vnilptr => some true
    | .vnilmap _ => some true
    | .vptr _ _ => some false
    | .vslice _ _ _ => some false
    | .vmap _ _ _ => some false
    | .vstruct _ fs => isZeroRun n (.fields fs)
    | .varray _ es => isZeroRun n (.many es)
  | Nat.succ _, .many [] => some true
  | Nat.succ n, .many (v :: vs) => do
    let b1 ← isZeroRun n (.one v)
    let b2 ← isZeroRun n (.many vs)
    some (b1 && b2)
  | Nat.succ _, .fields [] => some true
  | Nat.succ n, .fields (f :: fs) => do
    let b1 ← isZeroRun n (.one f.2.2)
    let b2 ← isZeroRun n (.fields fs)
    some (b1 && b2)

/-- One escaped character of `strconv.Quote` (the escapes exercised by the
modelled value domain: quote, backslash, newline, tab; other characters are
printable and pass through unchanged). -/
def escapeChar : Char → String
  | '"' => "\\\""
  | '\\' => "\\\\"
  | '\n' => "\\n"
  | '\t' => "\\t"
  | c => String.singleton c

/-- `strconv.Quote` as used by the string case of `dumpVal`. -/
def goQuote (s : String) : String :=
  "\"" ++ String.join (s.toList.map escapeChar) ++ "\""

/-- Lexicographic comparison of two character lists by code point, the
order `mapKeySorter.Less` induces on rendered key fragments (Go compares
the UTF-8 strings bytewise with `<`; on the modelled printable domain the
code-point order coincides). -/
def charsLe : List Char → List Char → Bool
  | [], _ => true
  | _ :: _, [] => false
  | a :: as, b :: bs =>
    if a.toNat < b.toNat then true
    else if b.toNat < a.toNat then false
    else charsLe as bs

/-- Non-strict string comparison used to model the order produced by
`sort.Sort(mapKeySorter{...})` (sorted so that no later key is strictly
below an earlier one). -/
def strLe (a b : String) : Bool := charsLe a.toList b.toList

/-- Ghost events recorded by the renderer: a tracked reference's full body
render beginning (`body`), a bare-label emission for an already-rendered
reference (`bare`), a pointer-name annotation actually attached to a line
(`flush`), a struct field surviving the filters (`fieldEv`), and a
duplicate full-body render under `DisablePointerReplacement` (`dup`).
The log is specification instrumentation; it never influences the text. -/
inductive Ev : Type where
  | body (id : Nat)
  | bare (id : Nat) (lab : String)
  | flush (id : Nat) (lab : String)
  | fieldEv (depth : Nat) (name : String)
  | dup (id : Nat)
deriving DecidableEq

/-- The render-session state (`dumpState` in dump.go) without its output
buffer: the buffer is write-only in the source (every emission appends), so
the model returns each call's emitted text and ghost events as deltas
instead of threading the buffer.  `pointers` is the reused-identity set
produced by the scanner, `visited` the identities whose rendering has
started (`visitedPointers`), `parents` the stack of identities currently
being rendered (`parentPointers`), `labels` the label registry in
assignment order (an identity's index is its label number), `current` the
pending pointer name to attach to the next emitted line. -/
structure DumpState where
  depth : Nat
  pointers : List Nat
  visited : List Nat
  parents : List Nat
  labels : List Nat
  current : Option Nat

/-- `dumpState.indent`: two spaces per depth level, nothing in compact
mode. -/
def indent (o : Options) (s : DumpState) : String :=
  if o.compact then "" else String.join (List.replicate s.depth "  ")

def labelString (i : Nat) : String := "p" ++ toString i

/-- Modelled from the spec (§4.3 Label Registry; `ptrinfo.label` lives in a
file missing from the corpus): the label of an identity, allocated lazily
as `p0`, `p1`, … in first-request order during rendering. -/
def DumpState.labelOf (s : DumpState) (id : Nat) : String × DumpState :=
  match s.labels.findIdx? (fun x => x == id) with
  | some i => (labelString i, s)
  | none => (labelString s.labels.length, { s with labels := s.labels ++ [id] })

/-- `dumpState.newlineWithPointerNameComment`: if a pointer name is pending,
attach it (` // pN` plus newline in verbose mode, `/*pN*/` inline in compact
mode) and clear it; otherwise just break the line (verbose mode only). -/
def newlineWithPointerNameComment (o : Options) (s : DumpState) :
    DumpState × String × List Ev :=
  match s.current with
  | some id =>
    let ls := s.labelOf id
    ({ ls.2 with current := none },
     (if o.compact then "/*" ++ ls.1 ++ "*/" else " // " ++ ls.1 ++ "\n"),
     [Ev.flush id ls.1])
  | none => (s, (if o.compact then "" else "\n"), [])

/-- `dumpState.dumpType`, restricted to the modelled configuration surface:
the stored type name is emitted unchanged (package stripping / home-package
rewriting / compacting are regex text substitutions outside the core). -/
def dumpType (typeName : String) : String :=
  typeName

/-- `dumpState.pointerFor` (dump.go): if the value's identity is one of the
scanner's reused pointers, register the visit and report whether this is
the first one.  The `ptrmap.get`/`add` helpers are missing from the corpus
and modelled from the spec (§4.3): membership keyed by identity, `add`
reporting first insertion. -/
def pointerFor (s : DumpState) (v : Val) : Option Nat × Bool × DumpState :=
  match identityOf v with
  | some id =>
    if s.pointers.contains id then
      if s.visited.contains id then (some id, false, s)
      else (some id, true, { s with visited := id :: s.visited })
    else (none, false, s)
  | none => (none, false, s)

/-- The renderer's work items: one per recursive entry point of dump.go
(`dump`, `dumpVal`, `descendIntoPossiblePointer` with its body closure,
the Ptr-case closure, `dumpSlice` and its element loop, `dumpStruct`'s
field loop, `dumpMap` with its key-sorting pass and entry loop). -/
inductive Req : Type where
  | rtop (v : Val)
  | rval (v : Val)
  | rgate (v : Val) (body : Req)
  | rptrBody (elemType : String) (id : Nat)
  | rsliceBody (typeName : String) (elems : List Val)
  | rslElems (elems : List Val) (i : Nat) (total : Nat)
  | rfields (typeName : String) (fields : List (String × String × Val))
      (i : Nat) (total : Nat) (pre : Bool)
  | rmapBody (typeName : String) (entries : List (Val × Val)) (isNilMap : Bool)
  | rmapPrep (typeName : String) (pending : List (Val × Val))
      (acc : List (String × Val × Val)) (total : Nat)
  | rentries (es : List (Val × Val)) (i : Nat) (total : Nat)

/-- First `continue` of `dumpStruct`'s field loop: hidden private field or
name matched by the exclusion pattern. -/
def fieldExcluded (o : Options) (name pkgPath : String) : Bool :=
  (o.hidePrivateFields && !(pkgPath == "")) ||
    (match o.fieldExclusions with
     | some p => p name
     | none => false)

/-- Second `continue` of `dumpStruct`'s field loop: rejected by the
caller-supplied field filter. -/
def fieldFilteredOut (o : Options) (name pkgPath : String) (v : Val) : Bool :=
  match o.fieldFilter with
  | some flt => !flt name pkgPath v
  | none => false

/-- A fresh render state over a given reused-pointer set (`newDumpState`
composed with its `mapReusedPointers` call). -/
def initDumpState (reused : List Nat) : DumpState :=
  ⟨0, reused, [], [], [], none⟩

/-- Modelled from the spec (`ptrmap.add`/`remove` on `parentPointers` are
missing from the corpus; spec §3 calls it "a stack of identities currently
being rendered" and §4.4 promises no infinite recursion on cycles): `add`
pushes the identity if absent and reports whether it pushed; the matching
`remove` in `descendIntoPossiblePointer` pops exactly what was pushed. -/
def parentsAdd (s : DumpState) (id : Nat) : Bool × DumpState :=
  if s.parents.contains id then (false, s)
  else (true, { s with parents := id :: s.parents })

/-- The recursive renderer of dump.go, fuelled.  Each case is the body of
the corresponding Go function (see `Req`); the returned triple is the
final state, the text this call appends to the output, and the ghost
events it records.  In `rgate` (`descendIntoPossiblePointer`) the missing
`ptrmap.add`/`remove` pair on `parentPointers` is modelled from the spec
("a stack of identities currently being rendered"): a frame pushes the
identity if absent and pops exactly what it pushed. -/
def runF : Nat → Options → Heap → DumpState → Req →
    Option (DumpState × String × List Ev)
  | 0, _, _, _, _ => none
  | Nat.succ n, o, h, s, .rtop v =>
    match v with
    | .vnil => some (s, "nil", [])
    | _ => runF n o h s (.rval v)
  | Nat.succ n, o, h, s, .rval v =>
    match v with
    | .vnilptr => some (s, "nil", [])
    | .vbool b => some (s, if b then "true" else "false", [])
    | .vint k => some (s, toString k, [])
    | .vstr str => some (s, goQuote str, [])
    | .vnil => some (s, "nil", [])
    | .vslice tn _ es => runF n o h s (.rgate v (.rsliceBody tn es))
    | .varray tn es => runF n o h s (.rgate v (.rsliceBody tn es))
    | .vptr tn id => runF n o h s (.rgate v (.rptrBody tn id))
    | .vmap tn _ es => runF n o h s (.rgate v (.rmapBody tn es false))
    | .vnilmap tn => runF n o h s (.rgate v (.rmapBody tn [] true))
    | .vstruct tn fs => runF n o h s (.rfields tn fs 0 fs.length false)
  | Nat.succ n, o, h, s, .rgate v body =>
    match identityOf v with
    | none => runF n o h s body
    | some id =>
      let add := parentsAdd s id
      let canonicalize := !(o.disablePointerReplacement && add.1)
      let core :=
        if !canonicalize then
          match pointerFor add.2 v with
          | (cur, _, s2) =>
            let pre : List Ev :=
              match cur with
              | some pid => [Ev.dup pid]
              | none => []
            Option.map (fun rb => (rb.1, rb.2.1, pre ++ rb.2.2))
              (runF n o h { s2 with current := cur } body)
        else
          match pointerFor add.2 v with
          | (none, _, s2) => runF n o h s2 body
          | (some pid, firstVisit, s2) =>
            if firstVisit then
              Option.map (fun rb => (rb.1, rb.2.1, Ev.body pid :: rb.2.2))
                (runF n o h { s2 with current := some pid } body)
            else
              let ls := s2.labelOf pid
              some (ls.2, ls.1, [Ev.bare pid ls.1])
      Option.map
        (fun r => if add.1
          then ({ r.1 with parents := r.1.parents.erase id }, r.2)
          else r) core
  | Nat.succ n, o, h, s, .rptrBody elemTn id =>
    match h.lookup id with
    | none => none
    | some t =>
      if o.strictGo then
        Option.map
          (fun r => (r.1,
            "(func(v " ++ elemTn ++ ") *" ++ elemTn ++ " \x7b return &v \x7d)("
              ++ r.2.1 ++ ")",
            r.2.2))
          (runF n o h s (.rval t))
      else
        Option.map (fun r => (r.1, "&" ++ r.2.1, r.2.2))
          (runF n o h s (.rval t))
  | Nat.succ n, o, h, s, .rsliceBody tn es =>
    if es.isEmpty then some (s, dumpType tn ++ "\x7b\x7d", [])
    else
      let nl := newlineWithPointerNameComment o s
      Option.map
        (fun r =>
          let s2 := { r.1 with depth := r.1.depth - 1 }
          (s2,
            dumpType tn ++ "\x7b" ++ nl.2.1 ++ r.2.1 ++ indent o s2 ++ "\x7d",
            nl.2.2 ++ r.2.2))
        (runF n o h { nl.1 with depth := nl.1.depth + 1 }
          (.rslElems es 0 es.length))
  | Nat.succ _, _, _, s, .rslElems [] _ _ => some (s, "", [])
  | Nat.succ n, o, h, s, .rslElems (e :: es) i total =>
    Option.bind (runF n o h s (.rval e)) (fun r1 =>
      let nl := newlineWithPointerNameComment o r1.1
      Option.map
        (fun r2 => (r2.1,
          indent o s ++ r1.2.1
            ++ (if !o.compact || i < total - 1 then "," else "")
            ++ nl.2.1 ++ r2.2.1,
          r1.2.2 ++ nl.2.2 ++ r2.2.2))
        (runF n o h nl.1 (.rslElems es (i + 1) total)))
  | Nat.succ _, o, _, s, .rfields tn [] _ _ pre =>
    if pre then
      some ({ s with depth := s.depth - 1 },
        indent o { s with depth := s.depth - 1 } ++ "\x7d", [])
    else some (s, dumpType tn ++ "\x7b\x7d", [])
  | Nat.succ n, o, h, s, .rfields tn (f :: fs) i total pre =>
    if fieldExcluded o f.1 f.2.1 then
      runF n o h s (.rfields tn fs (i + 1) total pre)
    else if fieldFilteredOut o f.1 f.2.1 f.2.2 then
      runF n o h s (.rfields tn fs (i + 1) total pre)
    else
      Option.bind
        (if o.hideZeroValues then isZeroRun n (.one f.2.2) else some false)
        (fun z =>
          if z then runF n o h s (.rfields tn fs (i + 1) total pre)
          else
            let pr : DumpState × String × List Ev :=
              if pre then (s, "", [])
              else
                let nl := newlineWithPointerNameComment o s
                ({ nl.1 with depth := nl.1.depth + 1 },
                 dumpType tn ++ "\x7b" ++ nl.2.1, nl.2.2)
            let sp := pr.1
            Option.bind (runF n o h sp (.rval f.2.2)) (fun rv =>
              let nl2 := newlineWithPointerNameComment o rv.1
              Option.map
                (fun rrest => (rrest.1,
                  pr.2.1 ++ indent o sp ++ f.1
                    ++ (if o.compact then ":" else ": ")
                    ++ rv.2.1
                    ++ (if !o.compact || i < total - 1 then "," else "")
                    ++ nl2.2.1 ++ rrest.2.1,
                  pr.2.2 ++ [Ev.fieldEv sp.depth f.1] ++ rv.2.2 ++ nl2.2.2
                    ++ rrest.2.2))
                (runF n o h nl2.1 (.rfields tn fs (i + 1) total true))))
  | Nat.succ n, o, h, s, .rmapBody tn es isNilMap =>
    if isNilMap then some (s, dumpType tn ++ "(nil)", [])
    else if es.isEmpty then some (s, dumpType tn ++ "\x7b\x7d", [])
    else runF n o h s (.rmapPrep tn es [] es.length)
  | Nat.succ n, o, h, s, .rmapPrep tn [] acc total =>
    let sorted :=
      List.insertionSort (fun a b => strLe a.1 b.1 = true) acc.reverse
    let nl := newlineWithPointerNameComment o s
    Option.map
      (fun r =>
        let s2 := { r.1 with depth := r.1.depth - 1 }
        (s2,
          dumpType tn ++ "\x7b" ++ nl.2.1 ++ r.2.1 ++ indent o s2 ++ "\x7d",
          nl.2.2 ++ r.2.2))
      (runF n o h { nl.1 with depth := nl.1.depth + 1 }
        (.rentries (sorted.map (fun t => (t.2.1, t.2.2))) 0 total))
  | Nat.succ n, o, h, s, .rmapPrep tn (e :: es) acc total =>
    Option.bind (mapReusedPointers n h e.1) (fun ptrs =>
      Option.bind (runF n o h (initDumpState ptrs) (.rval e.1)) (fun ks =>
        runF n o h s (.rmapPrep tn es ((ks.2.1, e.1, e.2) :: acc) total)))
  | Nat.succ _, _, _, s, .rentries [] _ _ => some (s, "", [])
  | Nat.succ n, o, h, s, .rentries (e :: es) i total =>
    Option.bind (runF n o h s (.rval e.1)) (fun rk =>
      Option.bind (runF n o h rk.1 (.rval e.2)) (fun rv =>
        let nl := newlineWithPointerNameComment o rv.1
        Option.map
          (fun rrest => (rrest.1,
            indent o s ++ rk.2.1 ++ (if o.compact then ":" else ": ")
              ++ rv.2.1
              ++ (if !o.compact || i < total - 1 then "," else "")
              ++ nl.2.1 ++ rrest.2.1,
            rk.2.2 ++ rv.2.2 ++ nl.2.2 ++ rrest.2.2))
          (runF n o h nl.1 (.rentries es (i + 1) total))))

/-- `newDumpState`: scan the value, then start a fresh state whose
`pointers` set is the scan result. -/
def newDumpStateF (n : Nat) (h : Heap) (v : Val) : Option DumpState :=
  (mapReusedPointers n h v).map initDumpState

/-- One argument of `Options.Sdump`: fresh state (with the argument's own
reused-pointer set), then `dump`; the result is the text this argument
contributes plus its ghost events. -/
def sdumpOneF (n : Nat) (o : Options) (h : Heap) (v : Val) :
    Option (String × List Ev) := do
  let st ← newDumpStateF n h v
  let r ← runF n o h st (.rtop v)
  some (r.2.1, r.2.2)

/-- The argument loop of `Options.Sdump` (dump.go lines 523-533): before
every argument but the first the separator is written, then the argument is
rendered into the shared buffer with its own fresh dump state. -/
def sdumpArgsF (n : Nat) (o : Options) (h : Heap) :
    List Val → Bool → Option (String × List Ev)
  | [], _ => some ("", [])
  | v :: vs, started => do
    let r ← sdumpOneF n o h v
    let rest ← sdumpArgsF n o h vs true
    some ((if started then o.separator else "") ++ r.1 ++ rest.1,
      r.2 ++ rest.2)

/-- `Options.Sdump`. -/
def SdumpF (n : Nat) (o : Options) (h : Heap) (values : List Val) :
    Option (String × List Ev) :=
  sdumpArgsF n o h values false

/-- The argument loop of `Options.Dump` (dump.go lines 511-520): per
argument a fresh state writing to stdout, the separator written through the
state before every argument but the first. -/
def dumpArgsF (n : Nat) (o : Options) (h : Heap) :
    List Val → Bool → Option String
  | [], _ => some ""
  | v :: vs, started => do
    let st ← newDumpStateF n h v
    let r ← runF n o h st (.rtop v)
    let rest ← dumpArgsF n o h vs true
    some ((if started then o.separator else "") ++ r.2.1 ++ rest)

/-- `Options.Dump`: the bytes written to stdout; one trailing newline for
the whole call. -/
def DumpF (n : Nat) (o : Options) (h : Heap) (values : List Val) :
    Option String :=
  (dumpArgsF n o h values false).map (fun txt => txt ++ "\n")


theorem scanF_mono : ∀ {n : Nat} {h : Heap} {st : ScanState} {q : SReq}
    {r : ScanState}, scanF n h st q = some r → scanF (n + 1) h st q = some r := by
  intro n
  induction n with
  | zero => intro h st q r hr; simp [scanF] at hr
  | succ n ih =>
    intro h st q r hr
    match q with
    | .one v =>
      cases v with
      | vslice tn id es =>
        rw [scanF] at hr; rw [scanF]
        simp only [identityOf] at hr ⊢
        split at hr
        · next hc => rw [if_pos hc]; exact hr
        · next hc => rw [if_neg hc]; exact ih hr
      | varray tn es =>
        rw [scanF] at hr; rw [scanF]
        simp only [identityOf] at hr ⊢
        exact ih hr
      | vptr tn id =>
        rw [scanF] at hr; rw [scanF]
        simp only [identityOf] at hr ⊢
        split at hr
        · next hc => rw [if_pos hc]; exact hr
        · next hc =>
          rw [if_neg hc]
          cases hl : List.lookup id h with
          | none => rw [hl] at hr; simp at hr
          | some t => rw [hl] at hr; exact ih hr
      | vmap tn id es =>
        rw [scanF] at hr; rw [scanF]
        simp only [identityOf] at hr ⊢
        split at hr
        · next hc => rw [if_pos hc]; exact hr
        · next hc => rw [if_neg hc]; exact ih hr
      | vstruct tn fs =>
        rw [scanF] at hr; rw [scanF]
        simp only [identityOf] at hr ⊢
        exact ih hr
      | vbool b => simpa [scanF] using hr
      | vint k => simpa [scanF] using hr
      | vstr s => simpa [scanF] using hr
      | vnil => simpa [scanF] using hr
      | vnilptr => simpa [scanF] using hr
      | vnilmap tn => simpa [scanF] using hr
    | .many vs =>
      cases vs with
      | nil => simpa [scanF] using hr
      | cons v vs =>
        rw [scanF] at hr; rw [scanF]
        cases hs : scanF n h st (.one v) with
        | none => rw [hs] at hr; simp at hr
        | some st2 =>
          rw [hs] at hr
          rw [ih hs]
          exact ih hr
    | .entries es =>
      cases es with
      | nil => simpa [scanF] using hr
      | cons e es =>
        rw [scanF] at hr; rw [scanF]
        cases hs : scanF n h st (.one e.2) with
        | none => rw [hs] at hr; simp at hr
        | some st2 =>
          rw [hs] at hr
          rw [ih hs]
          exact ih hr



theorem optBindMono {α β : Type _} {x x2 : Option α} {k k2 : α → Option β}
    {r : β} (hh : x.bind k = some r)
    (hx : ∀ a, x = some a → x2 = some a)
    (hk : ∀ a, k a = some r → k2 a = some r) :
    x2.bind k2 = some r := by
  cases hxa : x with
  | none => rw [hxa] at hh; simp at hh
  | some a =>
    rw [hxa] at hh
    simp only [Option.some_bind] at hh
    rw [hx a hxa]
    simpa using hk a hh

theorem isZeroRun_mono : ∀ {n : Nat} {q : ZReq} {r : Bool},
    isZeroRun n q = some r → isZeroRun (n + 1) q = some r := by
  intro n
  induction n with
  | zero => intro q r hr; simp [isZeroRun] at hr
  | succ n ih =>
    intro q r hr
    match q with
    | .one v =>
      cases v with
      | vstruct tn fs => rw [isZeroRun] at hr; rw [isZeroRun]; exact ih hr
      | varray tn es => rw [isZeroRun] at hr; rw [isZeroRun]; exact ih hr
      | vbool b => simpa [isZeroRun] using hr
      | vint k => simpa [isZeroRun] using hr
      | vstr s => simpa [isZeroRun] using hr
      | vnil => simpa [isZeroRun] using hr
      | vnilptr => simpa [isZeroRun] using hr
      | vnilmap tn => simpa [isZeroRun] using hr
      | vptr tn id => simpa [isZeroRun] using hr
      | vslice tn id es => simpa [isZeroRun] using hr
      | vmap tn id es => simpa [isZeroRun] using hr
    | .many vs =>
      cases vs with
      | nil => simpa [isZeroRun] using hr
      | cons v vs =>
        rw [isZeroRun] at hr; rw [isZeroRun]
        exact optBindMono hr (fun a ha => ih ha)
          (fun a ha => optBindMono ha (fun b hb => ih hb) (fun b hb => hb))
    | .fields fs =>
      cases fs with
      | nil => simpa [isZeroRun] using hr
      | cons f fs =>
        rw [isZeroRun] at hr; rw [isZeroRun]
        exact optBindMono hr (fun a ha => ih ha)
          (fun a ha => optBindMono ha (fun b hb => ih hb) (fun b hb => hb))

theorem mapReusedPointers_mono {n : Nat} {h : Heap} {v : Val} {r : List Nat}
    (hr : mapReusedPointers n h v = some r) :
    mapReusedPointers (n + 1) h v = some r := by
  unfold mapReusedPointers at hr ⊢
  cases hs : scanF n h ScanState.empty (.one v) with
  | none => rw [hs] at hr; simp at hr
  | some st => rw [hs] at hr; rw [scanF_mono hs]; simpa using hr

theorem optMapMono {α β : Type _} {x x2 : Option α} {f : α → β} {r : β}
    (hh : Option.map f x = some r)
    (hx : ∀ a, x = some a → x2 = some a) :
    Option.map f x2 = some r := by
  cases hxa : x with
  | none => rw [hxa] at hh; simp at hh
  | some a => rw [hxa] at hh; rw [hx a hxa]; exact hh

theorem runF_mono : ∀ {n : Nat} {o : Options} {h : Heap} {s : DumpState}
    {req : Req} {r : DumpState × String × List Ev},
    runF n o h s req = some r → runF (n + 1) o h s req = some r := by
  intro n
  induction n with
  | zero => intro o h s req r hr; simp [runF] at hr
  | succ n ih =>
    intro o h s req r hr
    match req with
    | .rtop v =>
      cases v with
      | vnil => simpa [runF] using hr
      | vbool b => simp only [runF] at hr ⊢; exact ih hr
      | vint k => simp only [runF] at hr ⊢; exact ih hr
      | vstr str => simp only [runF] at hr ⊢; exact ih hr
      | vnilptr => simp only [runF] at hr ⊢; exact ih hr
      | vptr tn id => simp only [runF] at hr ⊢; exact ih hr
      | vslice tn id es => simp only [runF] at hr ⊢; exact ih hr
      | varray tn es => simp only [runF] at hr ⊢; exact ih hr
      | vmap tn id es => simp only [runF] at hr ⊢; exact ih hr
      | vnilmap tn => simp only [runF] at hr ⊢; exact ih hr
      | vstruct tn fs => simp only [runF] at hr ⊢; exact ih hr
    | .rval v =>
      cases v with
      | vnil => simpa [runF] using hr
      | vbool b => simpa [runF] using hr
      | vint k => simpa [runF] using hr
      | vstr str => simpa [runF] using hr
      | vnilptr => simpa [runF] using hr
      | vptr tn id => simp only [runF] at hr ⊢; exact ih hr
      | vslice tn id es => simp only [runF] at hr ⊢; exact ih hr
      | varray tn es => simp only [runF] at hr ⊢; exact ih hr
      | vmap tn id es => simp only [runF] at hr ⊢; exact ih hr
      | vnilmap tn => simp only [runF] at hr ⊢; exact ih hr
      | vstruct tn fs => simp only [runF] at hr ⊢; exact ih hr
    | .rgate v body =>
      rw [runF] at hr; rw [runF]
      cases hid : identityOf v with
      | none => rw [hid] at hr; exact ih hr
      | some id =>
        simp only [hid] at hr ⊢
        cases hadd : parentsAdd s id with
        | mk was s1 =>
          simp only [hadd] at hr ⊢
          refine optMapMono hr ?_
          intro a ha
          cases hpf : pointerFor s1 v with
          | mk cur rest =>
            cases rest with
            | mk fv s2 =>
              simp only [hpf] at ha ⊢
              cases was with
              | false =>
                simp only [Bool.and_false, Bool.not_false, Bool.not_true,
                  Bool.false_eq_true, if_false] at ha ⊢
                cases cur with
                | none => exact ih ha
                | some pid =>
                  cases fv with
                  | true =>
                    simp only [if_true] at ha ⊢
                    exact optMapMono ha (fun b hb => ih hb)
                  | false =>
                    simp only [Bool.false_eq_true, if_false] at ha ⊢
                    exact ha
              | true =>
                simp only [Bool.and_true, Bool.not_not] at ha ⊢
                by_cases hdpr : o.disablePointerReplacement = true
                · rw [if_pos hdpr] at ha ⊢
                  exact optMapMono ha (fun b hb => ih hb)
                · rw [if_neg hdpr] at ha ⊢
                  cases cur with
                  | none => exact ih ha
                  | some pid =>
                    cases fv with
                    | true =>
                      simp only [if_true] at ha ⊢
                      exact optMapMono ha (fun b hb => ih hb)
                    | false =>
                      simp only [Bool.false_eq_true, if_false] at ha ⊢
                      exact ha
    | .rptrBody elemTn id =>
      rw [runF] at hr; rw [runF]
      cases hl : List.lookup id h with
      | none => rw [hl] at hr; simp at hr
      | some t =>
        by_cases hsg : o.strictGo = true
        · simp only [hl, hsg, eq_self_iff_true, ite_true] at hr ⊢
          exact optMapMono hr (fun b hb => ih hb)
        · simp only [hl, hsg, ite_false] at hr ⊢
          exact optMapMono hr (fun b hb => ih hb)
    | .rsliceBody tn es =>
      rw [runF] at hr; rw [runF]
      split at hr
      · next hc => rw [if_pos hc]; exact hr
      · next hc =>
        rw [if_neg hc]
        exact optMapMono hr (fun b hb => ih hb)
    | .rslElems es i total =>
      cases es with
      | nil => simpa [runF] using hr
      | cons e es =>
        rw [runF] at hr; rw [runF]
        exact optBindMono hr (fun b hb => ih hb)
          (fun b hb => optMapMono hb (fun c hc => ih hc))
    | .rfields tn fs i total pre =>
      cases fs with
      | nil => simpa [runF] using hr
      | cons f fs =>
        rw [runF] at hr; rw [runF]
        split at hr
        · next hc => rw [if_pos hc]; exact ih hr
        · next hc =>
          rw [if_neg hc]
          split at hr
          · next hc2 => rw [if_pos hc2]; exact ih hr
          · next hc2 =>
            rw [if_neg hc2]
            refine optBindMono hr ?_ ?_
            · intro a ha
              split at ha
              · next hz => rw [if_pos hz]; exact isZeroRun_mono ha
              · next hz => rw [if_neg hz]; exact ha
            · intro a ha
              cases a with
              | true => simpa using ih (by simpa using ha)
              | false =>
                simp only [Bool.false_eq_true, if_false] at ha ⊢
                exact optBindMono ha (fun b hb => ih hb)
                  (fun b hb => optMapMono hb (fun c hc => ih hc))
    | .rmapBody tn es isNilMap =>
      rw [runF] at hr; rw [runF]
      split at hr
      · next hc => rw [if_pos hc]; exact hr
      · next hc =>
        rw [if_neg hc]
        split at hr
        · next hc2 => rw [if_pos hc2]; exact hr
        · next hc2 => rw [if_neg hc2]; exact ih hr
    | .rmapPrep tn pending acc total =>
      cases pending with
      | nil =>
        rw [runF] at hr; rw [runF]
        exact optMapMono hr (fun b hb => ih hb)
      | cons e es =>
        rw [runF] at hr; rw [runF]
        exact optBindMono hr (fun b hb => mapReusedPointers_mono hb)
          (fun b hb => optBindMono hb (fun c hc => ih hc)
            (fun c hc => ih hc))
    | .rentries es i total =>
      cases es with
      | nil => simpa [runF] using hr
      | cons e es =>
        rw [runF] at hr; rw [runF]
        exact optBindMono hr (fun b hb => ih hb)
          (fun b hb => optBindMono hb (fun c hc => ih hc)
            (fun c hc => optMapMono hc (fun d hd => ih hd)))



theorem scanF_le {n m : Nat} {h : Heap} {st : ScanState} {q : SReq}
    {r : ScanState} (hnm : n ≤ m) (hr : scanF n h st q = some r) :
    scanF m h st q = some r := by
  induction hnm with
  | refl => exact hr
  | step _ ih => exact scanF_mono ih

theorem isZeroRun_le {n m : Nat} {q : ZReq} {r : Bool} (hnm : n ≤ m)
    (hr : isZeroRun n q = some r) : isZeroRun m q = some r := by
  induction hnm with
  | refl => exact hr
  | step _ ih => exact isZeroRun_mono ih

theorem runF_le {n m : Nat} {o : Options} {h : Heap} {s : DumpState}
    {req : Req} {r : DumpState × String × List Ev} (hnm : n ≤ m)
    (hr : runF n o h s req = some r) : runF m o h s req = some r := by
  induction hnm with
  | refl => exact hr
  | step _ ih => exact runF_mono ih

theorem mapReusedPointers_le {n m : Nat} {h : Heap} {v : Val} {r : List Nat}
    (hnm : n ≤ m) (hr : mapReusedPointers n h v = some r) :
    mapReusedPointers m h v = some r := by
  induction hnm with
  | refl => exact hr
  | step _ ih => exact mapReusedPointers_mono ih

theorem sdumpOneF_mono {n : Nat} {o : Options} {h : Heap} {v : Val}
    {r : String × List Ev} (hr : sdumpOneF n o h v = some r) :
    sdumpOneF (n + 1) o h v = some r := by
  unfold sdumpOneF at hr ⊢
  refine optBindMono hr ?_ ?_
  · intro a ha
    unfold newDumpStateF at ha ⊢
    exact optMapMono ha (fun b hb => mapReusedPointers_mono hb)
  · intro a ha
    exact optBindMono ha (fun b hb => runF_mono hb) (fun b hb => hb)

theorem sdumpArgsF_mono {n : Nat} {o : Options} {h : Heap} :
    ∀ {vs : List Val} {started : Bool} {r : String × List Ev},
    sdumpArgsF n o h vs started = some r →
      sdumpArgsF (n + 1) o h vs started = some r := by
  intro vs
  induction vs with
  | nil => intro started r hr; simpa [sdumpArgsF] using hr
  | cons v vs ih =>
    intro started r hr
    rw [sdumpArgsF] at hr ⊢
    exact optBindMono hr (fun a ha => sdumpOneF_mono ha)
      (fun a ha => optBindMono ha (fun b hb => ih hb) (fun b hb => hb))

theorem SdumpF_mono {n : Nat} {o : Options} {h : Heap} {values : List Val}
    {r : String × List Ev} (hr : SdumpF n o h values = some r) :
    SdumpF (n + 1) o h values = some r :=
  sdumpArgsF_mono hr

theorem SdumpF_le {n m : Nat} {o : Options} {h : Heap} {values : List Val}
    {r : String × List Ev} (hnm : n ≤ m) (hr : SdumpF n o h values = some r) :
    SdumpF m o h values = some r := by
  induction hnm with
  | refl => exact hr
  | step _ ih => exact SdumpF_mono ih

theorem dumpArgsF_eq_sdumpArgsF (n : Nat) (o : Options) (h : Heap) :
    ∀ (vs : List Val) (started : Bool),
    dumpArgsF n o h vs started = (sdumpArgsF n o h vs started).map Prod.fst := by
  intro vs
  induction vs with
  | nil => intro started; rfl
  | cons v vs ih =>
    intro started
    rw [dumpArgsF, sdumpArgsF]
    unfold sdumpOneF
    cases hst : newDumpStateF n h v with
    | none => simp [hst]
    | some st =>
      cases hr : runF n o h st (.rtop v) with
      | none => simp [hr]
      | some r =>
        simp only [hr, ih true, Option.some_bind, Option.bind_some]
        cases hrest : sdumpArgsF n o h vs true with
        | none => simp [hr]
        | some rest => simp [hr]

/-- C10: for every argument list and every Options value, the text that
`Options.Dump` writes to standard output is exactly the string returned by
`Options.Sdump` on the same arguments followed by one trailing newline:
`Sdump` itself never appends a newline, and `Dump` appends a single newline
for the whole call, not one per argument. -/
theorem C10_dump_writes_sdump_plus_one_newline (n : Nat) (o : Options)
    (h : Heap) (values : List Val) :
    DumpF n o h values = (SdumpF n o h values).map (fun r => r.1 ++ "\n") := by
  unfold DumpF SdumpF
  rw [dumpArgsF_eq_sdumpArgsF]
  cases sdumpArgsF n o h values false <;> simp



/-- The heap of the README's `Circular` example: one cell holding a
`Circular` struct whose `Self` field points back at the cell itself. -/
def circularHeap : Heap :=
  [(1, .vstruct "Circular" [("Self", "", .vptr "Circular" 1)])]

/-- The `Circular` instance passed by value, as `litter.Dump(selfref)`
does: the argument is a copy of the struct, whose `Self` field points at
the original cell. -/
def circularVal : Val := .vstruct "Circular" [("Self", "", .vptr "Circular" 1)]

/-- C8 counterexample: the claim states that dumping the self-referential
`Circular` record instance produces exactly
`Circular \x7b // p0\n  Self: p0,\n\x7d`.  It does not: dumping the
instance (a struct value) produces a nested two-struct text, because the
argument copy and the pointed-to cell are distinct objects; and even
dumping a pointer to the instance produces `&Circular\x7b // p0...` —
with a leading `&` and no space before the brace (the renderer writes the
type name directly followed by the brace). -/
theorem C8_counterexample :
    (SdumpF 100 {} circularHeap [circularVal]).map Prod.fst =
      some "Circular\x7b\n  Self: &Circular\x7b // p0\n    Self: p0,\n  \x7d,\n\x7d" ∧
    (SdumpF 100 {} circularHeap [.vptr "Circular" 1]).map Prod.fst =
      some "&Circular\x7b // p0\n  Self: p0,\n\x7d" ∧
    "Circular\x7b\n  Self: &Circular\x7b // p0\n    Self: p0,\n  \x7d,\n\x7d" ≠
      "Circular \x7b // p0\n  Self: p0,\n\x7d" ∧
    "&Circular\x7b // p0\n  Self: p0,\n\x7d" ≠
      "Circular \x7b // p0\n  Self: p0,\n\x7d" :=
  ⟨by decide, by decide, by decide, by decide⟩

/-- C8 amended: dumping (in verbose mode) a pointer to a `Circular`
instance whose `Self` field points back at that instance produces exactly
`&Circular\x7b // p0\n  Self: p0,\n\x7d`: one full body annotated with
`p0`, the self-referential field emitted as the bare label `p0`. -/
theorem C8_amended (m : Nat) (hm : 100 ≤ m) :
    (SdumpF m ({} : Options) circularHeap [.vptr "Circular" 1]).map Prod.fst =
      some "&Circular\x7b // p0\n  Self: p0,\n\x7d" := by
  have h100 : SdumpF 100 ({} : Options) circularHeap [.vptr "Circular" 1] =
      some ("&Circular\x7b // p0\n  Self: p0,\n\x7d",
        [Ev.body 1, Ev.flush 1 "p0", Ev.fieldEv 1 "Self", Ev.bare 1 "p0"]) := by
    decide
  rw [SdumpF_le hm h100]
  rfl

theorem C8_amended_witness :
    (SdumpF 100 ({} : Options) circularHeap [.vptr "Circular" 1]).map Prod.fst =
      some "&Circular\x7b // p0\n  Self: p0,\n\x7d" :=
  C8_amended 100 (by decide)

/-- A heap with a single shared integer cell. -/
def sharedHeap : Heap := [(1, .vint 5)]

/-- Options with the default separator of `litter.Config`. -/
def spaceSepOptions : Options := { separator := " " }

/-- C5 counterexample: the claim states that a reference identity occurring
once in each of two arguments of one `Sdump` call is classified as reused
and rendered once with its full body and once as a bare label.  In fact
`Options.Sdump` creates a fresh dump state per argument, scanning only that
argument: the same pointer passed twice renders as two full bodies
(`"&5 &5"`), the per-argument scan finds no reused pointer, and the ghost
log shows the gate never recorded a body, bare-label or annotation event. -/
theorem C5_counterexample :
    SdumpF 100 spaceSepOptions sharedHeap [.vptr "int" 1, .vptr "int" 1] =
      some ("&5 &5", []) ∧
    mapReusedPointers 100 sharedHeap (.vptr "int" 1) = some [] :=
  ⟨by decide, by decide⟩

/-- The independent renders of a list of arguments: each argument rendered
by `sdumpOneF` with its own freshly scanned state. -/
def argRenders (n : Nat) (o : Options) (h : Heap) :
    List Val → Option (List (String × List Ev))
  | [] => some []
  | v :: vs =>
    Option.bind (sdumpOneF n o h v) (fun r =>
      (argRenders n o h vs).map (fun rest => r :: rest))

/-- The shape `Options.Sdump` actually produces: every argument rendered
independently, the separator inserted before each argument but the first,
texts concatenated and ghost logs concatenated. -/
def joinArgs (sep : String) (started : Bool) :
    List (String × List Ev) → String × List Ev
  | [] => ("", [])
  | r :: rest =>
    let t := joinArgs sep true rest
    ((if started then sep else "") ++ r.1 ++ t.1, r.2 ++ t.2)

theorem sdumpArgsF_eq_joinArgs (n : Nat) (o : Options) (h : Heap) :
    ∀ (vs : List Val) (started : Bool),
    sdumpArgsF n o h vs started =
      (argRenders n o h vs).map (joinArgs o.separator started) := by
  intro vs
  induction vs with
  | nil => intro started; rfl
  | cons v vs ih =>
    intro started
    rw [sdumpArgsF, argRenders]
    cases hone : sdumpOneF n o h v with
    | none => simp
    | some r =>
      simp only [Option.some_bind]
      rw [ih true]
      cases hrest : argRenders n o h vs with
      | none => simp
      | some rest => simp [joinArgs]

/-- C5 amended: the ReusedSet is built once per argument, not once across
all arguments of a `Dump`/`Sdump` call: the call renders each argument with
its own freshly scanned dump state and joins the fragments with the
separator, so sharing across distinct arguments is never detected (see the
counterexample, where the shared pointer gets no label in either
argument). -/
theorem C5_amended (n : Nat) (o : Options) (h : Heap) (vs : List Val) :
    SdumpF n o h vs =
      (argRenders n o h vs).map (joinArgs o.separator false) :=
  sdumpArgsF_eq_joinArgs n o h vs false



/-- Options with pointer replacement disabled. -/
def dprOptions : Options := { disablePointerReplacement := true }

/-- A heap where cell 2 is a pointer to the shared integer cell 1. -/
def dupHeap : Heap := [(1, .vint 5), (2, .vptr "int" 1)]

/-- C9: with `DisablePointerReplacement` set, the gate
(`descendIntoPossiblePointer`) renders a reused identity that is not on the
render stack with its full duplicate body (the body continuation runs, a
`dup` event is recorded) instead of replacing it by a label, while an
identity revisited while still on the render stack — a true cycle — is
emitted as the bare label only, so cyclic inputs still produce finite
output.  The last two conjuncts show both behaviours end to end: the
acyclic shared pointer renders two full bodies, the self-referential
`Circular` pointer renders one duplicate body whose `Self` field collapses
to the bare label `p0`. -/
theorem C9_disable_pointer_replacement_gate (n : Nat) (o : Options)
    (h : Heap) (s : DumpState) (v : Val) (body : Req) (id : Nat)
    (hdpr : o.disablePointerReplacement = true)
    (hid : identityOf v = some id)
    (htracked : s.pointers.contains id = true) :
    (s.parents.contains id = false →
      runF (n + 1) o h s (.rgate v body) =
        Option.map
          (fun rb => ({ rb.1 with parents := rb.1.parents.erase id },
            rb.2.1, Ev.dup id :: rb.2.2))
          (runF n o h
            { s with
                parents := id :: s.parents
                visited :=
                  if s.visited.contains id then s.visited else id :: s.visited
                current := some id } body)) ∧
    (s.parents.contains id = true → s.visited.contains id = true →
      runF (n + 1) o h s (.rgate v body) =
        some ((s.labelOf id).2, (s.labelOf id).1,
          [Ev.bare id (s.labelOf id).1])) ∧
    SdumpF 100 dprOptions dupHeap
        [.varray "[2]*(*int)" [.vptr "*int" 2, .vptr "*int" 2]] =
      some ("[2]*(*int)\x7b\n  &&5,\n  &&5,\n\x7d", [Ev.dup 2, Ev.dup 2]) ∧
    SdumpF 200 dprOptions circularHeap [.vptr "Circular" 1] =
      some ("&Circular\x7b // p0\n  Self: p0,\n\x7d",
        [Ev.dup 1, Ev.flush 1 "p0", Ev.fieldEv 1 "Self", Ev.bare 1 "p0"]) := by
  refine ⟨?_, ?_, by decide, by decide⟩
  · intro hpar
    rw [runF]
    simp only [hid, parentsAdd, hpar, Bool.false_eq_true, if_false, hdpr,
      pointerFor, htracked, if_true, Bool.true_and, Bool.not_true,
      Bool.not_false, Bool.not_not]
    cases hv : s.visited.contains id with
    | false =>
      simp only [Bool.false_eq_true, if_false, Option.map_map]
      rfl
    | true =>
      simp only [if_true, Option.map_map]
      rfl
  · intro hpar hvis
    rw [runF]
    simp only [hid, parentsAdd, hpar, if_true, hdpr, Bool.and_false,
      Bool.not_false, Bool.not_true, pointerFor, htracked, hvis,
      Bool.false_eq_true, if_false]
    rfl

theorem C9_witness :
    dprOptions.disablePointerReplacement = true ∧
    identityOf (Val.vptr "int" 1) = some 1 ∧
    (initDumpState [1]).pointers.contains 1 = true ∧
    (((initDumpState [1]).parents.contains 1 = false →
      runF 51 dprOptions sharedHeap (initDumpState [1])
          (.rgate (Val.vptr "int" 1) (.rptrBody "int" 1)) =
        Option.map
          (fun rb => ({ rb.1 with parents := rb.1.parents.erase 1 },
            rb.2.1, Ev.dup 1 :: rb.2.2))
          (runF 50 dprOptions sharedHeap
            { initDumpState [1] with
                parents := [1]
                visited :=
                  if (initDumpState [1]).visited.contains 1
                  then (initDumpState [1]).visited else [1]
                current := some 1 } (.rptrBody "int" 1))) ∧
      ((initDumpState [1]).parents.contains 1 = true →
        (initDumpState [1]).visited.contains 1 = true →
        runF 51 dprOptions sharedHeap (initDumpState [1])
            (.rgate (Val.vptr "int" 1) (.rptrBody "int" 1)) =
          some (((initDumpState [1]).labelOf 1).2,
            ((initDumpState [1]).labelOf 1).1,
            [Ev.bare 1 ((initDumpState [1]).labelOf 1).1])) ∧
      SdumpF 100 dprOptions dupHeap
          [.varray "[2]*(*int)" [.vptr "*int" 2, .vptr "*int" 2]] =
        some ("[2]*(*int)\x7b\n  &&5,\n  &&5,\n\x7d", [Ev.dup 2, Ev.dup 2]) ∧
      SdumpF 200 dprOptions circularHeap [.vptr "Circular" 1] =
        some ("&Circular\x7b // p0\n  Self: p0,\n\x7d",
          [Ev.dup 1, Ev.flush 1 "p0", Ev.fieldEv 1 "Self", Ev.bare 1 "p0"])) :=
  ⟨by decide, by decide, by decide,
    C9_disable_pointer_replacement_gate 50 dprOptions sharedHeap
      (initDumpState [1]) (Val.vptr "int" 1) (.rptrBody "int" 1) 1
      (by decide) (by decide) (by decide)⟩


theorem charsLe_total : ∀ (a b : List Char),
    charsLe a b = true ∨ charsLe b a = true := by
  intro a
  induction a with
  | nil => intro b; exact Or.inl rfl
  | cons x xs ih =>
    intro b
    cases b with
    | nil => exact Or.inr rfl
    | cons y ys =>
      by_cases h1 : x.toNat < y.toNat
      · left; simp [charsLe, h1]
      · by_cases h2 : y.toNat < x.toNat
        · right; simp [charsLe, h2]
        · rcases ih ys with hl | hr
          · left; simpa [charsLe, h1, h2] using hl
          · right; simpa [charsLe, h1, h2] using hr

theorem charsLe_trans : ∀ (a b c : List Char),
    charsLe a b = true → charsLe b c = true → charsLe a c = true := by
  intro a
  induction a with
  | nil => intro b c _ _; rfl
  | cons x xs ih =>
    intro b c hab hbc
    cases b with
    | nil => simp [charsLe] at hab
    | cons y ys =>
      cases c with
      | nil => simp [charsLe] at hbc
      | cons z zs =>
        rw [charsLe] at hab hbc ⊢
        by_cases h1 : x.toNat < y.toNat
        · by_cases h2 : y.toNat < z.toNat
          · have hxz : x.toNat < z.toNat := Nat.lt_trans h1 h2
            simp [hxz]
          · by_cases h4 : z.toNat < y.toNat
            · rw [if_neg h2, if_pos h4] at hbc
              exact absurd hbc (by simp)
            · have hxz : x.toNat < z.toNat := by omega
              simp [hxz]
        · by_cases h3 : y.toNat < x.toNat
          · rw [if_neg h1, if_pos h3] at hab
            exact absurd hab (by simp)
          · rw [if_neg h1, if_neg h3] at hab
            by_cases h2 : y.toNat < z.toNat
            · have hxz : x.toNat < z.toNat := by omega
              simp [hxz]
            · by_cases h4 : z.toNat < y.toNat
              · rw [if_neg h2, if_pos h4] at hbc
                exact absurd hbc (by simp)
              · rw [if_neg h2, if_neg h4] at hbc
                have hxz : ¬x.toNat < z.toNat := by omega
                have hzx : ¬z.toNat < x.toNat := by omega
                rw [if_neg hxz, if_neg hzx]
                exact ih ys zs hab hbc

/-- The key rendering performed by `mapKeySorter.Less` for the sort in
`dumpMap`: the key value dumped by a fresh dump state (with its own
`mapReusedPointers` scan and an empty buffer) under the same Options. -/
def renderKey (n : Nat) (o : Options) (h : Heap) (k : Val) : Option String :=
  Option.bind (mapReusedPointers n h k) (fun ptrs =>
    Option.bind (runF n o h (initDumpState ptrs) (.rval k)) (fun r =>
      some r.2.1))

/-- The sorted-entries conclusion for one rendered mapping body: the
entries can be annotated with their rendered key fragments (`ks`), and the
body text consists of the entries processed in the order
`insertionSort ks` — sorted by the lexicographic `strLe` on the rendered
fragments and a permutation of the original entries. -/
def SortedKeyedRender (N : Nat) (o : Options) (h : Heap) (s : DumpState)
    (tn : String) (es : List (Val × Val))
    (r : DumpState × String × List Ev) : Prop :=
  ∃ ks : List (String × Val × Val),
    ks.map (fun t => t.2) = es ∧
    (∀ t ∈ ks, ∃ m, renderKey m o h t.2.1 = some t.1) ∧
    List.Sorted (fun a b => strLe a.1 b.1 = true)
      (List.insertionSort (fun a b => strLe a.1 b.1 = true) ks) ∧
    List.Perm (List.insertionSort (fun a b => strLe a.1 b.1 = true) ks) ks ∧
    ∃ inner : DumpState × String × List Ev,
      runF N o h
        { (newlineWithPointerNameComment o s).1 with
            depth := (newlineWithPointerNameComment o s).1.depth + 1 }
        (.rentries
          ((List.insertionSort (fun a b => strLe a.1 b.1 = true) ks).map
            (fun t => (t.2.1, t.2.2))) 0 es.length) = some inner ∧
      r.2.1 = dumpType tn ++ "\x7b"
        ++ (newlineWithPointerNameComment o s).2.1 ++ inner.2.1
        ++ indent o { inner.1 with depth := inner.1.depth - 1 } ++ "\x7d"

theorem rmapPrep_keys (o : Options) (h : Heap) (tn : String) :
    ∀ (N : Nat) (pending : List (Val × Val))
      (acc : List (String × Val × Val)) (total : Nat) (s : DumpState)
      (r : DumpState × String × List Ev),
    runF N o h s (.rmapPrep tn pending acc total) = some r →
    ∃ ks : List (String × Val × Val),
      ks.map (fun t => t.2) = pending ∧
      (∀ t ∈ ks, ∃ m, renderKey m o h t.2.1 = some t.1) ∧
      runF N o h s (.rmapPrep tn [] (ks.reverse ++ acc) total) = some r := by
  intro N
  induction N with
  | zero => intro pending acc total s r hr; simp [runF] at hr
  | succ n ih =>
    intro pending acc total s r hr
    cases pending with
    | nil => exact ⟨[], rfl, by simp, hr⟩
    | cons e es =>
      rw [runF] at hr
      cases hp : mapReusedPointers n h e.1 with
      | none => rw [hp] at hr; simp at hr
      | some ptrs =>
        rw [hp] at hr
        simp only [Option.some_bind] at hr
        cases hk : runF n o h (initDumpState ptrs) (.rval e.1) with
        | none => rw [hk] at hr; simp at hr
        | some kr =>
          rw [hk] at hr
          simp only [Option.some_bind] at hr
          obtain ⟨ks, hmap, hkeys, hrun⟩ :=
            ih es ((kr.2.1, e.1, e.2) :: acc) total s r hr
          refine ⟨(kr.2.1, e.1, e.2) :: ks, ?_, ?_, ?_⟩
          · simp [hmap]
          · intro t ht
            rcases List.mem_cons.mp ht with h1 | h2
            · subst h1
              exact ⟨n, by simp [renderKey, hp, hk]⟩
            · exact hkeys t h2
          · have hlist : (((kr.2.1, e.1, e.2) :: ks).reverse ++ acc) =
                ks.reverse ++ ((kr.2.1, e.1, e.2) :: acc) := by
              simp
            rw [hlist]
            exact runF_mono hrun

/-- C6: for every non-nil, non-empty mapping whose body the renderer emits,
the entries appear in an order sorted by lexicographic comparison of the
text fragments obtained by recursively rendering each key under the same
Options (not by the keys' native ordering), that order being a permutation
of the original entries; concretely, a `map[int]string` with keys 2 and 1
always renders the entry for 1 before the entry for 2. -/
theorem C6_map_entries_sorted_by_rendered_key (N : Nat) (o : Options)
    (h : Heap) (s : DumpState) (tn : String) (es : List (Val × Val))
    (r : DumpState × String × List Ev)
    (hne : es ≠ [])
    (hrun : runF N o h s (.rmapBody tn es false) = some r) :
    SortedKeyedRender N o h s tn es r ∧
    (SdumpF 100 ({} : Options) []
        [.vmap "map[int]string" 5
          [(.vint 2, .vstr "two"), (.vint 1, .vstr "one")]]).map Prod.fst =
      some "map[int]string\x7b\n  1: \"one\",\n  2: \"two\",\n\x7d" := by
  refine ⟨?_, by decide⟩
  cases N with
  | zero => simp [runF] at hrun
  | succ n =>
    rw [runF] at hrun
    have hemp : es.isEmpty = false := by
      cases es with
      | nil => exact absurd rfl hne
      | cons a l => rfl
    rw [hemp] at hrun
    simp only [Bool.false_eq_true, if_false] at hrun
    obtain ⟨ks, hmap, hkeys, hrunNil⟩ :=
      rmapPrep_keys o h tn n es [] es.length s r hrun
    cases n with
    | zero => simp [runF] at hrunNil
    | succ n2 =>
      rw [runF] at hrunNil
      simp only [List.append_nil, List.reverse_reverse] at hrunNil
      cases hin : runF n2 o h
          { (newlineWithPointerNameComment o s).1 with
              depth := (newlineWithPointerNameComment o s).1.depth + 1 }
          (.rentries
            ((List.insertionSort (fun a b => strLe a.1 b.1 = true) ks).map
              (fun t => (t.2.1, t.2.2))) 0 es.length) with
      | none => rw [hin] at hrunNil; simp at hrunNil
      | some inner =>
        rw [hin] at hrunNil
        simp only [Option.map_some'] at hrunNil
        haveI instTr : IsTrans (String × Val × Val)
            (fun a b => strLe a.1 b.1 = true) :=
          ⟨fun a b c hab hbc => charsLe_trans _ _ _ hab hbc⟩
        haveI instTo : IsTotal (String × Val × Val)
            (fun a b => strLe a.1 b.1 = true) :=
          ⟨fun a b => charsLe_total _ _⟩
        refine ⟨ks, hmap, hkeys, ?_, List.perm_insertionSort _ ks, inner,
          runF_le (by omega) hin, ?_⟩
        · exact List.sorted_insertionSort _ ks
        · have hr2 := Option.some.inj hrunNil
          rw [← hr2]

theorem C6_witness :
    ([(Val.vint 2, Val.vstr "two"), (Val.vint 1, Val.vstr "one")] ≠
        ([] : List (Val × Val))) ∧
    runF 100 ({} : Options) [] (initDumpState [])
        (.rmapBody "map[int]string"
          [(.vint 2, .vstr "two"), (.vint 1, .vstr "one")] false) =
      some (⟨0, [], [], [], [], none⟩,
        "map[int]string\x7b\n  1: \"one\",\n  2: \"two\",\n\x7d", []) ∧
    (SortedKeyedRender 100 ({} : Options) [] (initDumpState [])
        "map[int]string" [(.vint 2, .vstr "two"), (.vint 1, .vstr "one")]
        (⟨0, [], [], [], [], none⟩,
          "map[int]string\x7b\n  1: \"one\",\n  2: \"two\",\n\x7d", []) ∧
      (SdumpF 100 ({} : Options) []
          [.vmap "map[int]string" 5
            [(.vint 2, .vstr "two"), (.vint 1, .vstr "one")]]).map Prod.fst =
        some "map[int]string\x7b\n  1: \"one\",\n  2: \"two\",\n\x7d") :=
  ⟨by simp, by rfl,
    C6_map_entries_sorted_by_rendered_key 100 ({} : Options) []
      (initDumpState []) "map[int]string"
      [(.vint 2, .vstr "two"), (.vint 1, .vstr "one")]
      (⟨0, [], [], [], [], none⟩,
        "map[int]string\x7b\n  1: \"one\",\n  2: \"two\",\n\x7d", [])
      (by simp) (by rfl)⟩


theorem labelOf_depth (s : DumpState) (id : Nat) :
    (s.labelOf id).2.depth = s.depth := by
  unfold DumpState.labelOf
  cases s.labels.findIdx? (fun x => x == id) <;> rfl

theorem parentsAdd_depth (s : DumpState) (id : Nat) :
    (parentsAdd s id).2.depth = s.depth := by
  unfold parentsAdd
  by_cases hc : s.parents.contains id = true
  · rw [if_pos hc]
  · rw [if_neg hc]

theorem pointerFor_depth (s : DumpState) (v : Val) :
    (pointerFor s v).2.2.depth = s.depth := by
  unfold pointerFor
  cases identityOf v with
  | none => rfl
  | some id =>
    dsimp only
    by_cases h1 : s.pointers.contains id = true
    · rw [if_pos h1]
      by_cases h2 : s.visited.contains id = true
      · rw [if_pos h2]
      · rw [if_neg h2]
    · rw [if_neg h1]

theorem newline_depth (o : Options) (s : DumpState) :
    (newlineWithPointerNameComment o s).1.depth = s.depth := by
  unfold newlineWithPointerNameComment
  cases s.current with
  | none => rfl
  | some id => exact labelOf_depth s id

theorem newline_noFieldEv (o : Options) (s : DumpState) (d : Nat)
    (nm : String) :
    Ev.fieldEv d nm ∈ (newlineWithPointerNameComment o s).2.2 → False := by
  unfold newlineWithPointerNameComment
  cases s.current with
  | none => intro hmem; simp at hmem
  | some id => intro hmem; simp at hmem

/-- The depth delta of one renderer work item: everything restores the
depth it was called at, except the continuation of a struct-field loop
already inside the braces (`pre = true`), which closes the brace and comes
back one level up. -/
def reqDrop : Req → Nat
  | .rfields _ _ _ _ pre => if pre then 1 else 0
  | _ => 0

/-- Well-formed gate bodies: `descendIntoPossiblePointer` is only ever
handed the body closures of `dumpVal` (pointer, slice/array and map
bodies), never a half-open field loop. -/
def noPreBody : Req → Prop
  | .rgate _ body => reqDrop body = 0 ∧ noPreBody body
  | _ => True

theorem runF_depth : ∀ {n : Nat} {o : Options} {h : Heap} {s : DumpState}
    {req : Req} {r : DumpState × String × List Ev},
    runF n o h s req = some r → noPreBody req →
    r.1.depth = s.depth - reqDrop req := by
  intro n
  induction n with
  | zero => intro o h s req r hr hq; simp [runF] at hr
  | succ n ih =>
    intro o h s req r hr hq
    match req with
    | .rtop v =>
      cases v with
      | vnil =>
        simp only [runF] at hr
        obtain rfl := Option.some.inj hr
        simp [reqDrop]
      | vbool b =>
        simp only [runF] at hr
        simpa [reqDrop] using ih hr trivial
      | vint k =>
        simp only [runF] at hr
        simpa [reqDrop] using ih hr trivial
      | vstr str =>
        simp only [runF] at hr
        simpa [reqDrop] using ih hr trivial
      | vnilptr =>
        simp only [runF] at hr
        simpa [reqDrop] using ih hr trivial
      | vptr tn id =>
        simp only [runF] at hr
        simpa [reqDrop] using ih hr trivial
      | vslice tn id es =>
        simp only [runF] at hr
        simpa [reqDrop] using ih hr trivial
      | varray tn es =>
        simp only [runF] at hr
        simpa [reqDrop] using ih hr trivial
      | vmap tn id es =>
        simp only [runF] at hr
        simpa [reqDrop] using ih hr trivial
      | vnilmap tn =>
        simp only [runF] at hr
        simpa [reqDrop] using ih hr trivial
      | vstruct tn fs =>
        simp only [runF] at hr
        simpa [reqDrop] using ih hr trivial
    | .rval v =>
      cases v with
      | vnil =>
        simp only [runF] at hr
        obtain rfl := Option.some.inj hr
        simp [reqDrop]
      | vbool b =>
        simp only [runF] at hr
        obtain rfl := Option.some.inj hr
        simp [reqDrop]
      | vint k =>
        simp only [runF] at hr
        obtain rfl := Option.some.inj hr
        simp [reqDrop]
      | vstr str =>
        simp only [runF] at hr
        obtain rfl := Option.some.inj hr
        simp [reqDrop]
      | vnilptr =>
        simp only [runF] at hr
        obtain rfl := Option.some.inj hr
        simp [reqDrop]
      | vptr tn id =>
        simp only [runF] at hr
        simpa [reqDrop] using ih hr ⟨rfl, trivial⟩
      | vslice tn id es =>
        simp only [runF] at hr
        simpa [reqDrop] using ih hr ⟨rfl, trivial⟩
      | varray tn es =>
        simp only [runF] at hr
        simpa [reqDrop] using ih hr ⟨rfl, trivial⟩
      | vmap tn id es =>
        simp only [runF] at hr
        simpa [reqDrop] using ih hr ⟨rfl, trivial⟩
      | vnilmap tn =>
        simp only [runF] at hr
        simpa [reqDrop] using ih hr ⟨rfl, trivial⟩
      | vstruct tn fs =>
        simp only [runF] at hr
        simpa [reqDrop] using ih hr trivial
    | .rgate v body =>
      obtain ⟨hd0, hnb⟩ := hq
      rw [runF] at hr
      cases hid : identityOf v with
      | none =>
        rw [hid] at hr
        have hx := ih hr hnb
        rw [hd0] at hx
        simpa [reqDrop] using hx
      | some id =>
        simp only [hid] at hr
        cases hadd : parentsAdd s id with
        | mk was s1 =>
          simp only [hadd] at hr
          have hs1 : s1.depth = s.depth := by
            have hx := parentsAdd_depth s id; rw [hadd] at hx; exact hx
          rw [Option.map_eq_some'] at hr
          obtain ⟨a, ha, hra⟩ := hr
          have hadepth : a.1.depth = s.depth := by
            cases hpf : pointerFor s1 v with
            | mk cur rest =>
              cases rest with
              | mk fv s2 =>
                have hs2 : s2.depth = s1.depth := by
                  have hx := pointerFor_depth s1 v; rw [hpf] at hx; exact hx
                simp only [hpf] at ha
                cases was with
                | false =>
                  simp only [Bool.and_false, Bool.not_false, Bool.not_true,
                    Bool.false_eq_true, if_false] at ha
                  cases cur with
                  | none =>
                    have hx : a.1.depth = s2.depth - reqDrop body :=
                      ih ha hnb
                    rw [hd0] at hx
                    omega
                  | some pid =>
                    cases fv with
                    | true =>
                      simp only [if_true] at ha
                      rw [Option.map_eq_some'] at ha
                      obtain ⟨b, hb, rfl⟩ := ha
                      have hx0 := ih hb hnb
                      have hx : b.1.depth = s2.depth - reqDrop body := hx0
                      rw [hd0] at hx
                      show b.1.depth = s.depth
                      omega
                    | false =>
                      simp only [Bool.false_eq_true, if_false] at ha
                      obtain rfl := Option.some.inj ha
                      show (s2.labelOf pid).2.depth = s.depth
                      rw [labelOf_depth]
                      omega
                | true =>
                  simp only [Bool.and_true, Bool.not_not] at ha
                  by_cases hdpr : o.disablePointerReplacement = true
                  · rw [if_pos hdpr] at ha
                    rw [Option.map_eq_some'] at ha
                    obtain ⟨b, hb, rfl⟩ := ha
                    have hx0 := ih hb hnb
                    have hx : b.1.depth = s2.depth - reqDrop body := hx0
                    rw [hd0] at hx
                    show b.1.depth = s.depth
                    omega
                  · rw [if_neg hdpr] at ha
                    cases cur with
                    | none =>
                      have hx : a.1.depth = s2.depth - reqDrop body :=
                        ih ha hnb
                      rw [hd0] at hx
                      omega
                    | some pid =>
                      cases fv with
                      | true =>
                        simp only [if_true] at ha
                        rw [Option.map_eq_some'] at ha
                        obtain ⟨b, hb, rfl⟩ := ha
                        have hx0 := ih hb hnb
                        have hx : b.1.depth = s2.depth - reqDrop body := hx0
                        rw [hd0] at hx
                        show b.1.depth = s.depth
                        omega
                      | false =>
                        simp only [Bool.false_eq_true, if_false] at ha
                        obtain rfl := Option.some.inj ha
                        show (s2.labelOf pid).2.depth = s.depth
                        rw [labelOf_depth]
                        omega
          cases was with
          | false =>
            simp only [Bool.false_eq_true, if_false] at hra
            obtain rfl := hra
            simpa [reqDrop] using hadepth
          | true =>
            simp only [if_true] at hra
            obtain rfl := hra.symm
            show a.1.depth = s.depth - reqDrop (.rgate v body)
            simpa [reqDrop] using hadepth
    | .rptrBody elemTn id =>
      rw [runF] at hr
      cases hl : List.lookup id h with
      | none => rw [hl] at hr; simp at hr
      | some t =>
        by_cases hsg : o.strictGo = true
        · simp only [hl, hsg, eq_self_iff_true, ite_true] at hr
          rw [Option.map_eq_some'] at hr
          obtain ⟨a, ha, rfl⟩ := hr
          have hx : a.1.depth = s.depth - reqDrop (.rval t) := ih ha trivial
          show a.1.depth = s.depth - reqDrop (.rptrBody elemTn id)
          simpa [reqDrop] using hx
        · simp only [hl, hsg, ite_false, Bool.false_eq_true, if_false,
            Option.map_eq_some'] at hr
          obtain ⟨a, ha, rfl⟩ := hr
          have hx : a.1.depth = s.depth - reqDrop (.rval t) := ih ha trivial
          show a.1.depth = s.depth - reqDrop (.rptrBody elemTn id)
          simpa [reqDrop] using hx
    | .rsliceBody tn es =>
      rw [runF] at hr
      split at hr
      · obtain rfl := Option.some.inj hr
        simp [reqDrop]
      · simp only [Option.map_eq_some'] at hr
        obtain ⟨a, ha, rfl⟩ := hr
        have hx0 := ih ha trivial
        have hx : a.1.depth =
            ((newlineWithPointerNameComment o s).1.depth + 1) -
              reqDrop (.rslElems es 0 es.length) := hx0
        have hnl := newline_depth o s
        show a.1.depth - 1 = s.depth - reqDrop (.rsliceBody tn es)
        simp only [reqDrop] at hx ⊢
        omega
    | .rslElems es i total =>
      cases es with
      | nil =>
        simp only [runF] at hr
        obtain rfl := Option.some.inj hr
        simp [reqDrop]
      | cons e es =>
        rw [runF] at hr
        simp only [Option.bind_eq_some, Option.map_eq_some'] at hr
        obtain ⟨a, ha, b, hb, rfl⟩ := hr
        have hx : a.1.depth = s.depth - reqDrop (.rval e) := ih ha trivial
        have hy : b.1.depth =
            (newlineWithPointerNameComment o a.1).1.depth -
              reqDrop (.rslElems es (i + 1) total) := ih hb trivial
        have hnl := newline_depth o a.1
        show b.1.depth = s.depth - reqDrop (.rslElems (e :: es) i total)
        simp only [reqDrop] at hx hy ⊢
        omega
    | .rfields tn fs i total pre =>
      cases fs with
      | nil =>
        cases pre with
        | true =>
          rw [runF] at hr
          rw [if_pos rfl] at hr
          obtain rfl := Option.some.inj hr
          simp [reqDrop]
        | false =>
          rw [runF] at hr
          rw [if_neg Bool.false_ne_true] at hr
          obtain rfl := Option.some.inj hr
          simp [reqDrop]
      | cons f fs =>
        rw [runF] at hr
        by_cases hexc : fieldExcluded o f.1 f.2.1 = true
        · rw [if_pos hexc] at hr
          have hx := ih hr trivial
          exact hx
        · rw [if_neg hexc] at hr
          by_cases hflt : fieldFilteredOut o f.1 f.2.1 f.2.2 = true
          · rw [if_pos hflt] at hr
            have hx := ih hr trivial
            exact hx
          · rw [if_neg hflt] at hr
            rw [Option.bind_eq_some] at hr
            obtain ⟨z, hz, hrest⟩ := hr
            cases z with
            | true =>
              rw [if_pos rfl] at hrest
              have hx := ih hrest trivial
              exact hx
            | false =>
              rw [if_neg Bool.false_ne_true] at hrest
              cases pre with
              | true =>
                simp only [if_pos rfl, Option.bind_eq_some,
                  Option.map_eq_some'] at hrest
                obtain ⟨rv, hrv, rrest, hrrest, rfl⟩ := hrest
                have hx : rv.1.depth = s.depth - reqDrop (.rval f.2.2) :=
                  ih hrv trivial
                have hy : rrest.1.depth =
                    (newlineWithPointerNameComment o rv.1).1.depth -
                      reqDrop (.rfields tn fs (i + 1) total true) :=
                  ih hrrest trivial
                have hnl := newline_depth o rv.1
                have e1 : reqDrop (.rval f.2.2) = 0 := rfl
                have e2 : reqDrop (.rfields tn fs (i + 1) total true) = 1 :=
                  rfl
                rw [e1] at hx
                rw [e2] at hy
                show rrest.1.depth =
                  s.depth - reqDrop (.rfields tn (f :: fs) i total true)
                have e3 : reqDrop (.rfields tn (f :: fs) i total true) = 1 :=
                  rfl
                rw [e3]
                omega
              | false =>
                simp only [if_neg Bool.false_ne_true, Option.bind_eq_some,
                  Option.map_eq_some'] at hrest
                obtain ⟨rv, hrv, rrest, hrrest, rfl⟩ := hrest
                have hx : rv.1.depth =
                    ((newlineWithPointerNameComment o s).1.depth + 1) -
                      reqDrop (.rval f.2.2) := ih hrv trivial
                have hy : rrest.1.depth =
                    (newlineWithPointerNameComment o rv.1).1.depth -
                      reqDrop (.rfields tn fs (i + 1) total true) :=
                  ih hrrest trivial
                have hnl := newline_depth o s
                have hnl2 := newline_depth o rv.1
                have e1 : reqDrop (.rval f.2.2) = 0 := rfl
                have e2 : reqDrop (.rfields tn fs (i + 1) total true) = 1 :=
                  rfl
                rw [e1] at hx
                rw [e2] at hy
                show rrest.1.depth =
                  s.depth - reqDrop (.rfields tn (f :: fs) i total false)
                have e3 : reqDrop (.rfields tn (f :: fs) i total false) = 0 :=
                  rfl
                rw [e3]
                omega
    | .rmapBody tn es isNilMap =>
      rw [runF] at hr
      split at hr
      · obtain rfl := Option.some.inj hr
        simp [reqDrop]
      · split at hr
        · obtain rfl := Option.some.inj hr
          simp [reqDrop]
        · have hx : r.1.depth =
              s.depth - reqDrop (.rmapPrep tn es [] es.length) :=
            ih hr trivial
          simpa [reqDrop] using hx
    | .rmapPrep tn pending acc total =>
      cases pending with
      | nil =>
        rw [runF] at hr
        simp only [Option.map_eq_some'] at hr
        obtain ⟨a, ha, rfl⟩ := hr
        have hx0 := ih ha trivial
        have hx : a.1.depth =
            ((newlineWithPointerNameComment o s).1.depth + 1) -
              reqDrop (.rentries
                ((List.insertionSort (fun a b => strLe a.1 b.1 = true)
                  acc.reverse).map (fun t => (t.2.1, t.2.2))) 0 total) := hx0
        have hnl := newline_depth o s
        show a.1.depth - 1 = s.depth - reqDrop (.rmapPrep tn [] acc total)
        simp only [reqDrop] at hx ⊢
        omega
      | cons e es =>
        rw [runF] at hr
        simp only [Option.bind_eq_some] at hr
        obtain ⟨ptrs, hp, a, hk, hrec⟩ := hr
        have hx : r.1.depth =
            s.depth - reqDrop (.rmapPrep tn es ((a.2.1, e.1, e.2) :: acc)
              total) := ih hrec trivial
        simpa [reqDrop] using hx
    | .rentries es i total =>
      cases es with
      | nil =>
        simp only [runF] at hr
        obtain rfl := Option.some.inj hr
        simp [reqDrop]
      | cons e es =>
        rw [runF] at hr
        simp only [Option.bind_eq_some, Option.map_eq_some'] at hr
        obtain ⟨a, ha, b, hb, c, hc, rfl⟩ := hr
        have hx : a.1.depth = s.depth - reqDrop (.rval e.1) := ih ha trivial
        have hy : b.1.depth = a.1.depth - reqDrop (.rval e.2) :=
          ih hb trivial
        have hz2 : c.1.depth =
            (newlineWithPointerNameComment o b.1).1.depth -
              reqDrop (.rentries es (i + 1) total) := ih hc trivial
        have hnl := newline_depth o b.1
        show c.1.depth = s.depth - reqDrop (.rentries (e :: es) i total)
        simp only [reqDrop] at hx hy hz2 ⊢
        omega

theorem runF_fieldBound : ∀ {n : Nat} {o : Options} {h : Heap}
    {s : DumpState} {req : Req} {r : DumpState × String × List Ev},
    runF n o h s req = some r → noPreBody req →
    ∀ d2 nm, Ev.fieldEv d2 nm ∈ r.2.2 → s.depth + 1 - reqDrop req ≤ d2 := by
  intro n
  induction n with
  | zero => intro o h s req r hr hq; simp [runF] at hr
  | succ n ih =>
    intro o h s req r hr hq
    match req with
    | .rtop v =>
      cases v with
      | vnil =>
        simp only [runF] at hr
        obtain rfl := Option.some.inj hr
        intro d2 nm hm
        simp at hm
      | vbool b =>
        simp only [runF] at hr
        intro d2 nm hm
        simpa [reqDrop] using ih hr trivial d2 nm hm
      | vint k =>
        simp only [runF] at hr
        intro d2 nm hm
        simpa [reqDrop] using ih hr trivial d2 nm hm
      | vstr str =>
        simp only [runF] at hr
        intro d2 nm hm
        simpa [reqDrop] using ih hr trivial d2 nm hm
      | vnilptr =>
        simp only [runF] at hr
        intro d2 nm hm
        simpa [reqDrop] using ih hr trivial d2 nm hm
      | vptr tn id =>
        simp only [runF] at hr
        intro d2 nm hm
        simpa [reqDrop] using ih hr trivial d2 nm hm
      | vslice tn id es =>
        simp only [runF] at hr
        intro d2 nm hm
        simpa [reqDrop] using ih hr trivial d2 nm hm
      | varray tn es =>
        simp only [runF] at hr
        intro d2 nm hm
        simpa [reqDrop] using ih hr trivial d2 nm hm
      | vmap tn id es =>
        simp only [runF] at hr
        intro d2 nm hm
        simpa [reqDrop] using ih hr trivial d2 nm hm
      | vnilmap tn =>
        simp only [runF] at hr
        intro d2 nm hm
        simpa [reqDrop] using ih hr trivial d2 nm hm
      | vstruct tn fs =>
        simp only [runF] at hr
        intro d2 nm hm
        simpa [reqDrop] using ih hr trivial d2 nm hm
    | .rval v =>
      cases v with
      | vnil =>
        simp only [runF] at hr
        obtain rfl := Option.some.inj hr
        intro d2 nm hm
        simp at hm
      | vbool b =>
        simp only [runF] at hr
        obtain rfl := Option.some.inj hr
        intro d2 nm hm
        simp at hm
      | vint k =>
        simp only [runF] at hr
        obtain rfl := Option.some.inj hr
        intro d2 nm hm
        simp at hm
      | vstr str =>
        simp only [runF] at hr
        obtain rfl := Option.some.inj hr
        intro d2 nm hm
        simp at hm
      | vnilptr =>
        simp only [runF] at hr
        obtain rfl := Option.some.inj hr
        intro d2 nm hm
        simp at hm
      | vptr tn id =>
        simp only [runF] at hr
        intro d2 nm hm
        simpa [reqDrop] using ih hr ⟨rfl, trivial⟩ d2 nm hm
      | vslice tn id es =>
        simp only [runF] at hr
        intro d2 nm hm
        simpa [reqDrop] using ih hr ⟨rfl, trivial⟩ d2 nm hm
      | varray tn es =>
        simp only [runF] at hr
        intro d2 nm hm
        simpa [reqDrop] using ih hr ⟨rfl, trivial⟩ d2 nm hm
      | vmap tn id es =>
        simp only [runF] at hr
        intro d2 nm hm
        simpa [reqDrop] using ih hr ⟨rfl, trivial⟩ d2 nm hm
      | vnilmap tn =>
        simp only [runF] at hr
        intro d2 nm hm
        simpa [reqDrop] using ih hr ⟨rfl, trivial⟩ d2 nm hm
      | vstruct tn fs =>
        simp only [runF] at hr
        intro d2 nm hm
        simpa [reqDrop] using ih hr trivial d2 nm hm
    | .rgate v body =>
      obtain ⟨hd0, hnb⟩ := hq
      rw [runF] at hr
      cases hid : identityOf v with
      | none =>
        rw [hid] at hr
        intro d2 nm hm
        have hx := ih hr hnb d2 nm hm
        rw [hd0] at hx
        simpa [reqDrop] using hx
      | some id =>
        simp only [hid] at hr
        cases hadd : parentsAdd s id with
        | mk was s1 =>
          simp only [hadd] at hr
          have hs1 : s1.depth = s.depth := by
            have hx := parentsAdd_depth s id; rw [hadd] at hx; exact hx
          rw [Option.map_eq_some'] at hr
          obtain ⟨a, ha, hra⟩ := hr
          have hamem : ∀ d2 nm, Ev.fieldEv d2 nm ∈ a.2.2 →
              s.depth + 1 ≤ d2 := by
            cases hpf : pointerFor s1 v with
            | mk cur rest =>
              cases rest with
              | mk fv s2 =>
                have hs2 : s2.depth = s1.depth := by
                  have hx := pointerFor_depth s1 v; rw [hpf] at hx; exact hx
                simp only [hpf] at ha
                cases was with
                | false =>
                  simp only [Bool.and_false, Bool.not_false, Bool.not_true,
                    Bool.false_eq_true, if_false] at ha
                  cases cur with
                  | none =>
                    intro d2 nm hm
                    have hx := ih ha hnb d2 nm hm
                    rw [hd0] at hx
                    omega
                  | some pid =>
                    cases fv with
                    | true =>
                      simp only [if_true] at ha
                      rw [Option.map_eq_some'] at ha
                      obtain ⟨b, hb, rfl⟩ := ha
                      intro d2 nm hm
                      simp only [List.mem_cons] at hm
                      rcases hm with h1 | h2
                      · simp at h1
                      · have hx := ih hb hnb d2 nm h2
                        have hx2 : s2.depth + 1 - reqDrop body ≤ d2 := hx
                        rw [hd0] at hx2
                        omega
                    | false =>
                      simp only [Bool.false_eq_true, if_false] at ha
                      obtain rfl := Option.some.inj ha
                      intro d2 nm hm
                      simp at hm
                | true =>
                  simp only [Bool.and_true, Bool.not_not] at ha
                  by_cases hdpr : o.disablePointerReplacement = true
                  · rw [if_pos hdpr] at ha
                    rw [Option.map_eq_some'] at ha
                    obtain ⟨b, hb, rfl⟩ := ha
                    intro d2 nm hm
                    rw [List.mem_append] at hm
                    rcases hm with h1 | h2
                    · cases cur <;> simp at h1
                    · have hx := ih hb hnb d2 nm h2
                      have hx2 : s2.depth + 1 - reqDrop body ≤ d2 := hx
                      rw [hd0] at hx2
                      omega
                  · rw [if_neg hdpr] at ha
                    cases cur with
                    | none =>
                      intro d2 nm hm
                      have hx := ih ha hnb d2 nm hm
                      rw [hd0] at hx
                      omega
                    | some pid =>
                      cases fv with
                      | true =>
                        simp only [if_true] at ha
                        rw [Option.map_eq_some'] at ha
                        obtain ⟨b, hb, rfl⟩ := ha
                        intro d2 nm hm
                        simp only [List.mem_cons] at hm
                        rcases hm with h1 | h2
                        · simp at h1
                        · have hx := ih hb hnb d2 nm h2
                          have hx2 : s2.depth + 1 - reqDrop body ≤ d2 := hx
                          rw [hd0] at hx2
                          omega
                      | false =>
                        simp only [Bool.false_eq_true, if_false] at ha
                        obtain rfl := Option.some.inj ha
                        intro d2 nm hm
                        simp at hm
          intro d2 nm hm
          have hrmem : Ev.fieldEv d2 nm ∈ a.2.2 := by
            cases was with
            | false =>
              simp only [Bool.false_eq_true, if_false] at hra
              obtain rfl := hra
              exact hm
            | true =>
              simp only [if_true] at hra
              obtain rfl := hra.symm
              exact hm
          have hx := hamem d2 nm hrmem
          have e0 : reqDrop (.rgate v body) = 0 := rfl
          rw [e0]
          omega
    | .rptrBody elemTn id =>
      rw [runF] at hr
      cases hl : List.lookup id h with
      | none => rw [hl] at hr; simp at hr
      | some t =>
        by_cases hsg : o.strictGo = true
        · simp only [hl, hsg, eq_self_iff_true, ite_true,
            Option.map_eq_some'] at hr
          obtain ⟨a, ha, rfl⟩ := hr
          intro d2 nm hm
          have hx := ih ha trivial d2 nm hm
          have hx2 : s.depth + 1 - reqDrop (.rval t) ≤ d2 := hx
          have e0 : reqDrop (.rval t) = 0 := rfl
          rw [e0] at hx2
          have e1 : reqDrop (.rptrBody elemTn id) = 0 := rfl
          rw [e1]
          omega
        · simp only [hl, hsg, ite_false, Bool.false_eq_true, if_false,
            Option.map_eq_some'] at hr
          obtain ⟨a, ha, rfl⟩ := hr
          intro d2 nm hm
          have hx := ih ha trivial d2 nm hm
          have hx2 : s.depth + 1 - reqDrop (.rval t) ≤ d2 := hx
          have e0 : reqDrop (.rval t) = 0 := rfl
          rw [e0] at hx2
          have e1 : reqDrop (.rptrBody elemTn id) = 0 := rfl
          rw [e1]
          omega
    | .rsliceBody tn es =>
      rw [runF] at hr
      split at hr
      · obtain rfl := Option.some.inj hr
        intro d2 nm hm
        simp at hm
      · simp only [Option.map_eq_some'] at hr
        obtain ⟨a, ha, rfl⟩ := hr
        intro d2 nm hm
        rw [List.mem_append] at hm
        rcases hm with h1 | h2
        · exact absurd h1 (newline_noFieldEv o s d2 nm)
        · have hx := ih ha trivial d2 nm h2
          have hx2 : (newlineWithPointerNameComment o s).1.depth + 1 + 1 -
              reqDrop (.rslElems es 0 es.length) ≤ d2 := hx
          have e0 : reqDrop (.rslElems es 0 es.length) = 0 := rfl
          rw [e0] at hx2
          have hnl := newline_depth o s
          have e1 : reqDrop (.rsliceBody tn es) = 0 := rfl
          rw [e1]
          omega
    | .rslElems es i total =>
      cases es with
      | nil =>
        simp only [runF] at hr
        obtain rfl := Option.some.inj hr
        intro d2 nm hm
        simp at hm
      | cons e es =>
        rw [runF] at hr
        simp only [Option.bind_eq_some, Option.map_eq_some'] at hr
        obtain ⟨a, ha, b, hb, rfl⟩ := hr
        intro d2 nm hm
        simp only [List.mem_append] at hm
        have e1 : reqDrop (.rslElems (e :: es) i total) = 0 := rfl
        rw [e1]
        rcases hm with (h1 | h2) | h3
        · have hx := ih ha trivial d2 nm h1
          have hx2 : s.depth + 1 - reqDrop (.rval e) ≤ d2 := hx
          have e0 : reqDrop (.rval e) = 0 := rfl
          rw [e0] at hx2
          omega
        · exact absurd h2 (newline_noFieldEv o a.1 d2 nm)
        · have hx := ih hb trivial d2 nm h3
          have hx2 : (newlineWithPointerNameComment o a.1).1.depth + 1 -
              reqDrop (.rslElems es (i + 1) total) ≤ d2 := hx
          have e0 : reqDrop (.rslElems es (i + 1) total) = 0 := rfl
          rw [e0] at hx2
          have hnl := newline_depth o a.1
          have hda : a.1.depth = s.depth - reqDrop (.rval e) :=
            runF_depth ha trivial
          have e2 : reqDrop (.rval e) = 0 := rfl
          rw [e2] at hda
          omega
    | .rfields tn fs i total pre =>
      cases fs with
      | nil =>
        cases pre with
        | true =>
          rw [runF] at hr
          rw [if_pos rfl] at hr
          obtain rfl := Option.some.inj hr
          intro d2 nm hm
          simp at hm
        | false =>
          rw [runF] at hr
          rw [if_neg Bool.false_ne_true] at hr
          obtain rfl := Option.some.inj hr
          intro d2 nm hm
          simp at hm
      | cons f fs =>
        rw [runF] at hr
        by_cases hexc : fieldExcluded o f.1 f.2.1 = true
        · rw [if_pos hexc] at hr
          intro d2 nm hm
          have hx := ih hr trivial d2 nm hm
          exact hx
        · rw [if_neg hexc] at hr
          by_cases hflt : fieldFilteredOut o f.1 f.2.1 f.2.2 = true
          · rw [if_pos hflt] at hr
            intro d2 nm hm
            have hx := ih hr trivial d2 nm hm
            exact hx
          · rw [if_neg hflt] at hr
            rw [Option.bind_eq_some] at hr
            obtain ⟨z, hz, hrest⟩ := hr
            cases z with
            | true =>
              rw [if_pos rfl] at hrest
              intro d2 nm hm
              have hx := ih hrest trivial d2 nm hm
              exact hx
            | false =>
              rw [if_neg Bool.false_ne_true] at hrest
              cases pre with
              | true =>
                rw [if_pos rfl] at hrest
                simp only [Option.bind_eq_some,
                  Option.map_eq_some'] at hrest
                obtain ⟨rv, hrv, rrest, hrrest, rfl⟩ := hrest
                intro d2 nm hm
                simp only [List.nil_append, List.mem_append,
                  List.mem_cons, List.not_mem_nil, or_false] at hm
                have e3 : reqDrop (.rfields tn (f :: fs) i total true) = 1 :=
                  rfl
                rw [e3]
                rcases hm with ((h1 | h2) | h3) | h4
                · obtain ⟨rfl, rfl⟩ := Ev.fieldEv.inj h1
                  omega
                · have hx := ih hrv trivial d2 nm h2
                  have hx2 : s.depth + 1 - reqDrop (.rval f.2.2) ≤ d2 := hx
                  have e0 : reqDrop (.rval f.2.2) = 0 := rfl
                  rw [e0] at hx2
                  omega
                · exact absurd h3 (newline_noFieldEv o rv.1 d2 nm)
                · have hx := ih hrrest trivial d2 nm h4
                  have hx2 : (newlineWithPointerNameComment o rv.1).1.depth +
                      1 - reqDrop (.rfields tn fs (i + 1) total true) ≤ d2 :=
                    hx
                  have e0 : reqDrop (.rfields tn fs (i + 1) total true) = 1 :=
                    rfl
                  rw [e0] at hx2
                  have hnl2 := newline_depth o rv.1
                  have hda : rv.1.depth = s.depth - reqDrop (.rval f.2.2) :=
                    runF_depth hrv trivial
                  have e4 : reqDrop (.rval f.2.2) = 0 := rfl
                  rw [e4] at hda
                  omega
              | false =>
                rw [if_neg Bool.false_ne_true] at hrest
                simp only [Option.bind_eq_some,
                  Option.map_eq_some'] at hrest
                obtain ⟨rv, hrv, rrest, hrrest, rfl⟩ := hrest
                intro d2 nm hm
                simp only [List.mem_append, List.mem_cons,
                  List.not_mem_nil, or_false] at hm
                have e3 : reqDrop (.rfields tn (f :: fs) i total false) = 0 :=
                  rfl
                rw [e3]
                have hnl := newline_depth o s
                rcases hm with (((h0 | h1) | h2) | h3) | h4
                · exact absurd h0 (newline_noFieldEv o s d2 nm)
                · obtain ⟨rfl, rfl⟩ := Ev.fieldEv.inj h1
                  omega
                · have hx := ih hrv trivial d2 nm h2
                  have hx2 : (newlineWithPointerNameComment o s).1.depth + 1 +
                      1 - reqDrop (.rval f.2.2) ≤ d2 := hx
                  have e0 : reqDrop (.rval f.2.2) = 0 := rfl
                  rw [e0] at hx2
                  omega
                · exact absurd h3 (newline_noFieldEv o rv.1 d2 nm)
                · have hx := ih hrrest trivial d2 nm h4
                  have hx2 : (newlineWithPointerNameComment o rv.1).1.depth +
                      1 - reqDrop (.rfields tn fs (i + 1) total true) ≤ d2 :=
                    hx
                  have e0 : reqDrop (.rfields tn fs (i + 1) total true) = 1 :=
                    rfl
                  rw [e0] at hx2
                  have hnl2 := newline_depth o rv.1
                  have hda0 := runF_depth hrv trivial
                  have hda : rv.1.depth =
                      (newlineWithPointerNameComment o s).1.depth + 1 -
                        reqDrop (.rval f.2.2) := hda0
                  have e4 : reqDrop (.rval f.2.2) = 0 := rfl
                  rw [e4] at hda
                  omega
    | .rmapBody tn es isNilMap =>
      rw [runF] at hr
      split at hr
      · obtain rfl := Option.some.inj hr
        intro d2 nm hm
        simp at hm
      · split at hr
        · obtain rfl := Option.some.inj hr
          intro d2 nm hm
          simp at hm
        · intro d2 nm hm
          have hx := ih hr trivial d2 nm hm
          have hx2 : s.depth + 1 - reqDrop (.rmapPrep tn es [] es.length) ≤
              d2 := hx
          have e0 : reqDrop (.rmapPrep tn es [] es.length) = 0 := rfl
          rw [e0] at hx2
          have e1 : reqDrop (.rmapBody tn es isNilMap) = 0 := rfl
          rw [e1]
          omega
    | .rmapPrep tn pending acc total =>
      cases pending with
      | nil =>
        rw [runF] at hr
        simp only [Option.map_eq_some'] at hr
        obtain ⟨a, ha, rfl⟩ := hr
        intro d2 nm hm
        rw [List.mem_append] at hm
        have e1 : reqDrop (.rmapPrep tn [] acc total) = 0 := rfl
        rw [e1]
        rcases hm with h1 | h2
        · exact absurd h1 (newline_noFieldEv o s d2 nm)
        · have hx := ih ha trivial d2 nm h2
          have hx2 : (newlineWithPointerNameComment o s).1.depth + 1 + 1 -
              reqDrop (.rentries
                ((List.insertionSort (fun a b => strLe a.1 b.1 = true)
                  acc.reverse).map (fun t => (t.2.1, t.2.2))) 0 total) ≤
              d2 := hx
          have e0 : reqDrop (.rentries
              ((List.insertionSort (fun a b => strLe a.1 b.1 = true)
                acc.reverse).map (fun t => (t.2.1, t.2.2))) 0 total) = 0 :=
            rfl
          rw [e0] at hx2
          have hnl := newline_depth o s
          omega
      | cons e es =>
        rw [runF] at hr
        simp only [Option.bind_eq_some] at hr
        obtain ⟨ptrs, hp, a, hk, hrec⟩ := hr
        intro d2 nm hm
        have hx := ih hrec trivial d2 nm hm
        exact hx
    | .rentries es i total =>
      cases es with
      | nil =>
        simp only [runF] at hr
        obtain rfl := Option.some.inj hr
        intro d2 nm hm
        simp at hm
      | cons e es =>
        rw [runF] at hr
        simp only [Option.bind_eq_some, Option.map_eq_some'] at hr
        obtain ⟨a, ha, b, hb, c, hc, rfl⟩ := hr
        intro d2 nm hm
        simp only [List.mem_append] at hm
        have e1 : reqDrop (.rentries (e :: es) i total) = 0 := rfl
        rw [e1]
        rcases hm with ((h1 | h2) | h3) | h4
        · have hx := ih ha trivial d2 nm h1
          have hx2 : s.depth + 1 - reqDrop (.rval e.1) ≤ d2 := hx
          have e0 : reqDrop (.rval e.1) = 0 := rfl
          rw [e0] at hx2
          omega
        · have hx := ih hb trivial d2 nm h2
          have hx2 : a.1.depth + 1 - reqDrop (.rval e.2) ≤ d2 := hx
          have e0 : reqDrop (.rval e.2) = 0 := rfl
          rw [e0] at hx2
          have hda : a.1.depth = s.depth - reqDrop (.rval e.1) :=
            runF_depth ha trivial
          have e2 : reqDrop (.rval e.1) = 0 := rfl
          rw [e2] at hda
          omega
        · exact absurd h3 (newline_noFieldEv o b.1 d2 nm)
        · have hx := ih hc trivial d2 nm h4
          have hx2 : (newlineWithPointerNameComment o b.1).1.depth + 1 -
              reqDrop (.rentries es (i + 1) total) ≤ d2 := hx
          have e0 : reqDrop (.rentries es (i + 1) total) = 0 := rfl
          rw [e0] at hx2
          have hnl := newline_depth o b.1
          have hda : a.1.depth = s.depth - reqDrop (.rval e.1) :=
            runF_depth ha trivial
          have hdb : b.1.depth = a.1.depth - reqDrop (.rval e.2) :=
            runF_depth hb trivial
          have e2 : reqDrop (.rval e.1) = 0 := rfl
          have e3 : reqDrop (.rval e.2) = 0 := rfl
          rw [e2] at hda
          rw [e3] at hdb
          omega


/-- The per-field decision of `dumpStruct`'s loop, read off the source in
order: first `continue` (visibility / exclusion pattern), second `continue`
(field filter), third `continue` (zero value under `HideZeroValues`, whose
test needs fuel).  `some true` means the field is rendered. -/
def fieldKept (n : Nat) (o : Options) (f : String × String × Val) :
    Option Bool :=
  if fieldExcluded o f.1 f.2.1 then some false
  else if fieldFilteredOut o f.1 f.2.1 f.2.2 then some false
  else (if o.hideZeroValues then isZeroRun n (.one f.2.2)
        else some false).map (fun z => !z)

theorem fieldKept_mono {n : Nat} {o : Options} {f : String × String × Val}
    {b : Bool} (hb : fieldKept n o f = some b) :
    fieldKept (n + 1) o f = some b := by
  unfold fieldKept at hb ⊢
  by_cases h1 : fieldExcluded o f.1 f.2.1 = true
  · rw [if_pos h1] at hb ⊢; exact hb
  · rw [if_neg h1] at hb ⊢
    by_cases h2 : fieldFilteredOut o f.1 f.2.1 f.2.2 = true
    · rw [if_pos h2] at hb ⊢; exact hb
    · rw [if_neg h2] at hb ⊢
      by_cases h3 : o.hideZeroValues = true
      · rw [if_pos h3] at hb ⊢
        rw [Option.map_eq_some'] at hb ⊢
        obtain ⟨z, hz, rfl⟩ := hb
        exact ⟨z, isZeroRun_mono hz, rfl⟩
      · rw [if_neg h3] at hb ⊢; exact hb

theorem fieldKept_le {m n : Nat} {o : Options} {f : String × String × Val}
    {b : Bool} (hmn : m ≤ n) (hb : fieldKept m o f = some b) :
    fieldKept n o f = some b := by
  induction hmn with
  | refl => exact hb
  | step h2 ih => exact fieldKept_mono ih

/-- Does this ghost event record a struct field rendered at depth `d`? -/
def isFieldEvAt (d : Nat) : Ev → Bool
  | .fieldEv d2 _ => d2 == d
  | _ => false

/-- The struct-field events of a log at one given depth: exactly the
fields of the records braced at that depth, in emission order. -/
def fieldEvsAt (d : Nat) (evs : List Ev) : List Ev :=
  evs.filter (isFieldEvAt d)

theorem fieldEvsAt_append (d : Nat) (a b : List Ev) :
    fieldEvsAt d (a ++ b) = fieldEvsAt d a ++ fieldEvsAt d b :=
  List.filter_append a b

theorem fieldEvsAt_above (d : Nat) : ∀ (evs : List Ev),
    (∀ d2 nm, Ev.fieldEv d2 nm ∈ evs → d < d2) → fieldEvsAt d evs = [] := by
  intro evs
  induction evs with
  | nil => intro hx; rfl
  | cons e es ih =>
    intro hx
    have htail : fieldEvsAt d es = [] :=
      ih (fun d3 nm2 hm => hx d3 nm2 (List.mem_cons_of_mem _ hm))
    have hhead : isFieldEvAt d e = false := by
      cases e with
      | fieldEv d2 nm =>
        have hlt := hx d2 nm (List.mem_cons_self _ _)
        have hne : d2 ≠ d := by omega
        simp [isFieldEvAt, hne]
      | body i => rfl
      | bare i lab => rfl
      | flush i lab => rfl
      | dup i => rfl
    show List.filter (isFieldEvAt d) (e :: es) = []
    rw [List.filter_cons]
    rw [hhead]
    rw [if_neg Bool.false_ne_true]
    exact htail

theorem fieldEvsAt_newline (d : Nat) (o : Options) (s : DumpState) :
    fieldEvsAt d (newlineWithPointerNameComment o s).2.2 = [] :=
  fieldEvsAt_above d _
    (fun d2 nm hm => absurd hm (newline_noFieldEv o s d2 nm))

theorem fieldEvsAt_self (d : Nat) (nm : String) (evs : List Ev) :
    fieldEvsAt d (Ev.fieldEv d nm :: evs) =
      Ev.fieldEv d nm :: fieldEvsAt d evs := by
  show List.filter (isFieldEvAt d) (Ev.fieldEv d nm :: evs) = _
  rw [List.filter_cons]
  have hh : isFieldEvAt d (Ev.fieldEv d nm) = true := by
    simp [isFieldEvAt]
  rw [hh]
  rw [if_pos rfl]
  rfl

theorem rfields_run : ∀ (n : Nat) {o : Options} {h : Heap} {s : DumpState}
    {tn : String} {fs : List (String × String × Val)} {i total : Nat}
    {pre : Bool} {r : DumpState × String × List Ev},
    runF n o h s (.rfields tn fs i total pre) = some r →
    (∀ f ∈ fs, ∃ b, fieldKept n o f = some b) ∧
    fieldEvsAt (if pre then s.depth else s.depth + 1) r.2.2 =
      (fs.filter (fun f => fieldKept n o f == some true)).map
        (fun f => Ev.fieldEv (if pre then s.depth else s.depth + 1) f.1) ∧
    ((fs.filter (fun f => fieldKept n o f == some true)) = [] →
      r = (if pre then
             ({ s with depth := s.depth - 1 },
              indent o { s with depth := s.depth - 1 } ++ "\x7d",
              ([] : List Ev))
           else (s, dumpType tn ++ "\x7b\x7d", ([] : List Ev)))) := by
  intro n
  induction n with
  | zero =>
    intro o h s tn fs i total pre r hr
    simp [runF] at hr
  | succ n ih =>
    intro o h s tn fs i total pre r hr
    cases fs with
    | nil =>
      cases pre with
      | true =>
        rw [runF] at hr
        rw [if_pos rfl] at hr
        obtain rfl := Option.some.inj hr
        refine ⟨by simp, by simp [fieldEvsAt], ?_⟩
        intro hnil
        rw [if_pos rfl]
      | false =>
        rw [runF] at hr
        rw [if_neg Bool.false_ne_true] at hr
        obtain rfl := Option.some.inj hr
        refine ⟨by simp, by simp [fieldEvsAt], ?_⟩
        intro hnil
        rw [if_neg Bool.false_ne_true]
    | cons f fs =>
      rw [runF] at hr
      by_cases hexc : fieldExcluded o f.1 f.2.1 = true
      · rw [if_pos hexc] at hr
        obtain ⟨hconv, hevs, hemp⟩ := ih hr
        have hkf : fieldKept (n + 1) o f = some false := by
          unfold fieldKept
          rw [if_pos hexc]
        have hcongr : (fs.filter (fun g => fieldKept (n + 1) o g ==
            some true)) = fs.filter (fun g => fieldKept n o g == some true) :=
          by
          apply List.filter_congr
          intro g hg
          obtain ⟨b, hb⟩ := hconv g hg
          rw [hb, fieldKept_mono hb]
        have hfc : ((f :: fs).filter (fun g => fieldKept (n + 1) o g ==
            some true)) = fs.filter (fun g => fieldKept (n + 1) o g ==
            some true) := by
          simp [List.filter_cons, hkf]
        refine ⟨?_, ?_, ?_⟩
        · intro g hg
          rcases List.mem_cons.mp hg with h1 | h2
          · subst h1; exact ⟨false, hkf⟩
          · obtain ⟨b, hb⟩ := hconv g h2
            exact ⟨b, fieldKept_mono hb⟩
        · rw [hfc, hcongr]
          exact hevs
        · intro hnil
          rw [hfc, hcongr] at hnil
          exact hemp hnil
      · rw [if_neg hexc] at hr
        by_cases hflt : fieldFilteredOut o f.1 f.2.1 f.2.2 = true
        · rw [if_pos hflt] at hr
          obtain ⟨hconv, hevs, hemp⟩ := ih hr
          have hkf : fieldKept (n + 1) o f = some false := by
            unfold fieldKept
            rw [if_neg hexc, if_pos hflt]
          have hcongr : (fs.filter (fun g => fieldKept (n + 1) o g ==
              some true)) = fs.filter (fun g => fieldKept n o g ==
              some true) := by
            apply List.filter_congr
            intro g hg
            obtain ⟨b, hb⟩ := hconv g hg
            rw [hb, fieldKept_mono hb]
          have hfc : ((f :: fs).filter (fun g => fieldKept (n + 1) o g ==
              some true)) = fs.filter (fun g => fieldKept (n + 1) o g ==
              some true) := by
            simp [List.filter_cons, hkf]
          refine ⟨?_, ?_, ?_⟩
          · intro g hg
            rcases List.mem_cons.mp hg with h1 | h2
            · subst h1; exact ⟨false, hkf⟩
            · obtain ⟨b, hb⟩ := hconv g h2
              exact ⟨b, fieldKept_mono hb⟩
          · rw [hfc, hcongr]
            exact hevs
          · intro hnil
            rw [hfc, hcongr] at hnil
            exact hemp hnil
        · rw [if_neg hflt] at hr
          rw [Option.bind_eq_some] at hr
          obtain ⟨z, hz, hrest⟩ := hr
          have hkf : fieldKept (n + 1) o f = some (!z) := by
            unfold fieldKept
            rw [if_neg hexc, if_neg hflt]
            by_cases h3 : o.hideZeroValues = true
            · rw [if_pos h3] at hz ⊢
              rw [Option.map_eq_some']
              exact ⟨z, isZeroRun_mono hz, rfl⟩
            · rw [if_neg h3] at hz ⊢
              obtain rfl := (Option.some.inj hz).symm
              rfl
          cases z with
          | true =>
            rw [if_pos rfl] at hrest
            obtain ⟨hconv, hevs, hemp⟩ := ih hrest
            have hcongr : (fs.filter (fun g => fieldKept (n + 1) o g ==
                some true)) = fs.filter (fun g => fieldKept n o g ==
                some true) := by
              apply List.filter_congr
              intro g hg
              obtain ⟨b, hb⟩ := hconv g hg
              rw [hb, fieldKept_mono hb]
            have hfc : ((f :: fs).filter (fun g => fieldKept (n + 1) o g ==
                some true)) = fs.filter (fun g => fieldKept (n + 1) o g ==
                some true) := by
              simp [List.filter_cons, hkf]
            refine ⟨?_, ?_, ?_⟩
            · intro g hg
              rcases List.mem_cons.mp hg with h1 | h2
              · subst h1; exact ⟨false, hkf⟩
              · obtain ⟨b, hb⟩ := hconv g h2
                exact ⟨b, fieldKept_mono hb⟩
            · rw [hfc, hcongr]
              exact hevs
            · intro hnil
              rw [hfc, hcongr] at hnil
              exact hemp hnil
          | false =>
            rw [if_neg Bool.false_ne_true] at hrest
            cases pre with
            | true =>
              rw [if_pos rfl] at hrest
              dsimp only at hrest
              rw [Option.bind_eq_some] at hrest
              obtain ⟨rv, hrv, hrest2⟩ := hrest
              rw [Option.map_eq_some'] at hrest2
              obtain ⟨rrest, hrrest, rfl⟩ := hrest2
              obtain ⟨hconv, hevs, hemp⟩ := ih hrrest
              rw [if_pos rfl] at hevs
              have hdrv : rv.1.depth = s.depth - reqDrop (.rval f.2.2) :=
                runF_depth hrv trivial
              have e0 : reqDrop (.rval f.2.2) = 0 := rfl
              rw [e0] at hdrv
              have hd : (newlineWithPointerNameComment o rv.1).1.depth =
                  s.depth := by
                rw [newline_depth]; omega
              rw [hd] at hevs
              have hcongr : (fs.filter (fun g => fieldKept (n + 1) o g ==
                  some true)) = fs.filter (fun g => fieldKept n o g ==
                  some true) := by
                apply List.filter_congr
                intro g hg
                obtain ⟨b, hb⟩ := hconv g hg
                rw [hb, fieldKept_mono hb]
              have hfc : ((f :: fs).filter (fun g => fieldKept (n + 1) o g ==
                  some true)) = f :: fs.filter (fun g =>
                    fieldKept (n + 1) o g == some true) := by
                simp [List.filter_cons, hkf]
              have hrvE : fieldEvsAt s.depth rv.2.2 = [] := by
                apply fieldEvsAt_above
                intro d2 nm hm2
                have hx := runF_fieldBound hrv trivial d2 nm hm2
                have hx2 : s.depth + 1 - reqDrop (.rval f.2.2) ≤ d2 := hx
                rw [e0] at hx2
                omega
              have hnlE : fieldEvsAt s.depth
                  (newlineWithPointerNameComment o rv.1).2.2 = [] :=
                fieldEvsAt_newline s.depth o rv.1
              refine ⟨?_, ?_, ?_⟩
              · intro g hg
                rcases List.mem_cons.mp hg with h1 | h2
                · subst h1; exact ⟨true, hkf⟩
                · obtain ⟨b, hb⟩ := hconv g h2
                  exact ⟨b, fieldKept_mono hb⟩
              · rw [if_pos rfl]
                rw [hfc, hcongr]
                show fieldEvsAt s.depth
                    (([] ++ [Ev.fieldEv s.depth f.1] ++ rv.2.2 ++
                      (newlineWithPointerNameComment o rv.1).2.2) ++
                      rrest.2.2) = _
                rw [fieldEvsAt_append, fieldEvsAt_append, fieldEvsAt_append,
                  fieldEvsAt_append]
                rw [hrvE, hnlE, hevs]
                rw [fieldEvsAt_self]
                simp [fieldEvsAt]
              · intro hnil
                rw [hfc] at hnil
                exact absurd hnil (List.cons_ne_nil _ _)
            | false =>
              rw [if_neg Bool.false_ne_true] at hrest
              dsimp only at hrest
              rw [Option.bind_eq_some] at hrest
              obtain ⟨rv, hrv, hrest2⟩ := hrest
              rw [Option.map_eq_some'] at hrest2
              obtain ⟨rrest, hrrest, rfl⟩ := hrest2
              obtain ⟨hconv, hevs, hemp⟩ := ih hrrest
              rw [if_pos rfl] at hevs
              have hdrv : rv.1.depth =
                  ((newlineWithPointerNameComment o s).1.depth + 1) -
                    reqDrop (.rval f.2.2) := runF_depth hrv trivial
              have e0 : reqDrop (.rval f.2.2) = 0 := rfl
              rw [e0] at hdrv
              have hnl0 := newline_depth o s
              have hd : (newlineWithPointerNameComment o rv.1).1.depth =
                  s.depth + 1 := by
                rw [newline_depth]; omega
              rw [hd] at hevs
              have hcongr : (fs.filter (fun g => fieldKept (n + 1) o g ==
                  some true)) = fs.filter (fun g => fieldKept n o g ==
                  some true) := by
                apply List.filter_congr
                intro g hg
                obtain ⟨b, hb⟩ := hconv g hg
                rw [hb, fieldKept_mono hb]
              have hfc : ((f :: fs).filter (fun g => fieldKept (n + 1) o g ==
                  some true)) = f :: fs.filter (fun g =>
                    fieldKept (n + 1) o g == some true) := by
                simp [List.filter_cons, hkf]
              have hrvE : fieldEvsAt (s.depth + 1) rv.2.2 = [] := by
                apply fieldEvsAt_above
                intro d2 nm hm2
                have hx := runF_fieldBound hrv trivial d2 nm hm2
                have hx2 : (newlineWithPointerNameComment o s).1.depth + 1 +
                    1 - reqDrop (.rval f.2.2) ≤ d2 := hx
                rw [e0] at hx2
                omega
              have hnlE0 : fieldEvsAt (s.depth + 1)
                  (newlineWithPointerNameComment o s).2.2 = [] :=
                fieldEvsAt_newline (s.depth + 1) o s
              have hnlE : fieldEvsAt (s.depth + 1)
                  (newlineWithPointerNameComment o rv.1).2.2 = [] :=
                fieldEvsAt_newline (s.depth + 1) o rv.1
              refine ⟨?_, ?_, ?_⟩
              · intro g hg
                rcases List.mem_cons.mp hg with h1 | h2
                · subst h1; exact ⟨true, hkf⟩
                · obtain ⟨b, hb⟩ := hconv g h2
                  exact ⟨b, fieldKept_mono hb⟩
              · rw [if_neg Bool.false_ne_true]
                rw [hfc, hcongr]
                show fieldEvsAt (s.depth + 1)
                    (((newlineWithPointerNameComment o s).2.2 ++
                      [Ev.fieldEv
                        ((newlineWithPointerNameComment o s).1.depth + 1)
                        f.1] ++ rv.2.2 ++
                      (newlineWithPointerNameComment o rv.1).2.2) ++
                      rrest.2.2) = _
                rw [fieldEvsAt_append, fieldEvsAt_append, fieldEvsAt_append,
                  fieldEvsAt_append]
                rw [hrvE, hnlE, hnlE0, hevs]
                rw [hnl0]
                rw [fieldEvsAt_self]
                simp [fieldEvsAt]
              · intro hnil
                rw [hfc] at hnil
                exact absurd hnil (List.cons_ne_nil _ _)

theorem fieldKept_spec (n : Nat) (o : Options) (f : String × String × Val)
    (b : Bool) (hb : fieldKept n o f = some b) :
    b = false ↔
      (o.hidePrivateFields = true ∧ ¬f.2.1 = "") ∨
      (∃ p, o.fieldExclusions = some p ∧ p f.1 = true) ∨
      (∃ flt, o.fieldFilter = some flt ∧ flt f.1 f.2.1 f.2.2 = false) ∨
      (o.hideZeroValues = true ∧ isZeroRun n (.one f.2.2) = some true) := by
  unfold fieldKept at hb
  by_cases h1 : fieldExcluded o f.1 f.2.1 = true
  · rw [if_pos h1] at hb
    obtain rfl := Option.some.inj hb
    constructor
    · intro hx
      unfold fieldExcluded at h1
      rw [Bool.or_eq_true] at h1
      rcases h1 with h1a | h1b
      · rw [Bool.and_eq_true] at h1a
        left
        refine ⟨h1a.1, ?_⟩
        have h1c := h1a.2
        simp at h1c
        exact h1c
      · right; left
        cases hfe : o.fieldExclusions with
        | none => rw [hfe] at h1b; simp at h1b
        | some p => rw [hfe] at h1b; exact ⟨p, rfl, h1b⟩
    · intro hx; rfl
  · rw [if_neg h1] at hb
    by_cases h2 : fieldFilteredOut o f.1 f.2.1 f.2.2 = true
    · rw [if_pos h2] at hb
      obtain rfl := Option.some.inj hb
      constructor
      · intro hx
        right; right; left
        unfold fieldFilteredOut at h2
        cases hff : o.fieldFilter with
        | none => rw [hff] at h2; simp at h2
        | some flt =>
          rw [hff] at h2
          refine ⟨flt, rfl, ?_⟩
          have h2b : (!flt f.1 f.2.1 f.2.2) = true := h2
          simp at h2b
          exact h2b
      · intro hx; rfl
    · rw [if_neg h2] at hb
      by_cases h3 : o.hideZeroValues = true
      · rw [if_pos h3] at hb
        rw [Option.map_eq_some'] at hb
        obtain ⟨z, hz, rfl⟩ := hb
        constructor
        · intro hbf
          have hzt : z = true := by
            cases z with
            | true => rfl
            | false => simp at hbf
          subst hzt
          exact Or.inr (Or.inr (Or.inr ⟨h3, hz⟩))
        · intro hrhs
          rcases hrhs with hA | hB | hC | hD
          · exfalso
            apply h1
            unfold fieldExcluded
            rw [Bool.or_eq_true]
            left
            rw [Bool.and_eq_true]
            refine ⟨hA.1, ?_⟩
            simp [hA.2]
          · exfalso
            apply h1
            unfold fieldExcluded
            rw [Bool.or_eq_true]
            right
            obtain ⟨p, hp, hpf⟩ := hB
            rw [hp]
            exact hpf
          · exfalso
            apply h2
            unfold fieldFilteredOut
            obtain ⟨flt, hf, hfv⟩ := hC
            rw [hf]
            simp [hfv]
          · obtain ⟨hx, hzt⟩ := hD
            rw [hz] at hzt
            have h5 : z = true := Option.some.inj hzt
            rw [h5]
            rfl
      · rw [if_neg h3] at hb
        simp only [Option.map_some'] at hb
        obtain rfl := Option.some.inj hb
        constructor
        · intro hbf
          exfalso
          simp at hbf
        · intro hrhs
          exfalso
          rcases hrhs with hA | hB | hC | hD
          · apply h1
            unfold fieldExcluded
            rw [Bool.or_eq_true]
            left
            rw [Bool.and_eq_true]
            refine ⟨hA.1, ?_⟩
            simp [hA.2]
          · apply h1
            unfold fieldExcluded
            rw [Bool.or_eq_true]
            right
            obtain ⟨p, hp, hpf⟩ := hB
            rw [hp]
            exact hpf
          · apply h2
            unfold fieldFilteredOut
            obtain ⟨flt, hf, hfv⟩ := hC
            rw [hf]
            simp [hfv]
          · exact h3 hD.1

/-- The options of the C7 witness: every filter kind active at once. -/
def c7Options : Options :=
  { hidePrivateFields := true
    fieldExclusions := some (fun nm => nm == "XXX_size")
    fieldFilter := some (fun nm _ _ => !(nm == "Rejected"))
    hideZeroValues := true }

/-- The fields of the C7 witness record: one surviving field and one field
per exclusion rule. -/
def c7Fields : List (String × String × Val) :=
  [("Kept", "", .vint 7),
   ("hidden", "pkg", .vint 1),
   ("XXX_size", "", .vint 2),
   ("Rejected", "", .vint 3),
   ("Zero", "", .vint 0)]

def c7Val : Val := .vstruct "T" c7Fields

/-- C7: whenever the renderer emits a record (struct) value, every field
gets a source-ordered decision `fieldKept` (read off the three `continue`s
of `dumpStruct`); a field is omitted exactly when one of the spec's four
exclusion rules applies (visibility, name pattern, filter callback,
zero value under `HideZeroValues`); the surviving fields are exactly the
struct-field events logged at the record's depth, in declaration order;
and if no field survives, the record renders as `TypeName{}` with no
inner expansion, no events, and an unchanged state. -/
theorem C7_struct_field_filter_composition (N : Nat) (o : Options)
    (h : Heap) (s : DumpState) (tn : String)
    (fs : List (String × String × Val)) (r : DumpState × String × List Ev)
    (hrun : runF N o h s (.rval (.vstruct tn fs)) = some r) :
    (∀ f ∈ fs, ∃ b, fieldKept N o f = some b) ∧
    (∀ f ∈ fs, ∀ b, fieldKept N o f = some b →
      (b = false ↔
        (o.hidePrivateFields = true ∧ ¬f.2.1 = "") ∨
        (∃ p, o.fieldExclusions = some p ∧ p f.1 = true) ∨
        (∃ flt, o.fieldFilter = some flt ∧ flt f.1 f.2.1 f.2.2 = false) ∨
        (o.hideZeroValues = true ∧ isZeroRun N (.one f.2.2) = some true))) ∧
    fieldEvsAt (s.depth + 1) r.2.2 =
      (fs.filter (fun f => fieldKept N o f == some true)).map
        (fun f => Ev.fieldEv (s.depth + 1) f.1) ∧
    ((fs.filter (fun f => fieldKept N o f == some true)) = [] →
      r = (s, dumpType tn ++ "{}", ([] : List Ev))) := by
  cases N with
  | zero => simp [runF] at hrun
  | succ n =>
    simp only [runF] at hrun
    obtain ⟨hconv, hevs, hemp⟩ := rfields_run n hrun
    rw [if_neg Bool.false_ne_true] at hevs hemp
    have hcongr : (fs.filter (fun g => fieldKept (n + 1) o g ==
        some true)) = fs.filter (fun g => fieldKept n o g == some true) := by
      apply List.filter_congr
      intro g hg
      obtain ⟨b, hb⟩ := hconv g hg
      rw [hb, fieldKept_mono hb]
    refine ⟨?_, ?_, ?_, ?_⟩
    · intro g hg
      obtain ⟨b, hb⟩ := hconv g hg
      exact ⟨b, fieldKept_mono hb⟩
    · intro g hg b hb
      exact fieldKept_spec (n + 1) o g b hb
    · rw [hcongr]
      exact hevs
    · intro hnil
      rw [hcongr] at hnil
      exact hemp hnil

theorem C7_witness :
    runF 100 c7Options [] (initDumpState []) (.rval c7Val) =
      some (⟨0, [], [], [], [], none⟩, "T\x7b\n  Kept: 7,\n\x7d",
        [Ev.fieldEv 1 "Kept"]) ∧
    ((∀ f ∈ c7Fields, ∃ b, fieldKept 100 c7Options f = some b) ∧
     (∀ f ∈ c7Fields, ∀ b, fieldKept 100 c7Options f = some b →
       (b = false ↔
         (c7Options.hidePrivateFields = true ∧ ¬f.2.1 = "") ∨
         (∃ p, c7Options.fieldExclusions = some p ∧ p f.1 = true) ∨
         (∃ flt, c7Options.fieldFilter = some flt ∧
           flt f.1 f.2.1 f.2.2 = false) ∨
         (c7Options.hideZeroValues = true ∧
           isZeroRun 100 (.one f.2.2) = some true))) ∧
     fieldEvsAt 1 [Ev.fieldEv 1 "Kept"] =
       (c7Fields.filter
         (fun f => fieldKept 100 c7Options f == some true)).map
         (fun f => Ev.fieldEv 1 f.1) ∧
     ((c7Fields.filter (fun f => fieldKept 100 c7Options f == some true)) =
        [] →
      ((⟨0, [], [], [], [], none⟩ : DumpState), "T\x7b\n  Kept: 7,\n\x7d",
        ([Ev.fieldEv 1 "Kept"] : List Ev)) =
      ((⟨0, [], [], [], [], none⟩ : DumpState), dumpType "T" ++ "{}",
        ([] : List Ev)))) :=
  ⟨by rfl,
    C7_struct_field_filter_composition 100 c7Options [] (initDumpState [])
      "T" c7Fields
      (⟨0, [], [], [], [], none⟩, "T\x7b\n  Kept: 7,\n\x7d",
        [Ev.fieldEv 1 "Kept"])
      (by rfl)⟩


/-- Occurrences of `Ev.body id` in a log: how many times the renderer
started a full body render of the tracked identity `id`. -/
def bodyCount (id : Nat) : List Ev → Nat
  | [] => 0
  | .body j :: es => (if j == id then 1 else 0) + bodyCount id es
  | _ :: es => bodyCount id es

theorem bodyCount_append (id : Nat) : ∀ (a b : List Ev),
    bodyCount id (a ++ b) = bodyCount id a + bodyCount id b := by
  intro a b
  induction a with
  | nil => simp [bodyCount]
  | cons e es ih =>
    cases e with
    | body j =>
      show (if j == id then 1 else 0) + bodyCount id (es ++ b) =
        ((if j == id then 1 else 0) + bodyCount id es) + bodyCount id b
      rw [ih]
      omega
    | bare i l =>
      show bodyCount id (es ++ b) = bodyCount id es + bodyCount id b
      exact ih
    | flush i l =>
      show bodyCount id (es ++ b) = bodyCount id es + bodyCount id b
      exact ih
    | fieldEv d nm =>
      show bodyCount id (es ++ b) = bodyCount id es + bodyCount id b
      exact ih
    | dup i =>
      show bodyCount id (es ++ b) = bodyCount id es + bodyCount id b
      exact ih

theorem containsNat_iff {l : List Nat} {x : Nat} :
    l.contains x = true ↔ x ∈ l := by
  simp

theorem findIdx_append_stable_k : ∀ (l t : List Nat) (p : Nat → Bool)
    (k i : Nat), l.findIdx? p k = some i → (l ++ t).findIdx? p k = some i :=
  by
  intro l
  induction l with
  | nil =>
    intro t p k i hh
    exact absurd hh (by simp [List.findIdx?])
  | cons a as ih =>
    intro t p k i hh
    rw [List.findIdx?_cons] at hh
    rw [List.cons_append, List.findIdx?_cons]
    cases hp : p a with
    | true =>
      rw [hp, if_pos rfl] at hh
      rw [if_pos rfl]
      exact hh
    | false =>
      rw [hp, if_neg Bool.false_ne_true] at hh
      rw [if_neg Bool.false_ne_true]
      exact ih t p (k + 1) i hh

theorem findIdx_append_stable (l t : List Nat) (p : Nat → Bool) (i : Nat)
    (hh : l.findIdx? p = some i) : (l ++ t).findIdx? p = some i :=
  findIdx_append_stable_k l t p 0 i hh

theorem findIdx_append_self_k : ∀ (l : List Nat) (id : Nat) (k : Nat),
    l.findIdx? (fun x => x == id) k = none →
    (l ++ [id]).findIdx? (fun x => x == id) k = some (k + l.length) := by
  intro l
  induction l with
  | nil =>
    intro id k hh
    rw [List.nil_append, List.findIdx?_cons]
    simp
  | cons a as ih =>
    intro id k hh
    rw [List.findIdx?_cons] at hh
    cases hp : (a == id) with
    | true =>
      rw [hp, if_pos rfl] at hh
      exact absurd hh (by simp)
    | false =>
      rw [hp, if_neg Bool.false_ne_true] at hh
      rw [List.cons_append, List.findIdx?_cons]
      rw [hp]
      rw [if_neg Bool.false_ne_true]
      rw [ih id (k + 1) hh]
      rw [List.length_cons]
      exact congrArg some (by omega)

theorem findIdx_append_self (l : List Nat) (id : Nat)
    (hh : l.findIdx? (fun x => x == id) = none) :
    (l ++ [id]).findIdx? (fun x => x == id) = some l.length := by
  have hx := findIdx_append_self_k l id 0 hh
  simpa using hx

theorem parentsAdd_pres (s : DumpState) (id : Nat) :
    (parentsAdd s id).2.visited = s.visited ∧
    (parentsAdd s id).2.labels = s.labels := by
  unfold parentsAdd
  by_cases hc : s.parents.contains id = true
  · rw [if_pos hc]; exact ⟨rfl, rfl⟩
  · rw [if_neg hc]; exact ⟨rfl, rfl⟩

theorem labelOf_visited (s : DumpState) (id : Nat) :
    (s.labelOf id).2.visited = s.visited := by
  unfold DumpState.labelOf
  cases s.labels.findIdx? (fun x => x == id) <;> rfl

theorem labelOf_spec (s : DumpState) (id : Nat) :
    (∃ t, (s.labelOf id).2.labels = s.labels ++ t) ∧
    (∃ i, (s.labelOf id).2.labels.findIdx? (fun x => x == id) = some i ∧
      (s.labelOf id).1 = labelString i) := by
  unfold DumpState.labelOf
  cases hf : s.labels.findIdx? (fun x => x == id) with
  | some i =>
    dsimp only
    exact ⟨⟨[], (List.append_nil _).symm⟩, ⟨i, hf, rfl⟩⟩
  | none =>
    dsimp only
    exact ⟨⟨[id], rfl⟩,
      ⟨s.labels.length, findIdx_append_self s.labels id hf, rfl⟩⟩

/-- The aliasing contract of one renderer call (with pointer replacement
enabled) from entry state `s` to exit state `sr`, over the ghost events
`log` the call emitted: the label registry only grows; the visited set
only grows; each tracked identity's full body begins exactly once, namely
during the call that first visits it; a bare label is only ever emitted
for an identity whose body rendering has begun; and every label the call
attaches (flush) or emits bare for an identity is the registry label of
that identity, so all occurrences of one identity agree on its label. -/
structure AliasOK (s sr : DumpState) (log : List Ev) : Prop where
  labelsApp : ∃ t, sr.labels = s.labels ++ t
  visMono : ∀ x, x ∈ s.visited → x ∈ sr.visited
  bodyCnt : ∀ id, bodyCount id log =
    (if id ∈ sr.visited ∧ ¬ id ∈ s.visited then 1 else 0)
  bareVis : ∀ id lab, Ev.bare id lab ∈ log → id ∈ sr.visited
  labCoh : ∀ id lab, Ev.flush id lab ∈ log ∨ Ev.bare id lab ∈ log →
    ∃ i, sr.labels.findIdx? (fun x => x == id) = some i ∧
      lab = labelString i

theorem AliasOK_refl (s : DumpState) : AliasOK s s [] := by
  refine ⟨⟨[], (List.append_nil _).symm⟩, fun x hx => hx, ?_, ?_, ?_⟩
  · intro id
    show (0 : Nat) = _
    rw [if_neg (fun hcon => hcon.2 hcon.1)]
  · intro id lab hm; simp at hm
  · intro id lab hm; rcases hm with hm | hm <;> simp at hm

theorem AliasOK_castL {s s2 r : DumpState} {l : List Ev}
    (hA : AliasOK s2 r l) (hl : s.labels = s2.labels)
    (hv : s.visited = s2.visited) : AliasOK s r l := by
  refine ⟨?_, ?_, ?_, hA.bareVis, hA.labCoh⟩
  · rw [hl]; exact hA.labelsApp
  · intro x hx
    exact hA.visMono x (hv ▸ hx)
  · intro id
    rw [hv]
    exact hA.bodyCnt id

theorem AliasOK_castR {s r r2 : DumpState} {l : List Ev}
    (hA : AliasOK s r2 l) (hl : r.labels = r2.labels)
    (hv : r.visited = r2.visited) : AliasOK s r l := by
  refine ⟨?_, ?_, ?_, ?_, ?_⟩
  · rw [hl]; exact hA.labelsApp
  · intro x hx; rw [hv]; exact hA.visMono x hx
  · intro id; rw [hv]; exact hA.bodyCnt id
  · intro id lab hm; rw [hv]; exact hA.bareVis id lab hm
  · intro id lab hm; rw [hl]; exact hA.labCoh id lab hm

theorem AliasOK_trans {s1 s2 s3 : DumpState} {l1 l2 : List Ev}
    (a : AliasOK s1 s2 l1) (b : AliasOK s2 s3 l2) :
    AliasOK s1 s3 (l1 ++ l2) := by
  refine ⟨?_, ?_, ?_, ?_, ?_⟩
  · obtain ⟨t1, e1⟩ := a.labelsApp
    obtain ⟨t2, e2⟩ := b.labelsApp
    exact ⟨t1 ++ t2, by rw [e2, e1, List.append_assoc]⟩
  · intro x hx
    exact b.visMono x (a.visMono x hx)
  · intro id
    rw [bodyCount_append]
    rw [a.bodyCnt id, b.bodyCnt id]
    by_cases h1 : id ∈ s1.visited
    · have h2 : id ∈ s2.visited := a.visMono id h1
      rw [if_neg (fun hc => hc.2 h1), if_neg (fun hc => hc.2 h2),
        if_neg (fun hc => hc.2 h1)]
    · by_cases h2 : id ∈ s2.visited
      · have h3 : id ∈ s3.visited := b.visMono id h2
        rw [if_pos ⟨h2, h1⟩, if_neg (fun hc => hc.2 h2), if_pos ⟨h3, h1⟩]
      · by_cases h3 : id ∈ s3.visited
        · rw [if_neg (fun hc => h2 hc.1), if_pos ⟨h3, h2⟩, if_pos ⟨h3, h1⟩]
        · rw [if_neg (fun hc => h2 hc.1), if_neg (fun hc => h3 hc.1),
            if_neg (fun hc => h3 hc.1)]
  · intro id lab hm
    rw [List.mem_append] at hm
    rcases hm with hm | hm
    · exact b.visMono id (a.bareVis id lab hm)
    · exact b.bareVis id lab hm
  · intro id lab hm
    have hsplit : (Ev.flush id lab ∈ l1 ∨ Ev.bare id lab ∈ l1) ∨
        (Ev.flush id lab ∈ l2 ∨ Ev.bare id lab ∈ l2) := by
      rcases hm with hm | hm
      · rw [List.mem_append] at hm
        rcases hm with hm | hm
        · exact Or.inl (Or.inl hm)
        · exact Or.inr (Or.inl hm)
      · rw [List.mem_append] at hm
        rcases hm with hm | hm
        · exact Or.inl (Or.inr hm)
        · exact Or.inr (Or.inr hm)
    rcases hsplit with hm | hm
    · obtain ⟨i, hf, hl⟩ := a.labCoh id lab hm
      obtain ⟨t2, e2⟩ := b.labelsApp
      refine ⟨i, ?_, hl⟩
      rw [e2]
      exact findIdx_append_stable _ _ _ _ hf
    · exact b.labCoh id lab hm

theorem AliasOK_newline (o : Options) (s : DumpState) :
    AliasOK s (newlineWithPointerNameComment o s).1
      (newlineWithPointerNameComment o s).2.2 := by
  unfold newlineWithPointerNameComment
  cases hc : s.current with
  | none =>
    dsimp only
    exact AliasOK_refl s
  | some id =>
    dsimp only
    obtain ⟨⟨t, hla⟩, ⟨i, hfi, hlab⟩⟩ := labelOf_spec s id
    refine ⟨⟨t, ?_⟩, ?_, ?_, ?_, ?_⟩
    · show (s.labelOf id).2.labels = s.labels ++ t
      exact hla
    · intro x hx
      show x ∈ (s.labelOf id).2.visited
      rw [labelOf_visited]
      exact hx
    · intro id2
      show (0 : Nat) =
        if id2 ∈ (s.labelOf id).2.visited ∧ ¬ id2 ∈ s.visited then 1 else 0
      rw [labelOf_visited]
      rw [if_neg (fun hcon => hcon.2 hcon.1)]
    · intro id2 lab hm
      simp at hm
    · intro id2 lab hm
      rcases hm with hm | hm
      · simp only [List.mem_singleton] at hm
        have hinj := Ev.flush.inj hm
        obtain ⟨rfl, rfl⟩ := hinj
        refine ⟨i, ?_, hlab⟩
        show (s.labelOf id2).2.labels.findIdx? (fun x => x == id2) = some i
        exact hfi
      · simp at hm

theorem AliasOK_fieldEv (s : DumpState) (d : Nat) (nm : String) :
    AliasOK s s [Ev.fieldEv d nm] := by
  refine ⟨⟨[], (List.append_nil _).symm⟩, fun x hx => hx, ?_, ?_, ?_⟩
  · intro id
    show (0 : Nat) = _
    rw [if_neg (fun hcon => hcon.2 hcon.1)]
  · intro id lab hm; simp at hm
  · intro id lab hm; rcases hm with hm | hm <;> simp at hm

theorem AliasOK_bare (s1 : DumpState) (id : Nat) (hvd : id ∈ s1.visited) :
    AliasOK s1 (s1.labelOf id).2 [Ev.bare id (s1.labelOf id).1] := by
  obtain ⟨⟨t, hla⟩, ⟨i, hfi, hlab⟩⟩ := labelOf_spec s1 id
  refine ⟨⟨t, hla⟩, ?_, ?_, ?_, ?_⟩
  · intro x hx
    rw [labelOf_visited]
    exact hx
  · intro id2
    show (0 : Nat) = _
    rw [labelOf_visited]
    rw [if_neg (fun hcon => hcon.2 hcon.1)]
  · intro id2 lab hm
    simp only [List.mem_singleton] at hm
    obtain ⟨rfl, rfl⟩ := Ev.bare.inj hm
    rw [labelOf_visited]
    exact hvd
  · intro id2 lab hm
    rcases hm with hm | hm
    · simp at hm
    · simp only [List.mem_singleton] at hm
      obtain ⟨rfl, rfl⟩ := Ev.bare.inj hm
      exact ⟨i, hfi, hlab⟩

/-- C1 (amended): with pointer replacement enabled (the default,
`DisablePointerReplacement` unset), every renderer call obeys the aliasing
contract `AliasOK`: each tracked identity's full body begins exactly once
over the whole call — during the recursion that first visits it — every
bare-label emission refers to an identity whose body rendering has
already begun (never a second descent), and all flushed annotations and
bare labels for one identity agree with the registry label of that
identity.  (The original claim's stronger clause — that the label is
always *attached* to the full-body occurrence — is refuted by
`C1_counterexample`: a nested tracked reference can claim the annotation
slot first.) -/
theorem C1_amended : ∀ {n : Nat} {o : Options} {h : Heap} {s : DumpState}
    {req : Req} {r : DumpState × String × List Ev},
    runF n o h s req = some r → o.disablePointerReplacement = false →
    AliasOK s r.1 r.2.2 := by
  intro n
  induction n with
  | zero => intro o h s req r hr hdpr; simp [runF] at hr
  | succ n ih =>
    intro o h s req r hr hdpr
    match req with
    | .rtop v =>
      cases v with
      | vnil =>
        simp only [runF] at hr
        obtain rfl := Option.some.inj hr
        exact AliasOK_refl s
      | vbool b => simp only [runF] at hr; exact ih hr hdpr
      | vint k => simp only [runF] at hr; exact ih hr hdpr
      | vstr str => simp only [runF] at hr; exact ih hr hdpr
      | vnilptr => simp only [runF] at hr; exact ih hr hdpr
      | vptr tn id => simp only [runF] at hr; exact ih hr hdpr
      | vslice tn id es => simp only [runF] at hr; exact ih hr hdpr
      | varray tn es => simp only [runF] at hr; exact ih hr hdpr
      | vmap tn id es => simp only [runF] at hr; exact ih hr hdpr
      | vnilmap tn => simp only [runF] at hr; exact ih hr hdpr
      | vstruct tn fs => simp only [runF] at hr; exact ih hr hdpr
    | .rval v =>
      cases v with
      | vnil =>
        simp only [runF] at hr
        obtain rfl := Option.some.inj hr
        exact AliasOK_refl s
      | vbool b =>
        simp only [runF] at hr
        obtain rfl := Option.some.inj hr
        exact AliasOK_refl s
      | vint k =>
        simp only [runF] at hr
        obtain rfl := Option.some.inj hr
        exact AliasOK_refl s
      | vstr str =>
        simp only [runF] at hr
        obtain rfl := Option.some.inj hr
        exact AliasOK_refl s
      | vnilptr =>
        simp only [runF] at hr
        obtain rfl := Option.some.inj hr
        exact AliasOK_refl s
      | vptr tn id => simp only [runF] at hr; exact ih hr hdpr
      | vslice tn id es => simp only [runF] at hr; exact ih hr hdpr
      | varray tn es => simp only [runF] at hr; exact ih hr hdpr
      | vmap tn id es => simp only [runF] at hr; exact ih hr hdpr
      | vnilmap tn => simp only [runF] at hr; exact ih hr hdpr
      | vstruct tn fs => simp only [runF] at hr; exact ih hr hdpr
    | .rgate v body =>
      rw [runF] at hr
      cases hid : identityOf v with
      | none =>
        rw [hid] at hr
        exact ih hr hdpr
      | some id =>
        simp only [hid] at hr
        cases hadd : parentsAdd s id with
        | mk was s1 =>
          simp only [hadd] at hr
          have hpres := parentsAdd_pres s id
          rw [hadd] at hpres
          rw [hdpr] at hr
          simp only [Bool.false_and, Bool.not_false, Bool.not_true,
            Bool.false_eq_true, if_false] at hr
          rw [Option.map_eq_some'] at hr
          obtain ⟨a, ha, hra⟩ := hr
          have hmain : AliasOK s a.1 a.2.2 := by
            by_cases hpt : s1.pointers.contains id = true
            · by_cases hvd : s1.visited.contains id = true
              · have hpf : pointerFor s1 v = (some id, false, s1) := by
                  unfold pointerFor
                  rw [hid]
                  dsimp only
                  rw [if_pos hpt, if_pos hvd]
                simp only [hpf, Bool.false_eq_true, if_false] at ha
                obtain rfl := Option.some.inj ha
                have hb := AliasOK_bare s1 id (containsNat_iff.mp hvd)
                exact AliasOK_castL hb hpres.2.symm hpres.1.symm
              · have hpf : pointerFor s1 v =
                    (some id, true,
                      { s1 with visited := id :: s1.visited }) := by
                  unfold pointerFor
                  rw [hid]
                  dsimp only
                  rw [if_pos hpt, if_neg hvd]
                simp only [hpf, if_true] at ha
                rw [Option.map_eq_some'] at ha
                obtain ⟨rb, hrb, rfl⟩ := ha
                have hin0 := ih hrb hdpr
                have hin : AliasOK { s1 with visited := id :: s1.visited }
                    rb.1 rb.2.2 := AliasOK_castL hin0 rfl rfl
                have hidnot : ¬ id ∈ s.visited := by
                  intro hmem
                  apply hvd
                  rw [containsNat_iff]
                  rw [hpres.1]
                  exact hmem
                have hidrb : id ∈ rb.1.visited := by
                  apply hin.visMono
                  show id ∈ id :: s1.visited
                  exact List.mem_cons_self _ _
                refine ⟨?_, ?_, ?_, ?_, ?_⟩
                · obtain ⟨t, ht⟩ := hin.labelsApp
                  have ht2 : rb.1.labels = s1.labels ++ t := ht
                  rw [hpres.2] at ht2
                  exact ⟨t, ht2⟩
                · intro x hx
                  apply hin.visMono
                  show x ∈ id :: s1.visited
                  rw [hpres.1]
                  exact List.mem_cons_of_mem _ hx
                · intro id2
                  have hc0 := hin.bodyCnt id2
                  have hc : bodyCount id2 rb.2.2 =
                      if id2 ∈ rb.1.visited ∧ ¬ id2 ∈ id :: s1.visited
                      then 1 else 0 := hc0
                  rw [hpres.1] at hc
                  show (if id == id2 then 1 else 0) +
                    bodyCount id2 rb.2.2 = _
                  by_cases he : id2 = id
                  · subst he
                    have hbt : (id2 == id2) = true := by simp
                    rw [hbt, if_pos rfl]
                    rw [hc]
                    rw [if_neg
                      (fun hcon => hcon.2 (List.mem_cons_self _ _))]
                    rw [if_pos ⟨hidrb, hidnot⟩]
                  · have hbf : (id == id2) = false := by
                      rw [beq_eq_false_iff_ne]
                      exact fun hh => he hh.symm
                    rw [hbf, if_neg Bool.false_ne_true]
                    rw [hc]
                    have hiff : (id2 ∈ id :: s.visited) ↔
                        id2 ∈ s.visited := by
                      rw [List.mem_cons]
                      constructor
                      · intro hx
                        rcases hx with hx | hx
                        · exact absurd hx he
                        · exact hx
                      · intro hx
                        exact Or.inr hx
                    by_cases hm2 : id2 ∈ s.visited
                    · rw [if_neg (fun hcon => hcon.2 (hiff.mpr hm2)),
                        if_neg (fun hcon => hcon.2 hm2)]
                    · by_cases hm3 : id2 ∈ rb.1.visited
                      · rw [if_pos ⟨hm3, fun hcon => hm2 (hiff.mp hcon)⟩,
                          if_pos ⟨hm3, hm2⟩]
                      · rw [if_neg (fun hcon => hm3 hcon.1),
                          if_neg (fun hcon => hm3 hcon.1)]
                · intro id2 lab hm
                  rcases List.mem_cons.mp hm with hm | hm
                  · simp at hm
                  · exact hin.bareVis id2 lab hm
                · intro id2 lab hm
                  rcases hm with hm | hm
                  · rcases List.mem_cons.mp hm with hm | hm
                    · simp at hm
                    · exact hin.labCoh id2 lab (Or.inl hm)
                  · rcases List.mem_cons.mp hm with hm | hm
                    · simp at hm
                    · exact hin.labCoh id2 lab (Or.inr hm)
            · have hpf : pointerFor s1 v = (none, false, s1) := by
                unfold pointerFor
                rw [hid]
                dsimp only
                rw [if_neg hpt]
              simp only [hpf] at ha
              exact AliasOK_castL (ih ha hdpr) hpres.2.symm hpres.1.symm
          cases was with
          | false =>
            simp only [Bool.false_eq_true, if_false] at hra
            obtain rfl := hra
            exact hmain
          | true =>
            simp only [if_true] at hra
            obtain rfl := hra
            exact AliasOK_castR hmain rfl rfl
    | .rptrBody elemTn id =>
      rw [runF] at hr
      cases hl : List.lookup id h with
      | none => rw [hl] at hr; simp at hr
      | some t =>
        by_cases hsg : o.strictGo = true
        · simp only [hl, hsg, eq_self_iff_true, ite_true,
            Option.map_eq_some'] at hr
          obtain ⟨a, ha, rfl⟩ := hr
          have hx := ih ha hdpr
          exact hx
        · simp only [hl, hsg, ite_false, Bool.false_eq_true, if_false,
            Option.map_eq_some'] at hr
          obtain ⟨a, ha, rfl⟩ := hr
          have hx := ih ha hdpr
          exact hx
    | .rsliceBody tn es =>
      rw [runF] at hr
      split at hr
      · obtain rfl := Option.some.inj hr
        exact AliasOK_refl s
      · simp only [Option.map_eq_some'] at hr
        obtain ⟨a, ha, rfl⟩ := hr
        have h2 : AliasOK (newlineWithPointerNameComment o s).1 a.1 a.2.2 :=
          AliasOK_castL (ih ha hdpr) rfl rfl
        exact AliasOK_castR
          (AliasOK_trans (AliasOK_newline o s) h2) rfl rfl
    | .rslElems es i total =>
      cases es with
      | nil =>
        simp only [runF] at hr
        obtain rfl := Option.some.inj hr
        exact AliasOK_refl s
      | cons e es =>
        rw [runF] at hr
        simp only [Option.bind_eq_some, Option.map_eq_some'] at hr
        obtain ⟨a, ha, b, hb, rfl⟩ := hr
        have h1 := ih ha hdpr
        have h2 := AliasOK_newline o a.1
        have h3 : AliasOK (newlineWithPointerNameComment o a.1).1 b.1
            b.2.2 := ih hb hdpr
        exact AliasOK_trans (AliasOK_trans h1 h2) h3
    | .rfields tn fs i total pre =>
      cases fs with
      | nil =>
        cases pre with
        | true =>
          rw [runF] at hr
          rw [if_pos rfl] at hr
          obtain rfl := Option.some.inj hr
          exact AliasOK_castR (AliasOK_refl s) rfl rfl
        | false =>
          rw [runF] at hr
          rw [if_neg Bool.false_ne_true] at hr
          obtain rfl := Option.some.inj hr
          exact AliasOK_refl s
      | cons f fs =>
        rw [runF] at hr
        by_cases hexc : fieldExcluded o f.1 f.2.1 = true
        · rw [if_pos hexc] at hr
          exact ih hr hdpr
        · rw [if_neg hexc] at hr
          by_cases hflt : fieldFilteredOut o f.1 f.2.1 f.2.2 = true
          · rw [if_pos hflt] at hr
            exact ih hr hdpr
          · rw [if_neg hflt] at hr
            rw [Option.bind_eq_some] at hr
            obtain ⟨z, hz, hrest⟩ := hr
            cases z with
            | true =>
              rw [if_pos rfl] at hrest
              exact ih hrest hdpr
            | false =>
              rw [if_neg Bool.false_ne_true] at hrest
              cases pre with
              | true =>
                rw [if_pos rfl] at hrest
                dsimp only at hrest
                rw [Option.bind_eq_some] at hrest
                obtain ⟨rv, hrv, hrest2⟩ := hrest
                rw [Option.map_eq_some'] at hrest2
                obtain ⟨rrest, hrrest, rfl⟩ := hrest2
                have h1 := AliasOK_fieldEv s s.depth f.1
                have h2 := ih hrv hdpr
                have h3 := AliasOK_newline o rv.1
                have h4 : AliasOK (newlineWithPointerNameComment o rv.1).1
                    rrest.1 rrest.2.2 := ih hrrest hdpr
                exact AliasOK_trans (AliasOK_trans (AliasOK_trans
                  (AliasOK_trans (AliasOK_refl s) h1) h2) h3) h4
              | false =>
                rw [if_neg Bool.false_ne_true] at hrest
                dsimp only at hrest
                rw [Option.bind_eq_some] at hrest
                obtain ⟨rv, hrv, hrest2⟩ := hrest
                rw [Option.map_eq_some'] at hrest2
                obtain ⟨rrest, hrrest, rfl⟩ := hrest2
                have h0 := AliasOK_newline o s
                have h1 := AliasOK_fieldEv
                  (newlineWithPointerNameComment o s).1
                  ((newlineWithPointerNameComment o s).1.depth + 1) f.1
                have h2 : AliasOK (newlineWithPointerNameComment o s).1
                    rv.1 rv.2.2 := AliasOK_castL (ih hrv hdpr) rfl rfl
                have h3 := AliasOK_newline o rv.1
                have h4 : AliasOK (newlineWithPointerNameComment o rv.1).1
                    rrest.1 rrest.2.2 := ih hrrest hdpr
                exact AliasOK_trans (AliasOK_trans (AliasOK_trans
                  (AliasOK_trans h0 h1) h2) h3) h4
    | .rmapBody tn es isNilMap =>
      rw [runF] at hr
      split at hr
      · obtain rfl := Option.some.inj hr
        exact AliasOK_refl s
      · split at hr
        · obtain rfl := Option.some.inj hr
          exact AliasOK_refl s
        · exact ih hr hdpr
    | .rmapPrep tn pending acc total =>
      cases pending with
      | nil =>
        rw [runF] at hr
        simp only [Option.map_eq_some'] at hr
        obtain ⟨a, ha, rfl⟩ := hr
        have h2 : AliasOK (newlineWithPointerNameComment o s).1 a.1 a.2.2 :=
          AliasOK_castL (ih ha hdpr) rfl rfl
        exact AliasOK_castR
          (AliasOK_trans (AliasOK_newline o s) h2) rfl rfl
      | cons e es =>
        rw [runF] at hr
        simp only [Option.bind_eq_some] at hr
        obtain ⟨ptrs, hp, a, hk, hrec⟩ := hr
        exact ih hrec hdpr
    | .rentries es i total =>
      cases es with
      | nil =>
        simp only [runF] at hr
        obtain rfl := Option.some.inj hr
        exact AliasOK_refl s
      | cons e es =>
        rw [runF] at hr
        simp only [Option.bind_eq_some, Option.map_eq_some'] at hr
        obtain ⟨a, ha, b, hb, c, hc, rfl⟩ := hr
        have h1 := ih ha hdpr
        have h2 := ih hb hdpr
        have h3 := AliasOK_newline o b.1
        have h4 : AliasOK (newlineWithPointerNameComment o b.1).1 c.1
            c.2.2 := ih hc hdpr
        exact AliasOK_trans (AliasOK_trans (AliasOK_trans h1 h2) h3) h4

/-- C1 counterexample: with pointer replacement enabled, an array holding
two pointers to a shared inner pointer which itself is shared renders so
that identity 2's full body gets *no* trailing label annotation at all
(no flush event for identity 2 exists): its pending annotation is
overwritten by the nested tracked reference (identity 1, labelled p0)
before any line break, yet identity 2's later occurrence still emits the
bare label p1.  The claimed shape — every reused identity's full body
carries its label as a trailing annotation matching the bare occurrences
— is therefore false. -/
theorem C1_counterexample :
    SdumpF 100 ({} : Options) [(1, Val.vint 5), (2, Val.vptr "int" 1)]
      [Val.varray "[3]"
        [.vptr "*int" 2, .vptr "*int" 2, .vptr "int" 1]] =
      some ("[3]\x7b\n  &&5, // p0\n  p1,\n  p0,\n\x7d",
        [Ev.body 2, Ev.body 1, Ev.flush 1 "p0", Ev.bare 2 "p1",
         Ev.bare 1 "p0"]) ∧
    ({} : Options).disablePointerReplacement = false ∧
    Ev.body 2 ∈
      [Ev.body 2, Ev.body 1, Ev.flush 1 "p0", Ev.bare 2 "p1",
       Ev.bare 1 "p0"] ∧
    Ev.bare 2 "p1" ∈
      [Ev.body 2, Ev.body 1, Ev.flush 1 "p0", Ev.bare 2 "p1",
       Ev.bare 1 "p0"] ∧
    ([Ev.body 2, Ev.body 1, Ev.flush 1 "p0", Ev.bare 2 "p1",
      Ev.bare 1 "p0"].filter (fun e => match e with
        | Ev.flush i _ => i == 2
        | _ => false)) = [] := by decide

theorem C1_witness :
    runF 100 ({} : Options) [(1, Val.vint 5)] (initDumpState [1])
      (.rval (.varray "[2]" [.vptr "int" 1, .vptr "int" 1])) =
      some (⟨0, [1], [1], [], [1], none⟩,
        "[2]\x7b\n  &5, // p0\n  p0,\n\x7d",
        [Ev.body 1, Ev.flush 1 "p0", Ev.bare 1 "p0"]) ∧
    ({} : Options).disablePointerReplacement = false ∧
    AliasOK (initDumpState [1]) (⟨0, [1], [1], [], [1], none⟩ : DumpState)
      [Ev.body 1, Ev.flush 1 "p0", Ev.bare 1 "p0"] :=
  ⟨by rfl, by rfl,
    @C1_amended 100 ({} : Options) [(1, Val.vint 5)] (initDumpState [1])
      (.rval (.varray "[2]" [.vptr "int" 1, .vptr "int" 1]))
      (⟨0, [1], [1], [], [1], none⟩,
        "[2]\x7b\n  &5, // p0\n  p0,\n\x7d",
        [Ev.body 1, Ev.flush 1 "p0", Ev.bare 1 "p0"])
      (by rfl) (by rfl)⟩


theorem renderKey_mono {n : Nat} {o : Options} {h : Heap} {k : Val}
    {a : String} (hr : renderKey n o h k = some a) :
    renderKey (n + 1) o h k = some a := by
  unfold renderKey at hr ⊢
  simp only [Option.bind_eq_some] at hr ⊢
  obtain ⟨ptrs, hp, rv, hrv, hs⟩ := hr
  exact ⟨ptrs, mapReusedPointers_mono hp, rv, runF_mono hrv, hs⟩

theorem renderKey_le {n m : Nat} {o : Options} {h : Heap} {k : Val}
    {a : String} (hnm : n ≤ m) (hr : renderKey n o h k = some a) :
    renderKey m o h k = some a := by
  induction hnm with
  | refl => exact hr
  | step _ ih => exact renderKey_mono ih

theorem renderKey_det {n m : Nat} {o : Options} {h : Heap} {k : Val}
    {a b : String} (h1 : renderKey n o h k = some a)
    (h2 : renderKey m o h k = some b) : a = b := by
  have hm1 := renderKey_le (Nat.le_max_left n m) h1
  have hm2 := renderKey_le (Nat.le_max_right n m) h2
  rw [hm1] at hm2
  exact Option.some.inj hm2

theorem runF_det {n n2 : Nat} {o : Options} {h : Heap} {s : DumpState}
    {req : Req} {r r2 : DumpState × String × List Ev}
    (h1 : runF n o h s req = some r) (h2 : runF n2 o h s req = some r2) :
    r = r2 := by
  have hm1 := runF_le (Nat.le_max_left n n2) h1
  have hm2 := runF_le (Nat.le_max_right n n2) h2
  rw [hm1] at hm2
  exact Option.some.inj hm2

theorem rmapPrep_keysN (o : Options) (h : Heap) (tn : String) :
    ∀ (N : Nat) (pending : List (Val × Val))
      (acc : List (String × Val × Val)) (total : Nat) (s : DumpState)
      (r : DumpState × String × List Ev),
    runF N o h s (.rmapPrep tn pending acc total) = some r →
    ∃ ks : List (String × Val × Val),
      ks.map (fun t => t.2) = pending ∧
      (∀ t ∈ ks, renderKey N o h t.2.1 = some t.1) ∧
      runF N o h s (.rmapPrep tn [] (ks.reverse ++ acc) total) = some r := by
  intro N
  induction N with
  | zero => intro pending acc total s r hr; simp [runF] at hr
  | succ n ih =>
    intro pending acc total s r hr
    cases pending with
    | nil => exact ⟨[], rfl, by simp, hr⟩
    | cons e es =>
      rw [runF] at hr
      cases hp : mapReusedPointers n h e.1 with
      | none => rw [hp] at hr; simp at hr
      | some ptrs =>
        rw [hp] at hr
        simp only [Option.some_bind] at hr
        cases hk : runF n o h (initDumpState ptrs) (.rval e.1) with
        | none => rw [hk] at hr; simp at hr
        | some kr =>
          rw [hk] at hr
          simp only [Option.some_bind] at hr
          obtain ⟨ks, hmap, hkeys, hrun⟩ :=
            ih es ((kr.2.1, e.1, e.2) :: acc) total s r hr
          refine ⟨(kr.2.1, e.1, e.2) :: ks, ?_, ?_, ?_⟩
          · simp [hmap]
          · intro t ht
            rcases List.mem_cons.mp ht with h1 | h2
            · subst h1
              exact renderKey_mono (by simp [renderKey, hp, hk])
            · exact renderKey_mono (hkeys t h2)
          · have hlist : (((kr.2.1, e.1, e.2) :: ks).reverse ++ acc) =
                ks.reverse ++ ((kr.2.1, e.1, e.2) :: acc) := by
              simp
            rw [hlist]
            exact runF_mono hrun

theorem ks_functional (n : Nat) (o : Options) (h : Heap) :
    ∀ (ks : List (String × Val × Val)) (es : List (Val × Val)),
    ks.map (fun t => t.2) = es →
    (∀ t ∈ ks, renderKey n o h t.2.1 = some t.1) →
    ks = es.map (fun e => ((renderKey n o h e.1).getD "", e)) := by
  intro ks
  induction ks with
  | nil =>
    intro es hmap hann
    rw [← hmap]
    rfl
  | cons t ks ih =>
    intro es hmap hann
    cases es with
    | nil => simp at hmap
    | cons e es2 =>
      rw [List.map_cons] at hmap
      injection hmap with h1 h2
      subst h1
      rw [List.map_cons]
      have hh := hann t (List.mem_cons_self _ _)
      have htail := ih es2 h2
        (fun t2 ht2 => hann t2 (List.mem_cons_of_mem _ ht2))
      rw [← htail]
      show t :: ks = ((renderKey n o h t.2.1).getD "", t.2) :: ks
      rw [hh]
      rfl

theorem charsLe_antisymm : ∀ (a b : List Char),
    charsLe a b = true → charsLe b a = true → a = b := by
  intro a
  induction a with
  | nil =>
    intro b h1 h2
    cases b with
    | nil => rfl
    | cons y ys => simp [charsLe] at h2
  | cons x xs ih =>
    intro b h1 h2
    cases b with
    | nil => simp [charsLe] at h1
    | cons y ys =>
      by_cases hxy : x.toNat < y.toNat
      · have hyx : ¬ y.toNat < x.toNat := by omega
        simp [charsLe, hxy, hyx] at h2
      · by_cases hyx : y.toNat < x.toNat
        · simp [charsLe, hxy, hyx] at h1
        · have hnat : x.toNat = y.toNat := by omega
          have hx : x = y := by
            rw [← Char.ofNat_toNat x, ← Char.ofNat_toNat y, hnat]
          subst hx
          have htl : xs = ys :=
            ih ys (by simpa [charsLe, hxy, hyx] using h1)
              (by simpa [charsLe, hxy, hyx] using h2)
          rw [htl]

theorem strLe_antisymm (a b : String) (h1 : strLe a b = true)
    (h2 : strLe b a = true) : a = b := by
  have h3 := charsLe_antisymm a.toList b.toList h1 h2
  cases a with
  | mk la =>
    cases b with
    | mk lb =>
      have h4 : la = lb := h3
      rw [h4]

theorem sorted_perm_unique : ∀ (l1 l2 : List (String × Val × Val)),
    List.Perm l1 l2 →
    List.Sorted (fun a b => strLe a.1 b.1 = true) l1 →
    List.Sorted (fun a b => strLe a.1 b.1 = true) l2 →
    (l1.map (fun t => t.1)).Nodup → l1 = l2 := by
  intro l1
  induction l1 with
  | nil =>
    intro l2 hp hs1 hs2 hnd
    exact hp.nil_eq
  | cons a t1 ih =>
    intro l2 hp hs1 hs2 hnd
    cases l2 with
    | nil =>
      have hx := hp.symm.nil_eq
      simp at hx
    | cons b t2 =>
      have hab : a = b := by
        have hmem_a : a ∈ b :: t2 := hp.mem_iff.mp (List.mem_cons_self _ _)
        have hmem_b : b ∈ a :: t1 := hp.mem_iff.mpr (List.mem_cons_self _ _)
        rcases List.mem_cons.mp hmem_a with h1 | h1
        · exact h1
        rcases List.mem_cons.mp hmem_b with h2 | h2
        · exact h2.symm
        have hba : strLe b.1 a.1 = true := (List.sorted_cons.mp hs2).1 a h1
        have hab2 : strLe a.1 b.1 = true := (List.sorted_cons.mp hs1).1 b h2
        have hkey : a.1 = b.1 := strLe_antisymm _ _ hab2 hba
        exfalso
        have hin : b.1 ∈ t1.map (fun t => t.1) :=
          List.mem_map_of_mem _ h2
        rw [← hkey] at hin
        have hnd2 := hnd
        rw [List.map_cons] at hnd2
        exact (List.nodup_cons.mp hnd2).1 hin
      subst hab
      have hpt : List.Perm t1 t2 := hp.cons_inv
      have hnd2 := hnd
      rw [List.map_cons] at hnd2
      have htl := ih t2 hpt (List.sorted_cons.mp hs1).2
        (List.sorted_cons.mp hs2).2 (List.nodup_cons.mp hnd2).2
      rw [htl]

/-- C4 (amended): byte-identical output for identical calls holds whenever
the rendered key fragments of every mapping are pairwise distinct: two
renders of the same non-nil mapping whose entry lists are permutations of
one another (the model of Go's arbitrary map enumeration order between
two calls), at any fuels, produce identical results, because the sort by
rendered key fragments cancels the enumeration order.  With colliding
fragments the order among tied entries leaks through the sort
(`C4_counterexample`). -/
theorem C4_amended (N N2 : Nat) (o : Options) (h : Heap) (s : DumpState)
    (tn : String) (es es2 : List (Val × Val))
    (r r2 : DumpState × String × List Ev)
    (hperm : List.Perm es es2)
    (hnd : (es.map (fun x => (renderKey N o h x.1).getD "")).Nodup)
    (hrun : runF N o h s (.rmapBody tn es false) = some r)
    (hrun2 : runF N2 o h s (.rmapBody tn es2 false) = some r2) :
    r = r2 := by
  cases N with
  | zero => simp [runF] at hrun
  | succ n =>
    cases N2 with
    | zero => simp [runF] at hrun2
    | succ n2 =>
      rw [runF] at hrun hrun2
      cases es with
      | nil =>
        have hes2 : es2 = [] := hperm.nil_eq.symm
        subst hes2
        rw [if_neg Bool.false_ne_true] at hrun hrun2
        have hemp0 : ([] : List (Val × Val)).isEmpty = true := rfl
        rw [if_pos hemp0] at hrun hrun2
        obtain rfl := Option.some.inj hrun
        obtain rfl := Option.some.inj hrun2
        rfl
      | cons e t =>
        cases es2 with
        | nil =>
          have hx := hperm.symm.nil_eq
          simp at hx
        | cons e2 t2 =>
          have hemp1 : (e :: t).isEmpty = false := rfl
          have hemp2 : (e2 :: t2).isEmpty = false := rfl
          rw [hemp1] at hrun
          rw [hemp2] at hrun2
          simp only [Bool.false_eq_true, if_false] at hrun hrun2
          obtain ⟨ks, hksmap, hksann, hksrun⟩ :=
            rmapPrep_keysN o h tn n (e :: t) [] (e :: t).length s r hrun
          obtain ⟨ks2, hks2map, hks2ann, hks2run⟩ :=
            rmapPrep_keysN o h tn n2 (e2 :: t2) [] (e2 :: t2).length s r2
              hrun2
          have hksf := ks_functional n o h ks (e :: t) hksmap hksann
          have hks2f := ks_functional n2 o h ks2 (e2 :: t2) hks2map hks2ann
          have hconv1 : ∀ x ∈ (e :: t), ∃ k,
              renderKey n o h x.1 = some k := by
            intro x hx
            have hx2 : x ∈ ks.map (fun t => t.2) := by
              rw [hksmap]; exact hx
            obtain ⟨tt, htt, htteq⟩ := List.mem_map.mp hx2
            refine ⟨tt.1, ?_⟩
            rw [show x.1 = tt.2.1 from by rw [← htteq]]
            exact hksann tt htt
          have hconv2 : ∀ x ∈ (e2 :: t2), ∃ k,
              renderKey n2 o h x.1 = some k := by
            intro x hx
            have hx2 : x ∈ ks2.map (fun t => t.2) := by
              rw [hks2map]; exact hx
            obtain ⟨tt, htt, htteq⟩ := List.mem_map.mp hx2
            refine ⟨tt.1, ?_⟩
            rw [show x.1 = tt.2.1 from by rw [← htteq]]
            exact hks2ann tt htt
          have hFF : ∀ x ∈ (e2 :: t2),
              (((renderKey n2 o h x.1).getD "", x) :
                String × Val × Val) =
              ((renderKey n o h x.1).getD "", x) := by
            intro x hx
            obtain ⟨k2, hk2⟩ := hconv2 x hx
            obtain ⟨k1, hk1⟩ := hconv1 x (hperm.mem_iff.mpr hx)
            rw [hk1, hk2, renderKey_det hk2 hk1]
          have hmapeq : (e2 :: t2).map
              (fun x => (((renderKey n2 o h x.1).getD "", x) :
                String × Val × Val)) =
              (e2 :: t2).map
              (fun x => ((renderKey n o h x.1).getD "", x)) :=
            List.map_congr_left hFF
          have hksperm : List.Perm ks ks2 := by
            rw [hksf, hks2f, hmapeq]
            exact hperm.map _
          have hndn : ((e :: t).map
              (fun x => (renderKey n o h x.1).getD "")).Nodup := by
            have hmm : (e :: t).map
                (fun x => (renderKey (n + 1) o h x.1).getD "") =
                (e :: t).map
                (fun x => (renderKey n o h x.1).getD "") := by
              apply List.map_congr_left
              intro x hx
              obtain ⟨k1, hk1⟩ := hconv1 x hx
              rw [hk1, renderKey_mono hk1]
            rw [← hmm]
            exact hnd
          haveI instTr : IsTrans (String × Val × Val)
              (fun a b => strLe a.1 b.1 = true) :=
            ⟨fun a b c hab hbc => charsLe_trans _ _ _ hab hbc⟩
          haveI instTo : IsTotal (String × Val × Val)
              (fun a b => strLe a.1 b.1 = true) :=
            ⟨fun a b => charsLe_total _ _⟩
          have hndS : ((List.insertionSort
              (fun a b => strLe a.1 b.1 = true) ks).map
              (fun t => t.1)).Nodup := by
            have hp2 : List.Perm
                ((List.insertionSort
                  (fun a b => strLe a.1 b.1 = true) ks).map
                  (fun t => t.1))
                (ks.map (fun t => t.1)) :=
              (List.perm_insertionSort _ ks).map _
            rw [List.Perm.nodup_iff hp2]
            rw [hksf, List.map_map]
            exact hndn
          have hSperm : List.Perm
              (List.insertionSort (fun a b => strLe a.1 b.1 = true) ks)
              (List.insertionSort (fun a b => strLe a.1 b.1 = true) ks2) :=
            (List.perm_insertionSort _ ks).trans
              (hksperm.trans (List.perm_insertionSort _ ks2).symm)
          have hS : List.insertionSort (fun a b => strLe a.1 b.1 = true)
              ks = List.insertionSort (fun a b => strLe a.1 b.1 = true)
              ks2 :=
            sorted_perm_unique _ _ hSperm
              (List.sorted_insertionSort _ ks)
              (List.sorted_insertionSort _ ks2) hndS
          cases n with
          | zero => simp [runF] at hksrun
          | succ na =>
            cases n2 with
            | zero => simp [runF] at hks2run
            | succ nb =>
              rw [runF] at hksrun hks2run
              simp only [List.append_nil,
                List.reverse_reverse] at hksrun hks2run
              rw [Option.map_eq_some'] at hksrun hks2run
              obtain ⟨inner, hinner, hreq⟩ := hksrun
              obtain ⟨inner2, hinner2, hreq2⟩ := hks2run
              rw [hS] at hinner
              have hlen : (e :: t).length = (e2 :: t2).length :=
                hperm.length_eq
              rw [hlen] at hinner
              have hid := runF_det hinner hinner2
              rw [← hreq, ← hreq2, hid]

/-- C4 counterexample: the same non-nil mapping (identity 9, two distinct
pointer keys whose targets both render as `&5`) rendered from two entry
enumeration orders — the model of Go's arbitrary map iteration order
between two calls with identical input and configuration — produces two
different byte sequences: the sort compares the rendered key fragments,
which collide, so the enumeration order of the tied entries leaks into
the output.  Byte-identical output for every pair of identical calls is
therefore false. -/
theorem C4_counterexample :
    (SdumpF 100 ({} : Options) [(1, Val.vint 5), (2, Val.vint 5)]
      [Val.vmap "map[*int]string" 9
        [(.vptr "int" 1, .vstr "a"), (.vptr "int" 2, .vstr "b")]]).map
        Prod.fst =
      some "map[*int]string\x7b\n  &5: \"a\",\n  &5: \"b\",\n\x7d" ∧
    (SdumpF 100 ({} : Options) [(1, Val.vint 5), (2, Val.vint 5)]
      [Val.vmap "map[*int]string" 9
        [(.vptr "int" 2, .vstr "b"), (.vptr "int" 1, .vstr "a")]]).map
        Prod.fst =
      some "map[*int]string\x7b\n  &5: \"b\",\n  &5: \"a\",\n\x7d" ∧
    List.Perm
      [((Val.vptr "int" 1 : Val), (Val.vstr "a" : Val)),
       (.vptr "int" 2, .vstr "b")]
      [(.vptr "int" 2, .vstr "b"), (.vptr "int" 1, .vstr "a")] ∧
    ¬ ("map[*int]string\x7b\n  &5: \"a\",\n  &5: \"b\",\n\x7d" =
       "map[*int]string\x7b\n  &5: \"b\",\n  &5: \"a\",\n\x7d") := by
  refine ⟨by decide, by decide, ?_, by decide⟩
  exact List.Perm.swap _ _ _

theorem C4_witness :
    List.Perm
      [((Val.vint 2 : Val), (Val.vstr "b" : Val)), (.vint 1, .vstr "a")]
      [(.vint 1, .vstr "a"), (.vint 2, .vstr "b")] ∧
    ([((Val.vint 2 : Val), (Val.vstr "b" : Val)),
      (.vint 1, .vstr "a")].map
      (fun x => (renderKey 100 ({} : Options) [] x.1).getD "")).Nodup ∧
    runF 100 ({} : Options) [] (initDumpState [])
      (.rmapBody "map[int]string"
        [(.vint 2, .vstr "b"), (.vint 1, .vstr "a")] false) =
      some (⟨0, [], [], [], [], none⟩,
        "map[int]string\x7b\n  1: \"a\",\n  2: \"b\",\n\x7d", []) ∧
    runF 90 ({} : Options) [] (initDumpState [])
      (.rmapBody "map[int]string"
        [(.vint 1, .vstr "a"), (.vint 2, .vstr "b")] false) =
      some (⟨0, [], [], [], [], none⟩,
        "map[int]string\x7b\n  1: \"a\",\n  2: \"b\",\n\x7d", []) ∧
    ((⟨0, [], [], [], [], none⟩ : DumpState),
      ("map[int]string\x7b\n  1: \"a\",\n  2: \"b\",\n\x7d" : String),
      ([] : List Ev)) =
    ((⟨0, [], [], [], [], none⟩ : DumpState),
      ("map[int]string\x7b\n  1: \"a\",\n  2: \"b\",\n\x7d" : String),
      ([] : List Ev)) :=
  ⟨List.Perm.swap _ _ _, by decide, by rfl, by rfl,
    C4_amended 100 90 ({} : Options) [] (initDumpState [])
      "map[int]string"
      [(.vint 2, .vstr "b"), (.vint 1, .vstr "a")]
      [(.vint 1, .vstr "a"), (.vint 2, .vstr "b")]
      (⟨0, [], [], [], [], none⟩,
        "map[int]string\x7b\n  1: \"a\",\n  2: \"b\",\n\x7d", [])
      (⟨0, [], [], [], [], none⟩,
        "map[int]string\x7b\n  1: \"a\",\n  2: \"b\",\n\x7d", [])
      (List.Perm.swap _ _ _) (by decide) (by rfl) (by rfl)⟩


theorem parentsAdd_pointers (s : DumpState) (id : Nat) :
    (parentsAdd s id).2.pointers = s.pointers := by
  unfold parentsAdd
  by_cases hc : s.parents.contains id = true
  · rw [if_pos hc]
  · rw [if_neg hc]

theorem labelOf_pointers (s : DumpState) (id : Nat) :
    (s.labelOf id).2.pointers = s.pointers := by
  unfold DumpState.labelOf
  cases s.labels.findIdx? (fun x => x == id) <;> rfl

theorem newline_pointers (o : Options) (s : DumpState) :
    (newlineWithPointerNameComment o s).1.pointers = s.pointers := by
  unfold newlineWithPointerNameComment
  cases s.current with
  | none => rfl
  | some id => exact labelOf_pointers s id

theorem mapReusedPointers_det {n m : Nat} {h : Heap} {v : Val}
    {a b : List Nat} (h1 : mapReusedPointers n h v = some a)
    (h2 : mapReusedPointers m h v = some b) : a = b := by
  have hm1 := mapReusedPointers_le (Nat.le_max_left n m) h1
  have hm2 := mapReusedPointers_le (Nat.le_max_right n m) h2
  rw [hm1] at hm2
  exact Option.some.inj hm2

/-- The heap of the diverging input: one struct instance of type `C` whose
single field `Self` points back to the same instance. -/
def c3Heap : Heap := [(1, .vstruct "C" [("Self", "", .vptr "C" 1)])]

/-- A map (identity 2) whose only KEY is the cyclic pointer `&c` (identity
1); the entry's value is a plain int.  The scanner visits only map values,
so identity 1 is never recorded as reused. -/
def c3Map : Val := .vmap "map[*C]int" 2 [(.vptr "C" 1, .vint 0)]

theorem c3_loop : ∀ n : Nat, ∀ s : DumpState, s.pointers = [] →
    runF n ({} : Options) c3Heap s (.rval (.vptr "C" 1)) = none := by
  intro n
  induction n using Nat.strong_induction_on with
  | _ n ih =>
    intro s hsp
    cases n with
    | zero => rfl
    | succ m =>
      simp only [runF]
      cases m with
      | zero => rfl
      | succ m2 =>
        simp only [runF, identityOf]
        cases hadd : parentsAdd s 1 with
        | mk was s1 =>
          have hs1p : s1.pointers = [] := by
            have hx := parentsAdd_pointers s 1
            rw [hadd] at hx
            exact hx.trans hsp
          have hpf : pointerFor s1 (Val.vptr "C" 1) = (none, false, s1) := by
            unfold pointerFor
            simp only [identityOf]
            rw [hs1p]
            rfl
          have hdpr : ({} : Options).disablePointerReplacement = false := rfl
          simp only [hadd, hdpr, Bool.false_and, Bool.not_false,
            Bool.not_true, Bool.false_eq_true, if_false, hpf]
          have hcore : runF m2 ({} : Options) c3Heap s1 (.rptrBody "C" 1) =
              none := by
            cases m2 with
            | zero => rfl
            | succ m3 =>
              have hl : List.lookup 1 c3Heap =
                  some (Val.vstruct "C" [("Self", "", Val.vptr "C" 1)]) :=
                rfl
              have hsg : ({} : Options).strictGo = false := rfl
              simp only [runF, hl, hsg, Bool.false_eq_true, if_false]
              have hinner : runF m3 ({} : Options) c3Heap s1
                  (.rval (.vstruct "C" [("Self", "", .vptr "C" 1)])) =
                  none := by
                cases m3 with
                | zero => rfl
                | succ m4 =>
                  simp only [runF]
                  cases m4 with
                  | zero => rfl
                  | succ m5 =>
                    have hexc : fieldExcluded ({} : Options) "Self" "" =
                        false := rfl
                    have hflt : fieldFilteredOut ({} : Options) "Self" ""
                        (Val.vptr "C" 1) = false := rfl
                    have hhz : ({} : Options).hideZeroValues = false := rfl
                    simp only [runF, hexc, hflt, hhz, Bool.false_eq_true,
                      if_false, Option.some_bind]
                    have hspp : (DumpState.mk
                        ((newlineWithPointerNameComment ({} : Options)
                          s1).1.depth + 1)
                        (newlineWithPointerNameComment ({} : Options)
                          s1).1.pointers
                        (newlineWithPointerNameComment ({} : Options)
                          s1).1.visited
                        (newlineWithPointerNameComment ({} : Options)
                          s1).1.parents
                        (newlineWithPointerNameComment ({} : Options)
                          s1).1.labels
                        (newlineWithPointerNameComment ({} : Options)
                          s1).1.current).pointers = [] := by
                      show (newlineWithPointerNameComment ({} : Options)
                        s1).1.pointers = []
                      rw [newline_pointers]
                      exact hs1p
                    have hrec := ih m5 (by omega) _ hspp
                    rw [hrec]
                    rfl
              rw [hinner]
              rfl
          rw [hcore]
          rfl

theorem c3_entries : ∀ n : Nat, ∀ s : DumpState, ∀ i total : Nat,
    s.pointers = [] →
    runF n ({} : Options) c3Heap s
      (.rentries [(.vptr "C" 1, .vint 0)] i total) = none := by
  intro n s i total hsp
  cases n with
  | zero => rfl
  | succ m =>
    simp only [runF]
    rw [c3_loop m s hsp]
    rfl

theorem c3_prep_nil : ∀ n : Nat, ∀ s : DumpState, ∀ kstr : String,
    ∀ total : Nat, s.pointers = [] →
    runF n ({} : Options) c3Heap s
      (.rmapPrep "map[*C]int" [] [(kstr, .vptr "C" 1, .vint 0)] total) =
      none := by
  intro n s kstr total hsp
  cases n with
  | zero => rfl
  | succ m =>
    simp only [runF, List.reverse_cons, List.reverse_nil, List.nil_append,
      List.insertionSort, List.orderedInsert, List.map_cons, List.map_nil]
    have hspp : (DumpState.mk
        ((newlineWithPointerNameComment ({} : Options) s).1.depth + 1)
        (newlineWithPointerNameComment ({} : Options) s).1.pointers
        (newlineWithPointerNameComment ({} : Options) s).1.visited
        (newlineWithPointerNameComment ({} : Options) s).1.parents
        (newlineWithPointerNameComment ({} : Options) s).1.labels
        (newlineWithPointerNameComment ({} : Options) s).1.current).pointers
        = [] := by
      show (newlineWithPointerNameComment ({} : Options) s).1.pointers = []
      rw [newline_pointers]
      exact hsp
    rw [c3_entries m _ 0 total hspp]
    rfl

theorem c3_prep : ∀ n : Nat, ∀ s : DumpState, ∀ total : Nat,
    s.pointers = [] →
    runF n ({} : Options) c3Heap s
      (.rmapPrep "map[*C]int" [(.vptr "C" 1, .vint 0)] [] total) = none := by
  intro n s total hsp
  cases n with
  | zero => rfl
  | succ m =>
    simp only [runF]
    cases hmr : mapReusedPointers m c3Heap (Val.vptr "C" 1) with
    | none => rfl
    | some ptrs =>
      rw [Option.some_bind]
      cases hks : runF m ({} : Options) c3Heap (initDumpState ptrs)
          (.rval (.vptr "C" 1)) with
      | none => rfl
      | some ks =>
        rw [Option.some_bind]
        exact c3_prep_nil m s ks.2.1 total hsp

theorem c3_mapbody : ∀ n : Nat, ∀ s : DumpState, s.pointers = [] →
    runF n ({} : Options) c3Heap s
      (.rmapBody "map[*C]int" [(.vptr "C" 1, .vint 0)] false) = none := by
  intro n s hsp
  cases n with
  | zero => rfl
  | succ m =>
    simp only [runF, Bool.false_eq_true, if_false, List.isEmpty_cons,
      List.length_cons, List.length_nil]
    exact c3_prep m s 1 hsp

theorem c3_gate : ∀ n : Nat, ∀ s : DumpState, s.pointers = [] →
    runF n ({} : Options) c3Heap s (.rval c3Map) = none := by
  intro n s hsp
  cases n with
  | zero => rfl
  | succ m =>
    show runF (Nat.succ m) ({} : Options) c3Heap s
      (.rval (.vmap "map[*C]int" 2 [(.vptr "C" 1, .vint 0)])) = none
    simp only [runF]
    cases m with
    | zero => rfl
    | succ m2 =>
      simp only [runF, identityOf]
      cases hadd : parentsAdd s 2 with
      | mk was s1 =>
        have hs1p : s1.pointers = [] := by
          have hx := parentsAdd_pointers s 2
          rw [hadd] at hx
          exact hx.trans hsp
        have hpf : pointerFor s1
            (Val.vmap "map[*C]int" 2 [(.vptr "C" 1, .vint 0)]) =
            (none, false, s1) := by
          unfold pointerFor
          simp only [identityOf]
          rw [hs1p]
          rfl
        have hdpr : ({} : Options).disablePointerReplacement = false := rfl
        simp only [hadd, hdpr, Bool.false_and, Bool.not_false,
          Bool.not_true, Bool.false_eq_true, if_false, hpf]
        rw [c3_mapbody m2 s1 hs1p]
        rfl

theorem c3_top : ∀ n : Nat, ∀ s : DumpState, s.pointers = [] →
    runF n ({} : Options) c3Heap s (.rtop c3Map) = none := by
  intro n s hsp
  cases n with
  | zero => rfl
  | succ m =>
    show runF (Nat.succ m) ({} : Options) c3Heap s
      (.rtop (.vmap "map[*C]int" 2 [(.vptr "C" 1, .vint 0)])) = none
    simp only [runF]
    exact c3_gate m s hsp

/-- C3: REFUTED BY THE CODE — the scanner (`MapReusedPointers`) never
visits map KEYS, yet `dumpMap` renders each key with the main dump state,
so a cyclic pointer reachable only through a map key is untracked and
`descendIntoPossiblePointer` descends through the cycle forever: the
renderer diverges (returns `none` at every fuel) on a value the claim
promises is rendered in finite form, even though the scan of the same
value succeeds with an empty reused set. -/
theorem C3_divergence :
    (∀ n : Nat, SdumpF n ({} : Options) c3Heap [c3Map] = none) ∧
    mapReusedPointers 100 c3Heap c3Map = some [] := by
  have h100 : mapReusedPointers 100 c3Heap c3Map = some [] := by rfl
  constructor
  · intro n
    show sdumpArgsF n ({} : Options) c3Heap [c3Map] false = none
    cases hst : newDumpStateF n c3Heap c3Map with
    | none => simp [sdumpArgsF, sdumpOneF, hst]
    | some st =>
      have hstp : st.pointers = [] := by
        unfold newDumpStateF at hst
        cases hmr : mapReusedPointers n c3Heap c3Map with
        | none => rw [hmr] at hst; exact absurd hst (by simp)
        | some reused =>
          rw [hmr] at hst
          have hre : reused = [] := mapReusedPointers_det hmr h100
          have hin : initDumpState reused = st := by
            simpa using hst
          rw [← hin, hre]
          rfl
      have htop := c3_top n st hstp
      simp [sdumpArgsF, sdumpOneF, hst, htop]
  · exact h100



/-- Formalisation of the spec's counting notion for C2 ("reachable via ≥2
distinct reference occurrences in the input, siblings or a cycle revisiting
itself both count"): the canonical enumeration of reference occurrences of
a (possibly cyclic) value graph.  Every time a reference value (slice, map
or pointer) is encountered its identity is recorded as one occurrence; its
children are expanded only at the identity's first encounter (tracked by
the seen list `P`), so each reference slot of the graph is counted exactly
once and the enumeration is finite on cyclic graphs.  Returns the extended
seen list and the occurrence trace.  This definition is written from the
spec's words, independently of the scanner, to be compared with
`mapReusedPointers`. -/
def occT : Nat → Heap → List Nat → SReq → Option (List Nat × List Nat)
  | 0, _, _, _ => none
  | Nat.succ n, h, P, .one v =>
    match v with
    | .vslice _ id es =>
      if P.contains id then some (P, [id])
      else
        Option.map (fun r => (r.1, id :: r.2)) (occT n h (id :: P) (.many es))
    | .vmap _ id es =>
      if P.contains id then some (P, [id])
      else
        Option.map (fun r => (r.1, id :: r.2))
          (occT n h (id :: P) (.entries es))
    | .vptr _ id =>
      if P.contains id then some (P, [id])
      else
        match h.lookup id with
        | some t =>
          Option.map (fun r => (r.1, id :: r.2)) (occT n h (id :: P) (.one t))
        | none => none
    | .varray _ es => occT n h P (.many es)
    | .vstruct _ fs => occT n h P (.many (fs.map (fun f => f.2.2)))
    | _ => some (P, [])
  | Nat.succ _, _, P, .many [] => some (P, [])
  | Nat.succ n, h, P, .many (v :: vs) => do
    let r1 ← occT n h P (.one v)
    let r2 ← occT n h r1.1 (.many vs)
    some (r2.1, r1.2 ++ r2.2)
  | Nat.succ _, _, P, .entries [] => some (P, [])
  | Nat.succ n, h, P, .entries (e :: es) => do
    let r1 ← occT n h P (.one e.2)
    let r2 ← occT n h r1.1 (.entries es)
    some (r2.1, r1.2 ++ r2.2)

theorem reusedSubset {st st2 : ScanState} {tr : List Nat}
    (hc : ∀ i, i ∈ st2.pointers ↔ i ∈ st.pointers ∨ 1 ≤ tr.count i)
    (hru : ∀ i, i ∈ st2.reused ↔ i ∈ st.reused ∨
      (i ∈ st.pointers ∧ 1 ≤ tr.count i) ∨ 2 ≤ tr.count i)
    (hsub : ∀ i, i ∈ st.reused → i ∈ st.pointers) :
    ∀ i, i ∈ st2.reused → i ∈ st2.pointers := by
  intro i hi
  rw [hru] at hi
  rw [hc]
  rcases hi with hx | hx | hx
  · exact Or.inl (hsub i hx)
  · exact Or.inr hx.2
  · exact Or.inr (by omega)

theorem scanF_occT : ∀ {n : Nat} {h : Heap} {st : ScanState} {q : SReq}
    {st2 : ScanState}, scanF n h st q = some st2 →
    (∀ i, i ∈ st.reused → i ∈ st.pointers) →
    ∃ tr, occT n h st.pointers q = some (st2.pointers, tr) ∧
      (∀ i, i ∈ st2.pointers ↔ i ∈ st.pointers ∨ 1 ≤ tr.count i) ∧
      (∀ i, i ∈ st2.reused ↔ i ∈ st.reused ∨
        (i ∈ st.pointers ∧ 1 ≤ tr.count i) ∨ 2 ≤ tr.count i) := by
  intro n
  induction n with
  | zero => intro h st q st2 hr hsub; simp [scanF] at hr
  | succ n ih =>
    intro h st q st2 hr hsub
    match q with
    | .one v =>
      cases v with
      | vbool b =>
        simp only [scanF, identityOf, Bool.false_eq_true, if_false,
          Option.some.injEq] at hr
        subst hr
        exact ⟨[], rfl, fun i => by simp, fun i => by simp⟩
      | vint k =>
        simp only [scanF, identityOf, Bool.false_eq_true, if_false,
          Option.some.injEq] at hr
        subst hr
        exact ⟨[], rfl, fun i => by simp, fun i => by simp⟩
      | vstr s =>
        simp only [scanF, identityOf, Bool.false_eq_true, if_false,
          Option.some.injEq] at hr
        subst hr
        exact ⟨[], rfl, fun i => by simp, fun i => by simp⟩
      | vnil =>
        simp only [scanF, identityOf, Bool.false_eq_true, if_false,
          Option.some.injEq] at hr
        subst hr
        exact ⟨[], rfl, fun i => by simp, fun i => by simp⟩
      | vnilptr =>
        simp only [scanF, identityOf, Bool.false_eq_true, if_false,
          Option.some.injEq] at hr
        subst hr
        exact ⟨[], rfl, fun i => by simp, fun i => by simp⟩
      | vnilmap tn =>
        simp only [scanF, identityOf, Bool.false_eq_true, if_false,
          Option.some.injEq] at hr
        subst hr
        exact ⟨[], rfl, fun i => by simp, fun i => by simp⟩
      | varray tn es =>
        rw [scanF] at hr
        simp only [identityOf] at hr
        rw [occT]
        exact ih hr hsub
      | vstruct tn fs =>
        rw [scanF] at hr
        simp only [identityOf] at hr
        rw [occT]
        exact ih hr hsub
      | vptr tn id =>
        rw [scanF] at hr
        simp only [identityOf, addPointerReturnTrueIfWasReused] at hr
        rw [occT]
        by_cases h1 : st.reused.contains id = true
        · rw [if_pos h1] at hr
          simp only [if_pos rfl] at hr
          obtain rfl := Option.some.inj hr
          have hmem : id ∈ st.pointers :=
            hsub id (containsNat_iff.mp h1)
          rw [if_pos (containsNat_iff.mpr hmem)]
          refine ⟨[id], rfl, fun i => ?_, fun i => ?_⟩
          · by_cases hi : i = id
            · subst hi; simp [hmem]
            · simp [List.count_cons, hi]
          · by_cases hi : i = id
            · subst hi
              simp only [List.count_cons, List.count_nil, beq_self_eq_true,
                if_pos rfl]
              have hri : i ∈ st.reused := containsNat_iff.mp h1
              simp [hri, hmem]
            · simp [List.count_cons, hi]
        · rw [if_neg h1] at hr
          by_cases h2 : st.pointers.contains id = true
          · rw [if_pos h2] at hr
            simp only [if_pos rfl] at hr
            obtain rfl := Option.some.inj hr
            rw [if_pos h2]
            have hmem : id ∈ st.pointers := containsNat_iff.mp h2
            refine ⟨[id], rfl, fun i => ?_, fun i => ?_⟩
            · by_cases hi : i = id
              · subst hi; simp [hmem]
              · simp [List.count_cons, hi]
            · by_cases hi : i = id
              · subst hi
                simp only [List.mem_cons]
                simp [List.count_cons, hmem]
              · simp [List.count_cons, hi]
          · rw [if_neg h2] at hr
            simp only [Bool.false_eq_true, if_false] at hr
            rw [if_neg h2]
            cases hl : h.lookup id with
            | none =>
              rw [hl] at hr
              exact absurd hr (by simp)
            | some t =>
              rw [hl] at hr
              dsimp only [] at hr ⊢
              have hsub2 : ∀ i,
                  i ∈ (ScanState.mk (id :: st.pointers) st.reused).reused →
                  i ∈ (ScanState.mk (id :: st.pointers) st.reused).pointers := by
                intro i hi
                exact List.mem_cons_of_mem id (hsub i hi)
              have hr2 : scanF n h
                  (ScanState.mk (id :: st.pointers) st.reused) (.one t) =
                  some st2 := hr
              obtain ⟨tr, hocc, hc, hru⟩ := ih hr2 hsub2
              have hocc2 : occT n h (id :: st.pointers) (.one t) =
                  some (st2.pointers, tr) := hocc
              rw [hocc2]
              have hnp : ¬ id ∈ st.pointers := fun hx =>
                h2 (containsNat_iff.mpr hx)
              have hnr : ¬ id ∈ st.reused := fun hx =>
                h1 (containsNat_iff.mpr hx)
              refine ⟨id :: tr, rfl, fun i => ?_, fun i => ?_⟩
              · have hci := hc i
                simp only [List.mem_cons] at hci
                rw [hci]
                by_cases hi : i = id
                · rw [hi]
                  have hcnt : (id :: tr).count id = tr.count id + 1 := by
                    simp [List.count_cons]
                  exact iff_of_true (Or.inl (Or.inl rfl))
                    (Or.inr (by rw [hcnt]; omega))
                · simp only [hi, false_or]
                  simp [List.count_cons, hi]
              · have hri := hru i
                have hci := hc i
                simp only [List.mem_cons] at hri hci
                rw [hri]
                by_cases hi : i = id
                · rw [hi]
                  have hcnt : (id :: tr).count id = tr.count id + 1 := by
                    simp [List.count_cons]
                  rw [hcnt]
                  constructor
                  · intro hx
                    rcases hx with hx | hx | hx
                    · exact absurd hx hnr
                    · obtain ⟨h3, h4⟩ := hx
                      exact Or.inr (Or.inr (by omega))
                    · exact Or.inr (Or.inr (by omega))
                  · intro hx
                    rcases hx with hx | hx | hx
                    · exact absurd hx hnr
                    · exact absurd hx.1 hnp
                    · exact Or.inr (Or.inl ⟨Or.inl rfl, by omega⟩)
                · simp only [hi, false_or]
                  simp [List.count_cons, hi]
      | vslice tn id es =>
        rw [scanF] at hr
        simp only [identityOf, addPointerReturnTrueIfWasReused] at hr
        rw [occT]
        by_cases h1 : st.reused.contains id = true
        · rw [if_pos h1] at hr
          simp only [if_pos rfl] at hr
          obtain rfl := Option.some.inj hr
          have hmem : id ∈ st.pointers :=
            hsub id (containsNat_iff.mp h1)
          rw [if_pos (containsNat_iff.mpr hmem)]
          refine ⟨[id], rfl, fun i => ?_, fun i => ?_⟩
          · by_cases hi : i = id
            · subst hi; simp [hmem]
            · simp [List.count_cons, hi]
          · by_cases hi : i = id
            · subst hi
              simp only [List.count_cons, List.count_nil, beq_self_eq_true,
                if_pos rfl]
              have hri : i ∈ st.reused := containsNat_iff.mp h1
              simp [hri, hmem]
            · simp [List.count_cons, hi]
        · rw [if_neg h1] at hr
          by_cases h2 : st.pointers.contains id = true
          · rw [if_pos h2] at hr
            simp only [if_pos rfl] at hr
            obtain rfl := Option.some.inj hr
            rw [if_pos h2]
            have hmem : id ∈ st.pointers := containsNat_iff.mp h2
            refine ⟨[id], rfl, fun i => ?_, fun i => ?_⟩
            · by_cases hi : i = id
              · subst hi; simp [hmem]
              · simp [List.count_cons, hi]
            · by_cases hi : i = id
              · subst hi
                simp only [List.mem_cons]
                simp [List.count_cons, hmem]
              · simp [List.count_cons, hi]
          · rw [if_neg h2] at hr
            simp only [Bool.false_eq_true, if_false] at hr
            rw [if_neg h2]
            have hsub2 : ∀ i,
                i ∈ (ScanState.mk (id :: st.pointers) st.reused).reused →
                i ∈ (ScanState.mk (id :: st.pointers) st.reused).pointers := by
              intro i hi
              exact List.mem_cons_of_mem id (hsub i hi)
            have hr2 : scanF n h
                (ScanState.mk (id :: st.pointers) st.reused) (.many es) =
                some st2 := hr
            obtain ⟨tr, hocc, hc, hru⟩ := ih hr2 hsub2
            have hocc2 : occT n h (id :: st.pointers) (.many es) =
                some (st2.pointers, tr) := hocc
            rw [hocc2]
            have hnp : ¬ id ∈ st.pointers := fun hx =>
              h2 (containsNat_iff.mpr hx)
            have hnr : ¬ id ∈ st.reused := fun hx =>
              h1 (containsNat_iff.mpr hx)
            refine ⟨id :: tr, rfl, fun i => ?_, fun i => ?_⟩
            · have hci := hc i
              simp only [List.mem_cons] at hci
              rw [hci]
              by_cases hi : i = id
              · rw [hi]
                have hcnt : (id :: tr).count id = tr.count id + 1 := by
                  simp [List.count_cons]
                exact iff_of_true (Or.inl (Or.inl rfl))
                  (Or.inr (by rw [hcnt]; omega))
              · simp only [hi, false_or]
                simp [List.count_cons, hi]
            · have hri := hru i
              have hci := hc i
              simp only [List.mem_cons] at hri hci
              rw [hri]
              by_cases hi : i = id
              · rw [hi]
                have hcnt : (id :: tr).count id = tr.count id + 1 := by
                  simp [List.count_cons]
                rw [hcnt]
                constructor
                · intro hx
                  rcases hx with hx | hx | hx
                  · exact absurd hx hnr
                  · obtain ⟨h3, h4⟩ := hx
                    exact Or.inr (Or.inr (by omega))
                  · exact Or.inr (Or.inr (by omega))
                · intro hx
                  rcases hx with hx | hx | hx
                  · exact absurd hx hnr
                  · exact absurd hx.1 hnp
                  · exact Or.inr (Or.inl ⟨Or.inl rfl, by omega⟩)
              · simp only [hi, false_or]
                simp [List.count_cons, hi]
      | vmap tn id es =>
        rw [scanF] at hr
        simp only [identityOf, addPointerReturnTrueIfWasReused] at hr
        rw [occT]
        by_cases h1 : st.reused.contains id = true
        · rw [if_pos h1] at hr
          simp only [if_pos rfl] at hr
          obtain rfl := Option.some.inj hr
          have hmem : id ∈ st.pointers :=
            hsub id (containsNat_iff.mp h1)
          rw [if_pos (containsNat_iff.mpr hmem)]
          refine ⟨[id], rfl, fun i => ?_, fun i => ?_⟩
          · by_cases hi : i = id
            · subst hi; simp [hmem]
            · simp [List.count_cons, hi]
          · by_cases hi : i = id
            · subst hi
              simp only [List.count_cons, List.count_nil, beq_self_eq_true,
                if_pos rfl]
              have hri : i ∈ st.reused := containsNat_iff.mp h1
              simp [hri, hmem]
            · simp [List.count_cons, hi]
        · rw [if_neg h1] at hr
          by_cases h2 : st.pointers.contains id = true
          · rw [if_pos h2] at hr
            simp only [if_pos rfl] at hr
            obtain rfl := Option.some.inj hr
            rw [if_pos h2]
            have hmem : id ∈ st.pointers := containsNat_iff.mp h2
            refine ⟨[id], rfl, fun i => ?_, fun i => ?_⟩
            · by_cases hi : i = id
              · subst hi; simp [hmem]
              · simp [List.count_cons, hi]
            · by_cases hi : i = id
              · subst hi
                simp only [List.mem_cons]
                simp [List.count_cons, hmem]
              · simp [List.count_cons, hi]
          · rw [if_neg h2] at hr
            simp only [Bool.false_eq_true, if_false] at hr
            rw [if_neg h2]
            have hsub2 : ∀ i,
                i ∈ (ScanState.mk (id :: st.pointers) st.reused).reused →
                i ∈ (ScanState.mk (id :: st.pointers) st.reused).pointers := by
              intro i hi
              exact List.mem_cons_of_mem id (hsub i hi)
            have hr2 : scanF n h
                (ScanState.mk (id :: st.pointers) st.reused) (.entries es) =
                some st2 := hr
            obtain ⟨tr, hocc, hc, hru⟩ := ih hr2 hsub2
            have hocc2 : occT n h (id :: st.pointers) (.entries es) =
                some (st2.pointers, tr) := hocc
            rw [hocc2]
            have hnp : ¬ id ∈ st.pointers := fun hx =>
              h2 (containsNat_iff.mpr hx)
            have hnr : ¬ id ∈ st.reused := fun hx =>
              h1 (containsNat_iff.mpr hx)
            refine ⟨id :: tr, rfl, fun i => ?_, fun i => ?_⟩
            · have hci := hc i
              simp only [List.mem_cons] at hci
              rw [hci]
              by_cases hi : i = id
              · rw [hi]
                have hcnt : (id :: tr).count id = tr.count id + 1 := by
                  simp [List.count_cons]
                exact iff_of_true (Or.inl (Or.inl rfl))
                  (Or.inr (by rw [hcnt]; omega))
              · simp only [hi, false_or]
                simp [List.count_cons, hi]
            · have hri := hru i
              have hci := hc i
              simp only [List.mem_cons] at hri hci
              rw [hri]
              by_cases hi : i = id
              · rw [hi]
                have hcnt : (id :: tr).count id = tr.count id + 1 := by
                  simp [List.count_cons]
                rw [hcnt]
                constructor
                · intro hx
                  rcases hx with hx | hx | hx
                  · exact absurd hx hnr
                  · obtain ⟨h3, h4⟩ := hx
                    exact Or.inr (Or.inr (by omega))
                  · exact Or.inr (Or.inr (by omega))
                · intro hx
                  rcases hx with hx | hx | hx
                  · exact absurd hx hnr
                  · exact absurd hx.1 hnp
                  · exact Or.inr (Or.inl ⟨Or.inl rfl, by omega⟩)
              · simp only [hi, false_or]
                simp [List.count_cons, hi]
    | .many vs =>
      cases vs with
      | nil =>
        rw [scanF] at hr
        obtain rfl := Option.some.inj hr
        rw [occT]
        exact ⟨[], rfl, fun i => by simp, fun i => by simp⟩
      | cons v vs =>
        rw [scanF] at hr
        have hrb : Option.bind (scanF n h st (.one v))
            (fun sm => scanF n h sm (.many vs)) = some st2 := hr
        rw [Option.bind_eq_some] at hrb
        obtain ⟨stm, h1, h2⟩ := hrb
        obtain ⟨tr1, hocc1, hc1, hru1⟩ := ih h1 hsub
        have hsubm : ∀ i, i ∈ stm.reused → i ∈ stm.pointers :=
          reusedSubset hc1 hru1 hsub
        obtain ⟨tr2, hocc2, hc2, hru2⟩ := ih h2 hsubm
        refine ⟨tr1 ++ tr2, ?_, fun i => ?_, fun i => ?_⟩
        · show Option.bind (occT n h st.pointers (.one v))
              (fun r1 => Option.bind (occT n h r1.1 (.many vs))
                (fun r2 => some (r2.1, r1.2 ++ r2.2))) =
              some (st2.pointers, tr1 ++ tr2)
          rw [hocc1]
          simp only [Option.some_bind]
          rw [hocc2]
          simp only [Option.some_bind]
        · rw [hc2 i, hc1 i, List.count_append]
          by_cases hp : i ∈ st.pointers <;>
            simp only [hp, true_or, false_or, or_true, or_false, iff_self] <;>
            omega
        · rw [hru2 i, hru1 i, hc1 i, List.count_append]
          by_cases hp : i ∈ st.pointers <;>
            by_cases hrr : i ∈ st.reused <;>
            simp only [hp, hrr, true_or, false_or, or_true, or_false, true_and,
              false_and, and_true, and_false, iff_self] <;>
            omega
    | .entries es =>
      cases es with
      | nil =>
        rw [scanF] at hr
        obtain rfl := Option.some.inj hr
        rw [occT]
        exact ⟨[], rfl, fun i => by simp, fun i => by simp⟩
      | cons e es =>
        rw [scanF] at hr
        have hrb : Option.bind (scanF n h st (.one e.2))
            (fun sm => scanF n h sm (.entries es)) = some st2 := hr
        rw [Option.bind_eq_some] at hrb
        obtain ⟨stm, h1, h2⟩ := hrb
        obtain ⟨tr1, hocc1, hc1, hru1⟩ := ih h1 hsub
        have hsubm : ∀ i, i ∈ stm.reused → i ∈ stm.pointers :=
          reusedSubset hc1 hru1 hsub
        obtain ⟨tr2, hocc2, hc2, hru2⟩ := ih h2 hsubm
        refine ⟨tr1 ++ tr2, ?_, fun i => ?_, fun i => ?_⟩
        · show Option.bind (occT n h st.pointers (.one e.2))
              (fun r1 => Option.bind (occT n h r1.1 (.entries es))
                (fun r2 => some (r2.1, r1.2 ++ r2.2))) =
              some (st2.pointers, tr1 ++ tr2)
          rw [hocc1]
          simp only [Option.some_bind]
          rw [hocc2]
          simp only [Option.some_bind]
        · rw [hc2 i, hc1 i, List.count_append]
          by_cases hp : i ∈ st.pointers <;>
            simp only [hp, true_or, false_or, or_true, or_false, iff_self] <;>
            omega
        · rw [hru2 i, hru1 i, hc1 i, List.count_append]
          by_cases hp : i ∈ st.pointers <;>
            by_cases hrr : i ∈ st.reused <;>
            simp only [hp, hrr, true_or, false_or, or_true, or_false, true_and,
              false_and, and_true, and_false, iff_self] <;>
            omega

/-- The heap of the C2 showcase input: two distinct int cells. -/
def c2Heap : Heap := [(1, .vint 5), (3, .vint 7)]

/-- `[3]int{&a, &a, &b}`: identity 1 occurs twice (siblings), identity 3
exactly once. -/
def c2Val : Val :=
  .varray "[3]" [.vptr "int" 1, .vptr "int" 1, .vptr "int" 3]

/-- C2: CONFIRMED — whenever the reachability scan (`MapReusedPointers`)
succeeds, its result is exactly the set of identities with at least 2
occurrences in the canonical enumeration `occT` of the input's reference
occurrences (each reference slot counted once, children expanded only at an
identity's first encounter, so siblings and self-revisiting cycles both
count); the seen identities are exactly those occurring at least once, and
an identity encountered exactly once is never in the returned set. -/
theorem C2_scan_reused_iff_two_occurrences {n : Nat} {h : Heap} {v : Val}
    {reused : List Nat} (hscan : mapReusedPointers n h v = some reused) :
    ∃ P tr, occT n h [] (.one v) = some (P, tr) ∧
      (∀ i, i ∈ P ↔ 1 ≤ tr.count i) ∧
      (∀ i, i ∈ reused ↔ 2 ≤ tr.count i) ∧
      (∀ i, tr.count i = 1 → ¬ i ∈ reused) := by
  unfold mapReusedPointers at hscan
  rw [Option.map_eq_some'] at hscan
  obtain ⟨st1, hscan1, hre⟩ := hscan
  have hsub0 : ∀ i, i ∈ ScanState.empty.reused →
      i ∈ ScanState.empty.pointers := by
    intro i hi
    simp [ScanState.empty] at hi
  obtain ⟨tr, hocc, hc, hru⟩ := scanF_occT hscan1 hsub0
  have hocc2 : occT n h [] (.one v) = some (st1.pointers, tr) := hocc
  refine ⟨st1.pointers, tr, hocc2, fun i => ?_, fun i => ?_, fun i hcnt => ?_⟩
  · have hx := hc i
    simpa [ScanState.empty] using hx
  · rw [← hre]
    have hx := hru i
    simpa [ScanState.empty] using hx
  · rw [← hre]
    have hx := hru i
    simp [ScanState.empty] at hx
    rw [hx]
    omega

theorem C2_witness :
    mapReusedPointers 100 c2Heap c2Val = some [1] ∧
    (∃ P tr, occT 100 c2Heap [] (.one c2Val) = some (P, tr) ∧
      (∀ i, i ∈ P ↔ 1 ≤ tr.count i) ∧
      (∀ i, i ∈ ([1] : List Nat) ↔ 2 ≤ tr.count i) ∧
      (∀ i, tr.count i = 1 → ¬ i ∈ ([1] : List Nat))) :=
  ⟨rfl, C2_scan_reused_iff_two_occurrences rfl⟩


end Litter
